import Mathlib

/-!
# Verification of the `dpll` SAT solver repository

Shallow embedding of the repository's core data structures and algorithms,
with theorems checking the natural-language specification against the code.

Conventions used throughout:
* Rust `u32`/`usize` values are modelled as `Nat`; the encodings involved
  (literal codes `2*var + polarity-bit`) never overflow for the variable
  counts the solver supports, so no `% 2^w` normalisation is required.
* Rust `Vec` stacks (`history`, `decision_marks`, the falsified-literal
  buffer) are modelled as Lean lists with the *most recently pushed element
  first* (`push` = cons, `pop` = head/tail, `last()` = head).  Vectors that
  are only indexed (clause lists, assignment state) are Lean lists in source
  order.
* `f64` activity / Jeroslow-Wang scores are modelled as `ℚ`.  The claims
  settled here depend only on the comparison structure of the scores, never
  on floating-point rounding.
-/

/-! ## Literals

`src/src/lit.rs` and `src/src/clause.rs` both define a `Lit(u32)` wrapper
with the encoding `code = (var << 1) | (!is_pos)`.  The two generations
share `new`, `var`, `is_pos`, `is_neg`, `eval_with`, but differ in their
negation operations:

* `src/src/lit.rs`: `negated()  = Lit::new(self.var(), false)` and
  `inverted() = Lit(self.0 ^ 1)`;
* `src/src/clause.rs`: `negated() = Lit(self.0 ^ 1)` (the bit flip).

We model one `Lit` type and keep both operations, naming the `clause.rs`
bit-flip variant `negatedClause`.
-/

structure Lit where
  code : Nat
deriving DecidableEq, Repr

namespace Lit

/-- `Lit::new(var, is_pos)`: `(var << 1) | (!is_pos)`. -/
def new (var : Nat) (is_pos : Bool) : Lit :=
  ⟨2 * var + (if is_pos then 0 else 1)⟩

/-- `Lit::var` / `Lit::var_id`: `self.0 >> 1`. -/
def var (l : Lit) : Nat := l.code / 2

/-- `Lit::is_pos`: `(self.0 & 1) == 0`. -/
def isPos (l : Lit) : Bool := l.code % 2 == 0

/-- `Lit::is_neg`: `(self.0 & 1) == 1`. -/
def isNeg (l : Lit) : Bool := l.code % 2 == 1

/-- `src/src/lit.rs` `Lit::negated`: `Lit::new(self.var(), false)`. -/
def negated (l : Lit) : Lit := new l.var false

/-- `src/src/lit.rs` `Lit::inverted`: `Lit(self.0 ^ 1)`. -/
def inverted (l : Lit) : Lit := ⟨l.code ^^^ 1⟩

/-- `src/src/clause.rs` `Lit::negated`: `Lit(self.0 ^ 1)` (same bit flip as
`lit.rs`'s `inverted`). -/
def negatedClause (l : Lit) : Lit := ⟨l.code ^^^ 1⟩

/-- `Lit::eval_with`: `self.is_neg() ^ value`. -/
def evalWith (l : Lit) (value : Bool) : Bool := l.isNeg.xor value

end Lit

/-! ## OptBool

`src/pkgs/core/src/opt_bool.rs` and `src/src/utils/opt_bool.rs` define the
same three-state boolean with representation `False = 0b00`, `True = 0b01`,
`Unassigned = 0b10`; the operations below follow the byte-level code. -/

inductive OptBool where
  | fls
  | tru
  | uns
deriving DecidableEq, Repr

namespace OptBool

/-- The `#[repr(u8)]` discriminant: `False = 0`, `True = 1`, `Unassigned = 2`. -/
def toU8 : OptBool → Nat
  | fls => 0
  | tru => 1
  | uns => 2

/-- `OptBool::is_some`: `self != OptBool::Unassigned`. -/
def isSome (b : OptBool) : Bool := b ≠ uns

/-- `OptBool::is_none`: `self == OptBool::Unassigned`. -/
def isNone (b : OptBool) : Bool := b = uns

/-- `OptBool::is_true`: `self == OptBool::True`. -/
def isTrue (b : OptBool) : Bool := b = tru

/-- `OptBool::is_false`: `self == OptBool::False`. -/
def isFalse (b : OptBool) : Bool := b = fls

/-- `OptBool::is_bool`: `(self as u8) == (val as u8)`. -/
def isBool (b : OptBool) (val : Bool) : Bool := b.toU8 == (if val then 1 else 0)

/-- `OptBool::unwrap`: `self.is_true()` (the `debug_assert` is elided). -/
def unwrap (b : OptBool) : Bool := b.isTrue

/-- `OptBool::unwrap_or`: `(self as u8 & 1) != 0 || default`. -/
def unwrapOr (b : OptBool) (default : Bool) : Bool :=
  (Nat.land b.toU8 1 != 0) || default

/-- `impl From<bool> for OptBool`: transmute of `b as u8` (0 ↦ False, 1 ↦ True). -/
def fromBool (b : Bool) : OptBool := if b then tru else fls

end OptBool

/-! ## Helper lemmas on the literal encoding -/

lemma Nat.xor_one_of_even (k : Nat) : (2*k) ^^^ 1 = 2*k + 1 := by
  have h := Nat.xor_bit false k true 0
  simpa [Nat.bit] using h

lemma Nat.xor_one_of_odd (k : Nat) : (2*k+1) ^^^ 1 = 2*k := by
  have h := Nat.xor_bit true k true 0
  simpa [Nat.bit] using h

/-- C10: in `src/src/lit.rs`, `Lit::negated` does not flip polarity: for every
literal `l`, `l.negated()` is the negative-polarity literal of `l`'s variable
regardless of `l`'s polarity; hence `negated` is idempotent, while
`Lit::inverted` is an involution, and `negated` agrees with `inverted` exactly
on positive literals. -/
theorem lit_negated_forces_negative_polarity (l : Lit) :
    l.negated.var = l.var ∧ l.negated.isNeg = true ∧
    l.negated.negated = l.negated ∧ l.inverted.inverted = l ∧
    (l.negated = l.inverted ↔ l.isPos = true) := by
  obtain ⟨c⟩ := l
  have hneg : Lit.negated ⟨c⟩ = ⟨2 * (c / 2) + 1⟩ := by
    simp [Lit.negated, Lit.new, Lit.var]
  refine ⟨?_, ?_, ?_, ?_, ?_⟩
  · rw [hneg]
    simp only [Lit.var]
    omega
  · rw [hneg]
    simp only [Lit.isNeg, Nat.beq_eq_true_eq]
    omega
  · rw [hneg]
    simp [Lit.negated, Lit.new, Lit.var]
    omega
  · simp only [Lit.inverted]
    exact congrArg Lit.mk (Nat.xor_cancel_right 1 c)
  · rw [hneg]
    simp only [Lit.inverted, Lit.isPos, Lit.mk.injEq, Nat.beq_eq_true_eq]
    rcases Nat.even_or_odd c with ⟨k, hk⟩ | ⟨k, hk⟩
    · rw [show c = 2 * k by omega, Nat.xor_one_of_even]
      omega
    · rw [show c = 2 * k + 1 by omega, Nat.xor_one_of_odd]
      omega

/-- C4 (failing part): `OptBool::unwrap_or` does not return the assigned value
for `OptBool::False` when the default is `true`: the branchless code
`(self as u8 & 1) != 0 || default` yields `true` although the assigned boolean
value is `false`. -/
theorem optBool_unwrapOr_false_default_true :
    OptBool.unwrapOr OptBool.fls true = true ∧ OptBool.unwrap OptBool.fls = false := by
  decide

/-! ## PartialAssignment (`src/pkgs/core/src/partial_assignment.rs`)

The `history` (trail) and `decision_marks` stacks are modelled as lists with
the most recently pushed entry first; `decision_marks` entries are indices
into the trail counted from the *bottom* of the stack, exactly as in the
source.  `Vec` indexing out of bounds (a Rust panic) is modelled by `getD`
with the `Unassigned` / `0` default; all theorems below either carry the
well-formedness hypotheses that rule it out or are insensitive to it. -/

/-- `DecisionPath` (`src/pkgs/core/src/decision_path.rs`), in source order. -/
abbrev DecisionPath := List Lit

/-- `DecisionPath::to_assignment`. -/
def DecisionPath.toAssignment (dp : DecisionPath) (numVars : Nat) : List OptBool :=
  dp.foldl (fun acc lit => acc.set lit.var (OptBool.fromBool lit.isPos))
    (List.replicate numVars OptBool.uns)

/-- `BacktrackResult` (`src/pkgs/core/src/partial_assignment.rs`). -/
inductive BacktrackResult where
  | TryAlternative (falsifiedLit : Lit)
  | NoMoreDecisions
  | ContinueBacktracking
deriving DecidableEq, Repr

structure CorePA where
  currentState : List OptBool
  /-- trail, most recent first -/
  history : List Nat
  /-- decision-level marks, most recent first -/
  decisionMarks : List Nat
  numAssigned : Nat
  initialDecisionLevel : Nat
deriving DecidableEq, Repr

namespace CorePA

/-- `PartialAssignment::with_decisions`. -/
def withDecisions (numVars : Nat) (initialDecisions : DecisionPath) : CorePA :=
  { currentState := initialDecisions.toAssignment numVars
    history := (initialDecisions.map Lit.var).reverse
    decisionMarks := (List.range initialDecisions.length).reverse
    numAssigned := initialDecisions.length
    initialDecisionLevel := initialDecisions.length }

/-- `PartialAssignment::decision_level`. -/
def decisionLevel (pa : CorePA) : Nat := pa.decisionMarks.length

/-- `PartialAssignment::is_assigned`. -/
def isAssigned (pa : CorePA) (v : Nat) : Bool :=
  (pa.currentState.getD v OptBool.uns).isSome

/-- `PartialAssignment::propagate` (precondition `state[var] = Unassigned`
is a `debug_assert` in the source; sequences considered below respect it). -/
def propagate (pa : CorePA) (v : Nat) (val : Bool) : CorePA :=
  { pa with
    currentState := pa.currentState.set v (OptBool.fromBool val)
    numAssigned := pa.numAssigned + 1
    history := v :: pa.history }

/-- `PartialAssignment::decide`. -/
def decide (pa : CorePA) (v : Nat) : CorePA :=
  { pa with
    decisionMarks := pa.history.length :: pa.decisionMarks
    currentState := pa.currentState.set v OptBool.tru
    numAssigned := pa.numAssigned + 1
    history := v :: pa.history }

/-- `PartialAssignment::is_complete`. -/
def isComplete (pa : CorePA) : Bool := pa.numAssigned == pa.currentState.length

/-- The `while self.history.len() > level_start + 1` loop of
`PartialAssignment::undo_current_unit_propagations`: pops trail entries and
unassigns them, returning the new trail, state, `num_assigned`, and the list
of popped variables (the `on_unassign_var` notifications, in call order). -/
def undoPops (levelStart : Nat) (history : List Nat) (state : List OptBool)
    (numAssigned : Nat) : List Nat × List OptBool × Nat × List Nat :=
  match history with
  | [] => ([], state, numAssigned, [])
  | v :: rest =>
    if rest.length + 1 > levelStart + 1 then
      let r := undoPops levelStart rest (state.set v OptBool.uns) (numAssigned - 1)
      (r.1, r.2.1, r.2.2.1, v :: r.2.2.2)
    else (v :: rest, state, numAssigned, [])

/-- `PartialAssignment::backtrack_once`.  Besides the `BacktrackResult` it
returns the updated assignment and the list of variables passed to the
`on_unassign_var` callback, in call order. -/
def backtrackOnce (pa : CorePA) : BacktrackResult × CorePA × List Nat :=
  match pa.decisionMarks with
  | [] => (.NoMoreDecisions, pa, []) -- the `marks.len() <= initial` guard always fires here
  | m :: restMarks =>
    if restMarks.length + 1 ≤ pa.initialDecisionLevel then
      (.NoMoreDecisions, pa, [])
    else
      let r := undoPops m pa.history pa.currentState pa.numAssigned
      let history' := r.1
      let state' := r.2.1
      let numAssigned' := r.2.2.1
      let notifs := r.2.2.2
      -- `self.history[decision_idx]`: after the undo loop the trail has
      -- length `m + 1`, so source index `m` is the top of the stack.
      let decisionVar := history'.headD 0
      if (state'.getD decisionVar OptBool.uns).isTrue then
        (.TryAlternative (Lit.new decisionVar true),
         { pa with currentState := state'.set decisionVar OptBool.fls,
                   history := history', numAssigned := numAssigned' },
         notifs)
      else
        (.ContinueBacktracking,
         { pa with currentState := state'.set decisionVar OptBool.uns,
                   history := history'.tail, decisionMarks := restMarks,
                   numAssigned := numAssigned' - 1 },
         notifs ++ [decisionVar])

end CorePA

/-! ### Lemmas about the undo loop -/

namespace CorePA

/-- The cumulative effect on `current_state` of unassigning a list of
variables in order. -/
def unassignAll (vs : List Nat) (st : List OptBool) : List OptBool :=
  vs.foldl (fun s v => s.set v OptBool.uns) st

lemma unassignAll_length (vs : List Nat) (st : List OptBool) :
    (unassignAll vs st).length = st.length := by
  induction vs generalizing st with
  | nil => rfl
  | cons v vs ih => simp [unassignAll, List.foldl_cons] at ih ⊢; rw [ih]; simp

lemma unassignAll_getD (vs : List Nat) (st : List OptBool) (w : Nat) :
    (unassignAll vs st).getD w OptBool.uns =
      if w ∈ vs then OptBool.uns else st.getD w OptBool.uns := by
  induction vs generalizing st with
  | nil => simp [unassignAll]
  | cons v vs ih =>
    show (unassignAll vs (st.set v OptBool.uns)).getD w OptBool.uns = _
    rw [ih]
    by_cases hw : w ∈ vs
    · simp [hw]
    · simp only [hw, if_false, List.mem_cons]
      by_cases hv : w = v
      · subst hv
        simp only [or_false, if_pos rfl]
        by_cases hlt : w < st.length
        · simp [List.getD, List.getElem?_set_eq_of_lt _ hlt]
        · rw [List.set_eq_of_length_le (by omega)]
          simp [List.getD, List.getElem?_eq_none (by omega : st.length ≤ w)]
      · simp only [hv, false_or, hw, if_false]
        simp [List.getD, List.getElem?_set_ne (by omega : v ≠ w)]

/-- Characterisation of the `undo_current_unit_propagations` loop: with a
trail `pre ++ keep` where the kept part has length `level_start + 1`, the
loop pops exactly `pre`, unassigning each popped variable. -/
lemma undoPops_append (levelStart : Nat) (pre keep : List Nat) (st : List OptBool)
    (n : Nat) (hk : keep.length = levelStart + 1) :
    undoPops levelStart (pre ++ keep) st n =
      (keep, unassignAll pre st, n - pre.length, pre) := by
  induction pre generalizing st n with
  | nil =>
    match keep, hk with
    | k :: krest, hk =>
      rw [List.nil_append]
      simp only [undoPops]
      rw [if_neg (by simp only [List.length_cons] at hk; omega)]
      simp [unassignAll]
  | cons v pre ih =>
    rw [List.cons_append]
    simp only [undoPops]
    rw [if_pos (by simp only [List.length_append, hk]; omega)]
    rw [ih (st.set v OptBool.uns) (n - 1)]
    show (keep, unassignAll pre (st.set v OptBool.uns), n - 1 - pre.length, v :: pre) = _
    have h1 : unassignAll pre (st.set v OptBool.uns) = unassignAll (v :: pre) st := rfl
    have h2 : n - 1 - pre.length = n - (v :: pre).length := by
      simp only [List.length_cons]; omega
    rw [h1, h2]

end CorePA

/-- C5: case analysis of `PartialAssignment::backtrack_once`
(`src/pkgs/core/src/partial_assignment.rs`).  With a well-formed state whose
topmost decision mark is `m` and whose trail is `pre ++ v :: keepRest` with
`keepRest.length = m` (so `v` is the decision variable of the current level):
when a decision level above the initial level exists, every propagation above
the mark (the whole of `pre`) is unassigned first; then a decision variable
currently `True` is flipped to `False` with result
`TryAlternative(Lit::new(var, true))`, a decision variable currently `False`
is unassigned, its mark popped, with result `ContinueBacktracking`; and when
no level above the initial level remains the result is `NoMoreDecisions` with
the state untouched. -/
theorem corePA_backtrackOnce_case_analysis
    (pa : CorePA) (m : Nat) (restMarks : List Nat) (pre keepRest : List Nat) (v : Nat)
    (hmarks : pa.decisionMarks = m :: restMarks)
    (hhist : pa.history = pre ++ v :: keepRest)
    (hkeep : keepRest.length = m)
    (hnodup : pa.history.Nodup)
    (hv : v < pa.currentState.length) :
    (pa.initialDecisionLevel < pa.decisionMarks.length →
      ((pa.currentState.getD v OptBool.uns = OptBool.tru →
        pa.backtrackOnce.1 = .TryAlternative (Lit.new v true) ∧
        pa.backtrackOnce.2.1.currentState.getD v OptBool.uns = OptBool.fls ∧
        (∀ w ∈ pre, pa.backtrackOnce.2.1.currentState.getD w OptBool.uns = OptBool.uns) ∧
        pa.backtrackOnce.2.1.decisionMarks = m :: restMarks ∧
        pa.backtrackOnce.2.1.history = v :: keepRest) ∧
       (pa.currentState.getD v OptBool.uns = OptBool.fls →
        pa.backtrackOnce.1 = .ContinueBacktracking ∧
        pa.backtrackOnce.2.1.currentState.getD v OptBool.uns = OptBool.uns ∧
        (∀ w ∈ pre, pa.backtrackOnce.2.1.currentState.getD w OptBool.uns = OptBool.uns) ∧
        pa.backtrackOnce.2.1.decisionMarks = restMarks ∧
        pa.backtrackOnce.2.1.history = keepRest))) ∧
    (pa.decisionMarks.length ≤ pa.initialDecisionLevel →
      pa.backtrackOnce.1 = .NoMoreDecisions ∧ pa.backtrackOnce.2.1 = pa) := by
  have hvpre : v ∉ pre := by
    rw [hhist] at hnodup
    intro hmem
    exact (List.disjoint_of_nodup_append hnodup) hmem (List.mem_cons_self v keepRest)
  obtain ⟨st, hist, marks, n, init⟩ := pa
  simp only at hmarks hhist hv
  subst hmarks
  subst hhist
  have hundo : CorePA.undoPops m (pre ++ v :: keepRest) st n =
      (v :: keepRest, CorePA.unassignAll pre st, n - pre.length, pre) :=
    CorePA.undoPops_append m pre (v :: keepRest) st n (by simp [hkeep])
  have hstv : (CorePA.unassignAll pre st).getD v OptBool.uns = st.getD v OptBool.uns := by
    rw [CorePA.unassignAll_getD, if_neg hvpre]
  have hsetlen : v < (CorePA.unassignAll pre st).length := by
    rw [CorePA.unassignAll_length]; exact hv
  have hsetfact : ∀ (b : OptBool), ∀ w ∈ pre,
      ((CorePA.unassignAll pre st).set v b).getD w OptBool.uns = OptBool.uns := by
    intro b w hw
    have hwv : v ≠ w := fun h => hvpre (h ▸ hw)
    have h1 : ((CorePA.unassignAll pre st).set v b).getD w OptBool.uns
        = (CorePA.unassignAll pre st).getD w OptBool.uns := by
      simp [List.getD, List.getElem?_set_ne hwv]
    rw [h1, CorePA.unassignAll_getD, if_pos hw]
  constructor
  · intro hlt
    simp only [List.length_cons] at hlt
    have hguard : ¬ (restMarks.length + 1 ≤ init) := by omega
    constructor
    · intro htru
      simp only at htru
      have hcond : ((CorePA.unassignAll pre st).getD v OptBool.uns).isTrue = true := by
        rw [hstv, htru]
        rfl
      have hbt : CorePA.backtrackOnce ⟨st, pre ++ v :: keepRest, m :: restMarks, n, init⟩ =
          (.TryAlternative (Lit.new v true),
           ⟨(CorePA.unassignAll pre st).set v OptBool.fls, v :: keepRest,
            m :: restMarks, n - pre.length, init⟩,
           pre) := by
        simp only [CorePA.backtrackOnce, hundo, if_neg hguard, List.headD_cons]
        rw [if_pos hcond]
      rw [hbt]
      refine ⟨rfl, ?_, hsetfact OptBool.fls, rfl, rfl⟩
      simp [List.getD, List.getElem?_set_eq_of_lt _ hsetlen]
    · intro hfls
      simp only at hfls
      have hcond : ((CorePA.unassignAll pre st).getD v OptBool.uns).isTrue = false := by
        rw [hstv, hfls]
        rfl
      have hbt : CorePA.backtrackOnce ⟨st, pre ++ v :: keepRest, m :: restMarks, n, init⟩ =
          (.ContinueBacktracking,
           ⟨(CorePA.unassignAll pre st).set v OptBool.uns, keepRest,
            restMarks, n - pre.length - 1, init⟩,
           pre ++ [v]) := by
        simp only [CorePA.backtrackOnce, hundo, if_neg hguard, List.headD_cons,
          List.tail_cons]
        rw [if_neg (by simp only [Bool.not_eq_true]; exact hcond)]
      rw [hbt]
      refine ⟨rfl, ?_, hsetfact OptBool.uns, rfl, rfl⟩
      simp [List.getD, List.getElem?_set_eq_of_lt _ hsetlen]
  · intro hle
    simp only [List.length_cons] at hle
    have hbt : CorePA.backtrackOnce ⟨st, pre ++ v :: keepRest, m :: restMarks, n, init⟩ =
        (.NoMoreDecisions, ⟨st, pre ++ v :: keepRest, m :: restMarks, n, init⟩, []) := by
      simp only [CorePA.backtrackOnce, if_pos hle]
    rw [hbt]
    exact ⟨rfl, rfl⟩

/-- Witness for the backtrack-once case analysis at a concrete state: trail
`[v1, v0]` (v0 decided true at mark 0, v1 propagated on top), initial level 0. -/
theorem corePA_backtrackOnce_case_analysis_witness :
    (CorePA.mk [OptBool.tru, OptBool.tru] [1, 0] [0] 2 0).history.Nodup ∧
    (CorePA.mk [OptBool.tru, OptBool.tru] [1, 0] [0] 2 0).currentState.getD 0 OptBool.uns
      = OptBool.tru ∧
    (CorePA.backtrackOnce ⟨[OptBool.tru, OptBool.tru], [1, 0], [0], 2, 0⟩).1
      = BacktrackResult.TryAlternative (Lit.new 0 true) :=
  ⟨by decide, by decide,
   (((corePA_backtrackOnce_case_analysis ⟨[OptBool.tru, OptBool.tru], [1, 0], [0], 2, 0⟩
      0 [] [1] [] 0 rfl rfl rfl (by decide) (by decide)).1 (by decide)).1 (by decide)).1⟩

/-! ### C6: the initial decision path survives every operation sequence -/

namespace CorePA

lemma toAssignment_foldl_not_mem (dp : List Lit) (st : List OptBool) (w : Nat)
    (hw : w ∉ dp.map Lit.var) :
    (dp.foldl (fun acc lit => acc.set lit.var (OptBool.fromBool lit.isPos)) st).getD
        w OptBool.uns = st.getD w OptBool.uns := by
  induction dp generalizing st with
  | nil => rfl
  | cons l dp ih =>
    simp only [List.map_cons, List.mem_cons, not_or] at hw
    rw [List.foldl_cons, ih _ hw.2]
    simp [List.getD, List.getElem?_set_ne (Ne.symm hw.1)]

lemma toAssignment_foldl_length (dp : List Lit) (st : List OptBool) :
    (dp.foldl (fun acc lit => acc.set lit.var (OptBool.fromBool lit.isPos)) st).length
      = st.length := by
  induction dp generalizing st with
  | nil => rfl
  | cons l dp ih => rw [List.foldl_cons, ih]; simp

lemma toAssignment_getD (dp : DecisionPath) (numVars : Nat)
    (hnodup : (dp.map Lit.var).Nodup) (hb : ∀ lit ∈ dp, lit.var < numVars) :
    ∀ lit ∈ dp, (dp.toAssignment numVars).getD lit.var OptBool.uns
      = OptBool.fromBool lit.isPos := by
  show ∀ lit ∈ dp, (dp.foldl _ (List.replicate numVars OptBool.uns)).getD _ _ = _
  generalize hst : List.replicate numVars OptBool.uns = st
  have hlen : st.length = numVars := by rw [← hst]; simp
  clear hst
  induction dp generalizing st with
  | nil => intro lit h; cases h
  | cons l dp ih =>
    intro lit hmem
    simp only [List.map_cons, List.nodup_cons] at hnodup
    rcases List.mem_cons.mp hmem with rfl | hmem'
    · rw [List.foldl_cons, toAssignment_foldl_not_mem dp _ _ hnodup.1]
      have hv : lit.var < st.length := by rw [hlen]; exact hb lit (List.mem_cons_self _ _)
      simp [List.getD, List.getElem?_set_eq_of_lt _ hv]
    · rw [List.foldl_cons]
      exact ih hnodup.2 (fun l' h => hb l' (List.mem_cons_of_mem _ h))
        _ (by simp [hlen]) lit hmem'

/-- A solver-shaped transition on `PartialAssignment`: `propagate` and
`decide` with their documented precondition (`state[var] = Unassigned`), or
an unconditional `backtrack_once`. -/
inductive ValidStep : CorePA → CorePA → Prop
  | propagate (pa : CorePA) (v : Nat) (val : Bool)
      (h : pa.currentState.getD v OptBool.uns = OptBool.uns)
      (hlt : v < pa.currentState.length) :
      ValidStep pa (pa.propagate v val)
  | decide (pa : CorePA) (v : Nat)
      (h : pa.currentState.getD v OptBool.uns = OptBool.uns)
      (hlt : v < pa.currentState.length) :
      ValidStep pa (pa.decide v)
  | backtrack (pa : CorePA) : ValidStep pa pa.backtrackOnce.2.1

/-- States reachable from `ini` by `propagate` / `decide` / `backtrack_once`. -/
inductive Reaches (ini : CorePA) : CorePA → Prop
  | refl : Reaches ini ini
  | step {pa pa' : CorePA} : Reaches ini pa → ValidStep pa pa' → Reaches ini pa'

/-- Inductive invariant tying a state to its initial decision path. -/
def InitInv (dp : DecisionPath) (pa : CorePA) : Prop :=
  pa.initialDecisionLevel = dp.length ∧
  (∃ ext, pa.history = ext ++ (dp.map Lit.var).reverse) ∧
  (∃ extM, pa.decisionMarks = extM ++ (List.range dp.length).reverse ∧
      ∀ x ∈ extM, dp.length ≤ x) ∧
  (∀ lit ∈ dp, pa.currentState.getD lit.var OptBool.uns = OptBool.fromBool lit.isPos) ∧
  pa.history.Nodup ∧
  (∀ x ∈ pa.decisionMarks, x < pa.history.length) ∧
  pa.decisionMarks.Pairwise (· > ·) ∧
  (∀ v ∈ pa.history, pa.currentState.getD v OptBool.uns ≠ OptBool.uns)

lemma initInv_withDecisions (numVars : Nat) (dp : DecisionPath)
    (hnodup : (dp.map Lit.var).Nodup) (hb : ∀ lit ∈ dp, lit.var < numVars) :
    InitInv dp (withDecisions numVars dp) := by
  have hstate := toAssignment_getD dp numVars hnodup hb
  refine ⟨rfl, ⟨[], by simp [withDecisions]⟩,
    ⟨[], by simp [withDecisions, DecisionPath], fun x h => absurd h (List.not_mem_nil x)⟩,
    hstate, ?_, ?_, ?_, ?_⟩
  · simp only [withDecisions]
    exact List.nodup_reverse.mpr hnodup
  · intro x hx
    simp only [withDecisions, List.mem_reverse, List.mem_range] at hx
    simp only [withDecisions, List.length_reverse, List.length_map]
    exact hx
  · simp only [withDecisions]
    rw [List.pairwise_reverse]
    have := List.pairwise_lt_range dp.length
    exact this.imp (fun h => h)
  · intro v hv
    simp only [withDecisions, List.mem_reverse, List.mem_map] at hv
    obtain ⟨lit, hlit, rfl⟩ := hv
    show (dp.toAssignment numVars).getD lit.var OptBool.uns ≠ OptBool.uns
    rw [hstate lit hlit]
    cases lit.isPos <;> simp [OptBool.fromBool]

end CorePA

namespace CorePA

lemma initInv_not_initial_var (dp : DecisionPath) (pa : CorePA) (hinv : InitInv dp pa)
    (v : Nat) (h : pa.currentState.getD v OptBool.uns = OptBool.uns) :
    ∀ lit ∈ dp, lit.var ≠ v := by
  intro lit hlit heq
  obtain ⟨-, -, -, hd, -⟩ := hinv
  have := hd lit hlit
  rw [heq, h] at this
  cases hp : lit.isPos <;> rw [hp] at this <;> simp [OptBool.fromBool] at this

lemma initInv_propagate (dp : DecisionPath) (pa : CorePA) (hinv : InitInv dp pa)
    (v : Nat) (val : Bool)
    (h : pa.currentState.getD v OptBool.uns = OptBool.uns)
    (hlt : v < pa.currentState.length) :
    InitInv dp (pa.propagate v val) := by
  have hvd := initInv_not_initial_var dp pa hinv v h
  obtain ⟨ha, ⟨ext, hb⟩, ⟨extM, hc, hcge⟩, hd, hf, hg, hh, hi⟩ := hinv
  have hvh : v ∉ pa.history := by
    intro hmem
    exact hi v hmem h
  refine ⟨ha, ⟨v :: ext, by simp [propagate, hb]⟩, ⟨extM, hc, hcge⟩, ?_, ?_, ?_, hh, ?_⟩
  · intro lit hlit
    show (pa.currentState.set v _).getD lit.var OptBool.uns = _
    rw [show (pa.currentState.set v (OptBool.fromBool val)).getD lit.var OptBool.uns
        = pa.currentState.getD lit.var OptBool.uns by
      simp [List.getD, List.getElem?_set_ne (fun hx => hvd lit hlit hx.symm)]]
    exact hd lit hlit
  · show (v :: pa.history).Nodup
    exact List.nodup_cons.mpr ⟨hvh, hf⟩
  · intro x hx
    show x < pa.history.length + 1
    exact Nat.lt_succ_of_lt (hg x hx)
  · intro w hw
    rcases List.mem_cons.mp hw with rfl | hw'
    · show (pa.currentState.set w _).getD w OptBool.uns ≠ OptBool.uns
      rw [show (pa.currentState.set w (OptBool.fromBool val)).getD w OptBool.uns
          = OptBool.fromBool val by
        simp [List.getD, List.getElem?_set_eq_of_lt _ hlt]]
      cases val <;> simp [OptBool.fromBool]
    · show (pa.currentState.set v _).getD w OptBool.uns ≠ OptBool.uns
      have hne : v ≠ w := fun hx => hvh (hx ▸ hw')
      rw [show (pa.currentState.set v (OptBool.fromBool val)).getD w OptBool.uns
          = pa.currentState.getD w OptBool.uns by
        simp [List.getD, List.getElem?_set_ne hne]]
      exact hi w hw'

lemma initInv_decide (dp : DecisionPath) (pa : CorePA) (hinv : InitInv dp pa)
    (v : Nat)
    (h : pa.currentState.getD v OptBool.uns = OptBool.uns)
    (hlt : v < pa.currentState.length) :
    InitInv dp (pa.decide v) := by
  have hvd := initInv_not_initial_var dp pa hinv v h
  obtain ⟨ha, ⟨ext, hb⟩, ⟨extM, hc, hcge⟩, hd, hf, hg, hh, hi⟩ := hinv
  have hvh : v ∉ pa.history := fun hmem => hi v hmem h
  have hklen : dp.length ≤ pa.history.length := by
    rw [hb]; simp
  refine ⟨ha, ⟨v :: ext, by simp [decide, hb]⟩,
    ⟨pa.history.length :: extM, by simp [decide, hc], ?_⟩, ?_, ?_, ?_, ?_, ?_⟩
  · intro x hx
    rcases List.mem_cons.mp hx with rfl | hx'
    · exact hklen
    · exact hcge x hx'
  · intro lit hlit
    show (pa.currentState.set v _).getD lit.var OptBool.uns = _
    rw [show (pa.currentState.set v OptBool.tru).getD lit.var OptBool.uns
        = pa.currentState.getD lit.var OptBool.uns by
      simp [List.getD, List.getElem?_set_ne (fun hx => hvd lit hlit hx.symm)]]
    exact hd lit hlit
  · exact List.nodup_cons.mpr ⟨hvh, hf⟩
  · intro x hx
    show x < pa.history.length + 1
    rcases List.mem_cons.mp hx with rfl | hx'
    · omega
    · exact Nat.lt_succ_of_lt (hg x hx')
  · show List.Pairwise _ (pa.history.length :: pa.decisionMarks)
    exact List.pairwise_cons.mpr ⟨fun x hx => hg x hx, hh⟩
  · intro w hw
    rcases List.mem_cons.mp hw with rfl | hw'
    · show (pa.currentState.set w OptBool.tru).getD w OptBool.uns ≠ OptBool.uns
      rw [show (pa.currentState.set w OptBool.tru).getD w OptBool.uns = OptBool.tru by
        simp [List.getD, List.getElem?_set_eq_of_lt _ hlt]]
      simp
    · show (pa.currentState.set v OptBool.tru).getD w OptBool.uns ≠ OptBool.uns
      have hne : v ≠ w := fun hx => hvh (hx ▸ hw')
      rw [show (pa.currentState.set v OptBool.tru).getD w OptBool.uns
          = pa.currentState.getD w OptBool.uns by
        simp [List.getD, List.getElem?_set_ne hne]]
      exact hi w hw'

end CorePA

namespace CorePA

lemma initInv_backtrack (dp : DecisionPath) (pa : CorePA) (hinv : InitInv dp pa) :
    InitInv dp pa.backtrackOnce.2.1 := by
  obtain ⟨st, hist, marks, n, init⟩ := pa
  obtain ⟨ha, ⟨ext, hb⟩, ⟨extM, hc, hcge⟩, hd, hf, hg, hh, hi⟩ := hinv
  simp only at ha hb hc hd hf hg hh hi
  cases marks with
  | nil =>
    exact ⟨ha, ⟨ext, hb⟩, ⟨extM, hc, hcge⟩, hd, hf, hg, hh, hi⟩
  | cons m rest =>
    by_cases hguard : rest.length + 1 ≤ init
    · have hpa : backtrackOnce ⟨st, hist, m :: rest, n, init⟩ =
          (.NoMoreDecisions, ⟨st, hist, m :: rest, n, init⟩, []) := by
        simp only [backtrackOnce, if_pos hguard]
      rw [hpa]
      exact ⟨ha, ⟨ext, hb⟩, ⟨extM, hc, hcge⟩, hd, hf, hg, hh, hi⟩
    · -- a decision level above the initial level exists
      subst ha
      cases extM with
      | nil =>
        exfalso
        have : (m :: rest).length = ((List.range dp.length).reverse : List Nat).length := by
          rw [hc]; rfl
        simp only [List.length_cons, List.length_reverse, List.length_range] at this
        omega
      | cons m0 extM' =>
      simp only [List.cons_append, List.cons.injEq] at hc
      obtain ⟨rfl, hrest⟩ := hc
      have hkm : dp.length ≤ m := hcge m (List.mem_cons_self _ _)
      have hmlen : m < hist.length := hg m (List.mem_cons_self _ _)
      have hextlen : hist.length = ext.length + dp.length := by
        rw [hb]; simp
      -- split the trail around the decision variable of the current level
      set d := hist.length - (m + 1) with hd_def
      have hdlt : d < ext.length := by omega
      have hdropne : ext.drop d ≠ [] := by
        intro hnil
        have := List.length_drop d ext
        rw [hnil] at this
        simp at this
        omega
      obtain ⟨v, ext2', hdrop⟩ : ∃ v ext2', ext.drop d = v :: ext2' := by
        cases hx : ext.drop d with
        | nil => exact absurd hx hdropne
        | cons a b => exact ⟨a, b, rfl⟩
      have hsplit : hist = ext.take d ++ v :: (ext2' ++ (dp.map Lit.var).reverse) := by
        rw [hb]
        conv_lhs => rw [← List.take_append_drop d ext]
        rw [hdrop]
        simp
      set pre := ext.take d with hpre_def
      set keepRest := ext2' ++ (dp.map Lit.var).reverse with hkr_def
      have hprelen : pre.length = d := by
        rw [hpre_def, List.length_take]
        omega
      have hext2len : ext2'.length = ext.length - d - 1 := by
        have := List.length_drop d ext
        rw [hdrop] at this
        simp only [List.length_cons] at this
        omega
      have hkrlen : keepRest.length = m := by
        rw [hkr_def]
        simp only [List.length_append, List.length_reverse, List.length_map]
        omega
      have hvext : v ∈ ext := by
        have : v ∈ ext.drop d := by rw [hdrop]; exact List.mem_cons_self _ _
        exact List.mem_of_mem_drop this
      have hdisj : List.Disjoint ext (dp.map Lit.var).reverse := by
        rw [hb] at hf
        exact List.disjoint_of_nodup_append hf
      have hvnotdp : ∀ lit ∈ dp, lit.var ≠ v := by
        intro lit hlit heq
        apply hdisj hvext
        rw [List.mem_reverse]
        subst heq
        exact List.mem_map.mpr ⟨lit, hlit, rfl⟩
      have hprenotdp : ∀ lit ∈ dp, lit.var ∉ pre := by
        intro lit hlit hmem
        exact hdisj (List.mem_of_mem_take hmem)
          (List.mem_reverse.mpr (List.mem_map.mpr ⟨lit, hlit, rfl⟩))
      have hfsplit : (pre ++ v :: keepRest).Nodup := by rw [← hsplit]; exact hf
      have hvpre : v ∉ pre := by
        intro hmem
        exact (List.disjoint_of_nodup_append hfsplit) hmem (List.mem_cons_self _ _)
      have hkeepnd : (v :: keepRest).Nodup := (List.sublist_append_right pre _).nodup hfsplit
      have hvkr : v ∉ keepRest := (List.nodup_cons.mp hkeepnd).1
      have hkrpre : ∀ w ∈ keepRest, w ∉ pre := by
        intro w hw hmem
        exact (List.disjoint_of_nodup_append hfsplit) hmem (List.mem_cons_of_mem _ hw)
      have hvhist : v ∈ hist := by rw [hsplit]; simp
      have hvval : st.getD v OptBool.uns ≠ OptBool.uns := hi v hvhist
      have hvlt : v < st.length := by
        by_contra hge
        exact hvval (by simp [List.getD, List.getElem?_eq_none (by omega : st.length ≤ v)])
      have hundo : undoPops m hist st n =
          (v :: keepRest, unassignAll pre st, n - pre.length, pre) := by
        rw [hsplit]
        exact undoPops_append m pre (v :: keepRest) st n (by simp [hkrlen])
      have hstv : (unassignAll pre st).getD v OptBool.uns = st.getD v OptBool.uns := by
        rw [unassignAll_getD, if_neg hvpre]
      have hstw : ∀ w, w ∉ pre → (unassignAll pre st).getD w OptBool.uns
          = st.getD w OptBool.uns := by
        intro w hw
        rw [unassignAll_getD, if_neg hw]
      have hsetlen : v < (unassignAll pre st).length := by
        rw [unassignAll_length]; exact hvlt
      have hd' : ∀ (b : OptBool), ∀ lit ∈ dp,
          ((unassignAll pre st).set v b).getD lit.var OptBool.uns
            = OptBool.fromBool lit.isPos := by
        intro b lit hlit
        rw [show ((unassignAll pre st).set v b).getD lit.var OptBool.uns
            = (unassignAll pre st).getD lit.var OptBool.uns by
          simp [List.getD, List.getElem?_set_ne (fun hx => hvnotdp lit hlit hx.symm)]]
        rw [hstw _ (hprenotdp lit hlit)]
        exact hd lit hlit
      have hi' : ∀ (b : OptBool), b ≠ OptBool.uns → ∀ w ∈ v :: keepRest,
          ((unassignAll pre st).set v b).getD w OptBool.uns ≠ OptBool.uns := by
        intro b hb' w hw
        rcases List.mem_cons.mp hw with rfl | hw'
        · rw [show ((unassignAll pre st).set w b).getD w OptBool.uns = b by
            simp [List.getD, List.getElem?_set_eq_of_lt _ hsetlen]]
          exact hb'
        · have hne : v ≠ w := fun hx => hvkr (hx ▸ hw')
          rw [show ((unassignAll pre st).set v b).getD w OptBool.uns
              = (unassignAll pre st).getD w OptBool.uns by
            simp [List.getD, List.getElem?_set_ne hne]]
          rw [hstw _ (hkrpre w hw')]
          have hwhist : w ∈ hist := by
            rw [hsplit]
            exact List.mem_append_right _ (List.mem_cons_of_mem _ hw')
          exact hi w hwhist
      have hrestlt : ∀ x ∈ rest, x < m := by
        intro x hx
        exact (List.pairwise_cons.mp hh).1 x hx
      cases hv : st.getD v OptBool.uns with
      | uns => exact absurd hv hvval
      | tru =>
        have hcond : ((unassignAll pre st).getD v OptBool.uns).isTrue = true := by
          rw [hstv, hv]; rfl
        have hpa : backtrackOnce ⟨st, hist, m :: rest, n, dp.length⟩ =
            (.TryAlternative (Lit.new v true),
             ⟨(unassignAll pre st).set v OptBool.fls, v :: keepRest,
              m :: rest, n - pre.length, dp.length⟩,
             pre) := by
          simp only [backtrackOnce, hundo, if_neg hguard, List.headD_cons]
          rw [if_pos hcond]
        rw [hpa]
        refine ⟨rfl, ⟨v :: ext2', by simp [hkr_def]⟩,
          ⟨m :: extM', by simp [hrest], hcge⟩, hd' OptBool.fls, hkeepnd, ?_, hh, ?_⟩
        · intro x hx
          show x < keepRest.length + 1
          rw [hkrlen]
          rcases List.mem_cons.mp hx with rfl | hx'
          · omega
          · exact Nat.lt_succ_of_lt (hrestlt x hx')
        · exact hi' OptBool.fls (by simp)
      | fls =>
        have hcond : ((unassignAll pre st).getD v OptBool.uns).isTrue = false := by
          rw [hstv, hv]; rfl
        have hpa : backtrackOnce ⟨st, hist, m :: rest, n, dp.length⟩ =
            (.ContinueBacktracking,
             ⟨(unassignAll pre st).set v OptBool.uns, keepRest,
              rest, n - pre.length - 1, dp.length⟩,
             pre ++ [v]) := by
          simp only [backtrackOnce, hundo, if_neg hguard, List.headD_cons, List.tail_cons]
          rw [if_neg (by simp only [Bool.not_eq_true]; exact hcond)]
        rw [hpa]
        refine ⟨rfl, ⟨ext2', by simp [hkr_def]⟩,
          ⟨extM', hrest, fun x hx => hcge x (List.mem_cons_of_mem _ hx)⟩,
          hd' OptBool.uns, (List.nodup_cons.mp hkeepnd).2, ?_,
          (List.pairwise_cons.mp hh).2, ?_⟩
        · intro x hx
          show x < keepRest.length
          rw [hkrlen]
          exact hrestlt x hx
        · intro w hw
          have hne : v ≠ w := fun hx => hvkr (hx ▸ hw)
          rw [show ((unassignAll pre st).set v OptBool.uns).getD w OptBool.uns
              = (unassignAll pre st).getD w OptBool.uns by
            simp [List.getD, List.getElem?_set_ne hne]]
          rw [hstw _ (hkrpre w hw)]
          have hwhist : w ∈ hist := by
            rw [hsplit]
            exact List.mem_append_right _ (List.mem_cons_of_mem _ hw)
          exact hi w hwhist

end CorePA

lemma CorePA.backtrackOnce_of_le (pa : CorePA)
    (h : pa.decisionMarks.length ≤ pa.initialDecisionLevel) :
    pa.backtrackOnce = (.NoMoreDecisions, pa, []) := by
  obtain ⟨st, hist, marks, n, init⟩ := pa
  cases marks with
  | nil => rfl
  | cons m rest =>
    simp only at h
    simp only [CorePA.backtrackOnce]
    rw [if_pos (by simpa using h)]

/-- C6: starting from `with_decisions(num_vars, initial)` (with the initial
path's variables distinct and in range), after any sequence of `propagate`,
`decide` and `backtrack_once` operations the variables of the initial
decision path are still assigned their initial values, at least the initial
decision levels remain, and once only the initial decision levels remain
`backtrack_once` returns `NoMoreDecisions` without touching the state. -/
theorem corePA_initial_decisions_invariant
    (numVars : Nat) (dp : DecisionPath)
    (hnodup : (dp.map Lit.var).Nodup) (hb : ∀ lit ∈ dp, lit.var < numVars)
    (pa : CorePA) (hreach : CorePA.Reaches (CorePA.withDecisions numVars dp) pa) :
    (∀ lit ∈ dp, pa.currentState.getD lit.var OptBool.uns = OptBool.fromBool lit.isPos) ∧
    dp.length ≤ pa.decisionMarks.length ∧
    (pa.decisionMarks.length = dp.length →
      pa.backtrackOnce.1 = .NoMoreDecisions ∧ pa.backtrackOnce.2.1 = pa) := by
  have hinv : CorePA.InitInv dp pa := by
    induction hreach with
    | refl => exact CorePA.initInv_withDecisions numVars dp hnodup hb
    | step hr hs ih =>
      cases hs with
      | propagate v val h hlt => exact CorePA.initInv_propagate dp _ ih v val h hlt
      | decide v h hlt => exact CorePA.initInv_decide dp _ ih v h hlt
      | backtrack => exact CorePA.initInv_backtrack dp _ ih
  obtain ⟨ha, -, ⟨extM, hc, -⟩, hd, -⟩ := hinv
  refine ⟨hd, ?_, ?_⟩
  · rw [hc]; simp
  · intro hlen
    have := CorePA.backtrackOnce_of_le pa (by rw [hlen, ha])
    rw [this]
    exact ⟨rfl, rfl⟩

/-- Witness for the initial-decision invariant: a one-literal initial path in
a two-variable assignment. -/
theorem corePA_initial_decisions_invariant_witness :
    ((([Lit.new 0 true] : DecisionPath).map Lit.var).Nodup) ∧
    (∀ lit ∈ ([Lit.new 0 true] : DecisionPath), lit.var < 2) ∧
    (CorePA.withDecisions 2 [Lit.new 0 true]).currentState.getD (Lit.new 0 true).var
        OptBool.uns = OptBool.fromBool (Lit.new 0 true).isPos ∧
    (CorePA.withDecisions 2 [Lit.new 0 true]).backtrackOnce.1
        = BacktrackResult.NoMoreDecisions := by
  refine ⟨by decide, by decide, ?_, ?_⟩
  · exact (corePA_initial_decisions_invariant 2 [Lit.new 0 true] (by decide) (by decide)
      _ CorePA.Reaches.refl).1 (Lit.new 0 true) (List.mem_cons_self _ _)
  · exact ((corePA_initial_decisions_invariant 2 [Lit.new 0 true] (by decide) (by decide)
      _ CorePA.Reaches.refl).2.2 (by decide)).1

/-! ## The single-threaded solver generation
(`src/src/clause.rs`, `src/src/problem.rs`, `src/src/partial_assignment.rs`,
`src/src/dpll.rs`)

`PartialAssignment` of this generation differs from the `pkgs/core` one in
its `backtrack_once` guard (`decision_marks.is_empty()`) and has no
`on_unassign_var` callback; we embed it as `SrcPA`.  The `BacktrackResult`
variant called `Continue` in this file is the same constructor as
`ContinueBacktracking` above. -/

/-- `Clause` (`src/src/clause.rs`): a vector of literals, in source order. -/
abbrev Clause := List Lit

/-- `ClauseState` (`src/src/clause.rs`). -/
inductive ClauseState where
  | Satisfied
  | Unsatisfied
  | Unit (l : Lit)
  | Undecided (unassignedCount : Nat)
deriving DecidableEq, Repr

namespace Clause

/-- The literal loop of `Clause::eval_with`, threading `unassigned_count`
and `unit_lit`.  The `Unit(unit_lit.unwrap())` at count 1 always has
`unit_lit = Some _`; the `none` fallback is dead code. -/
def evalWithLoop (asgn : List OptBool) (lits : List Lit) (cnt : Nat)
    (unitLit : Option Lit) : ClauseState :=
  match lits with
  | [] =>
    match cnt, unitLit with
    | 0, _ => .Unsatisfied
    | 1, some l => .Unit l
    | 1, none => .Unit ⟨0⟩ -- unreachable: cnt = 1 forces unitLit = some _
    | k + 2, _ => .Undecided (k + 2)
  | l :: rest =>
    match asgn.getD l.var OptBool.uns with
    | OptBool.uns => evalWithLoop asgn rest (cnt + 1) (some l)
    | OptBool.tru =>
      if l.evalWith true then .Satisfied else evalWithLoop asgn rest cnt unitLit
    | OptBool.fls =>
      if l.evalWith false then .Satisfied else evalWithLoop asgn rest cnt unitLit

/-- `Clause::eval_with`. -/
def evalWith (c : Clause) (asgn : List OptBool) : ClauseState :=
  evalWithLoop asgn c 0 none

/-- `Clause::is_satisfied_by` (full assignments). -/
def isSatisfiedBy (c : Clause) (solution : List Bool) : Bool :=
  c.any (fun l => l.evalWith (solution.getD l.var false))

/-- `Clause::is_tautology` (assumes sorted, deduplicated literals). -/
def isTautology (c : Clause) : Bool :=
  (List.range (c.length - 1)).any
    (fun i => (c.getD i ⟨0⟩).var == (c.getD (i + 1) ⟨0⟩).var)

end Clause

/-- `Problem` (`src/src/problem.rs`); the index structures are recomputed
from `clauses` instead of being stored. -/
structure Problem where
  numVars : Nat
  clauses : List Clause
deriving DecidableEq, Repr

namespace Problem

/-- `Problem::clauses_containing_lit` via the `lit2clauses` index, which
lists (in construction order = ascending clause id) every clause containing
the literal.  A clause containing `l` twice appears twice *consecutively* in
the source index; consecutive duplicate scans are observationally idempotent
in unit propagation, so the index is modelled without multiplicity. -/
def clausesContainingLit (p : Problem) (l : Lit) : List Clause :=
  p.clauses.filter (fun c => c.contains l)

def verifyLoop (solution : List Bool) : Nat → List Clause → Except String Unit
  | _, [] => .ok ()
  | i, c :: rest =>
    if !(c.isSatisfiedBy solution) then .error s!"Clause {i} is unsatisfied."
    else verifyLoop solution (i + 1) rest

/-- `Problem::verify_solution` (the `debug_assert_eq` on lengths is elided). -/
def verifySolution (p : Problem) (solution : List Bool) : Except String Unit :=
  verifyLoop solution 0 p.clauses

/-- `Problem::calculate_jeroslow_wang_scores`, with `f64` modelled as `ℚ`
(`2^(-len)` and the sums are only compared, never rounded, in the
properties proved here). -/
def jeroslowWangScores (p : Problem) : List ℚ :=
  p.clauses.foldl
    (fun scores c =>
      let w : ℚ := (1/2) ^ c.length
      c.foldl (fun sc l => sc.set l.var (sc.getD l.var 0 + w)) scores)
    (List.replicate p.numVars (0 : ℚ))

end Problem

/-- `PartialAssignment` of `src/src/partial_assignment.rs`. -/
structure SrcPA where
  currentState : List OptBool
  /-- trail, most recent first -/
  history : List Nat
  /-- decision-level marks, most recent first -/
  decisionMarks : List Nat
  numAssigned : Nat
  initialDecisionLevel : Nat
deriving DecidableEq, Repr

namespace SrcPA

/-- `DPLLSolver::new` builds `PartialAssignment::new(num_vars)`: the fresh,
fully unassigned assignment at initial decision level 0. -/
def new (numVars : Nat) : SrcPA :=
  ⟨List.replicate numVars OptBool.uns, [], [], 0, 0⟩

/-- `PartialAssignment::propagate`. -/
def propagate (pa : SrcPA) (v : Nat) (val : Bool) : SrcPA :=
  { pa with
    currentState := pa.currentState.set v (OptBool.fromBool val)
    numAssigned := pa.numAssigned + 1
    history := v :: pa.history }

/-- `PartialAssignment::decide`. -/
def decide (pa : SrcPA) (v : Nat) : SrcPA :=
  { pa with
    decisionMarks := pa.history.length :: pa.decisionMarks
    currentState := pa.currentState.set v OptBool.tru
    numAssigned := pa.numAssigned + 1
    history := v :: pa.history }

/-- `PartialAssignment::is_complete`. -/
def isComplete (pa : SrcPA) : Bool := pa.numAssigned == pa.currentState.length

/-- `PartialAssignment::to_solution`: unassigned variables default to
`false` (via `OptBool::unwrap_or(false)`). -/
def toSolution (pa : SrcPA) : List Bool :=
  pa.currentState.map (fun v => v.unwrapOr false)

/-- `PartialAssignment::backtrack_once` of this generation: the guard is
`decision_marks.is_empty()`; otherwise identical to the `pkgs/core` variant
(the undo loop is shared as `CorePA.undoPops`). -/
def backtrackOnce (pa : SrcPA) : BacktrackResult × SrcPA :=
  match pa.decisionMarks with
  | [] => (.NoMoreDecisions, pa)
  | m :: restMarks =>
    let r := CorePA.undoPops m pa.history pa.currentState pa.numAssigned
    let history' := r.1
    let state' := r.2.1
    let numAssigned' := r.2.2.1
    let decisionVar := history'.headD 0
    if (state'.getD decisionVar OptBool.uns).isTrue then
      (.TryAlternative (Lit.new decisionVar true),
       { pa with currentState := state'.set decisionVar OptBool.fls,
                 history := history', numAssigned := numAssigned' })
    else
      (.ContinueBacktracking,
       { pa with currentState := state'.set decisionVar OptBool.uns,
                 history := history'.tail, decisionMarks := restMarks,
                 numAssigned := numAssigned' - 1 })

/-- The `PartialAssignment::backtrack` loop; fuelled, `none` = fuel ran out
(each `Continue` pops one decision mark, so `marks.length + 1` always
suffices). -/
def backtrackLoop : Nat → SrcPA → Option (Option Lit × SrcPA)
  | 0, _ => none
  | fuel + 1, pa =>
    match pa.backtrackOnce with
    | (.TryAlternative l, pa') => some (some l, pa')
    | (.NoMoreDecisions, pa') => some (none, pa')
    | (.ContinueBacktracking, pa') => backtrackLoop fuel pa'

/-- `PartialAssignment::backtrack`. -/
def backtrack (pa : SrcPA) : Option (Option Lit × SrcPA) :=
  backtrackLoop (pa.decisionMarks.length + 1) pa

end SrcPA

/-! ### `DPLLSolver` (`src/src/dpll.rs`) -/

/-- `PropagationResult` (`src/src/dpll.rs`). -/
inductive PropagationResult where
  | Satisfied
  | Unsatisfied
  | Undecided
deriving DecidableEq, Repr

/-- Outcome of `DPLLSolver::solve`: `Some(solution)`, `None`, or the
`unreachable!()` panic in `make_branching_decision`. -/
inductive SolveOutcome where
  | sat (solution : List Bool)
  | unsat
  | panic
deriving DecidableEq, Repr

namespace DPLL

/-- `DPLLSolver::all_clauses_satisfied`. -/
def allClausesSatisfied (p : Problem) (asgn : SrcPA) : Bool :=
  p.clauses.all (fun c =>
    match c.evalWith asgn.currentState with
    | .Satisfied => true
    | _ => false)

/-- The `'clauses` loop body of `propagate_units`: scan the clauses affected
by one popped falsified literal, threading the assignment and the
falsified-literals stack.  Returns `(conflict?, assignment, stack)`;
`conflict? = true` is the early `return PropagationResult::Unsatisfied`. -/
def propagateClauses (asgn : SrcPA) (stack : List Lit) :
    List Clause → Bool × SrcPA × List Lit
  | [] => (false, asgn, stack)
  | c :: cs =>
    match c.evalWith asgn.currentState with
    | .Satisfied => propagateClauses asgn stack cs
    | .Unsatisfied => (true, asgn, stack)
    | .Undecided _ => propagateClauses asgn stack cs
    | .Unit m =>
      match asgn.currentState.getD m.var OptBool.uns with
      | OptBool.tru =>
        if m.isPos then propagateClauses asgn stack cs else (true, asgn, stack)
      | OptBool.fls =>
        if m.isPos then (true, asgn, stack) else propagateClauses asgn stack cs
      | OptBool.uns =>
        propagateClauses (asgn.propagate m.var m.isPos)
          (m.negatedClause :: stack) cs

/-- The `while let Some(lit) = self.falsified_lits_buffer.pop()` loop of
`propagate_units`; fuelled (`none` = fuel ran out; `2 * num_vars + 2` fuel
always suffices for well-formed problems). -/
def propagateLoop (p : Problem) : Nat → SrcPA → List Lit →
    Option (PropagationResult × SrcPA)
  | 0, _, _ => none
  | fuel + 1, asgn, stack =>
    match stack with
    | [] =>
      some (if allClausesSatisfied p asgn then .Satisfied else .Undecided, asgn)
    | lit :: rest =>
      match propagateClauses asgn rest (p.clausesContainingLit lit) with
      | (true, asgn', _) => some (.Unsatisfied, asgn')
      | (false, asgn', stack') => propagateLoop p fuel asgn' stack'

/-- `DPLLSolver::propagate_units`: clear the buffer, push the seed falsified
literal, run the loop. -/
def propagateUnits (p : Problem) (asgn : SrcPA) (falsifiedLit : Lit) :
    Option (PropagationResult × SrcPA) :=
  propagateLoop p (2 * p.numVars + 2) asgn [falsifiedLit]

/-- `DPLLSolver::find_var_with_highest_score`.  `f64::MIN` is modelled by
starting with no candidate: Jeroslow-Wang scores are non-negative, hence
always exceed `f64::MIN`, so the first unassigned variable always becomes
the first candidate, exactly as in the source. -/
def findVarWithHighestScore (p : Problem) (scores : List ℚ) (asgn : SrcPA) :
    Option Nat :=
  ((List.range p.numVars).foldl
    (fun best var =>
      if (asgn.currentState.getD var OptBool.uns).isNone then
        let score := scores.getD var 0
        match best with
        | none => some (score, var)
        | some (maxScore, _) => if score > maxScore then some (score, var) else best
      else best)
    none).map (fun b => b.2)

/-- `DPLLSolver::make_branching_decision`: decide the chosen variable and
return its negated literal; `none` models the `unreachable!()` panic when no
unassigned variable exists. -/
def makeBranchingDecision (p : Problem) (scores : List ℚ) (asgn : SrcPA) :
    Option (Lit × SrcPA) :=
  match findVarWithHighestScore p scores asgn with
  | none => none
  | some v => some ((Lit.new v true).negatedClause, asgn.decide v)

/-- The `'backtrack` loop of `DPLLSolver::solve`; fuelled on the number of
outer iterations (`none` = fuel ran out). -/
def solveLoop (p : Problem) (scores : List ℚ) :
    Nat → SrcPA → Lit → Option SolveOutcome
  | 0, _, _ => none
  | fuel + 1, asgn, falsifiedLit =>
    match propagateUnits p asgn falsifiedLit with
    | none => none
    | some (.Satisfied, asgn') => some (.sat asgn'.toSolution)
    | some (.Unsatisfied, asgn') =>
      match asgn'.backtrack with
      | none => none
      | some (none, _) => some .unsat
      | some (some l, asgn'') => solveLoop p scores fuel asgn'' l
    | some (.Undecided, asgn') =>
      match makeBranchingDecision p scores asgn' with
      | none => some .panic
      | some (l, asgn'') => solveLoop p scores fuel asgn'' l

/-- `DPLLSolver::solve` on a fresh solver (`DPLLSolver::new` +
`solve`), with the given outer-loop fuel. -/
def solve (p : Problem) (fuel : Nat) : Option SolveOutcome :=
  let scores := p.jeroslowWangScores
  match makeBranchingDecision p scores (SrcPA.new p.numVars) with
  | none => some .panic
  | some (l, asgn) => solveLoop p scores fuel asgn l

end DPLL

/-! ### Soundness facts about unit propagation and the search loop -/

namespace DPLL

lemma propagateLoop_satisfied_allSat (p : Problem) :
    ∀ (fuel : Nat) (asgn : SrcPA) (stack : List Lit) (res : PropagationResult)
      (a' : SrcPA), propagateLoop p fuel asgn stack = some (res, a') →
      ((res = .Satisfied → allClausesSatisfied p a' = true) ∧
       (res = .Undecided → allClausesSatisfied p a' = false)) := by
  intro fuel
  induction fuel with
  | zero => intro asgn stack res a' h; cases h
  | succ fuel ih =>
    intro asgn stack res a' h
    cases stack with
    | nil =>
      simp only [propagateLoop, Option.some.injEq, Prod.mk.injEq] at h
      obtain ⟨h1, h2⟩ := h
      subst h2
      by_cases hs : allClausesSatisfied p asgn = true
      · rw [if_pos hs] at h1
        subst h1
        exact ⟨fun _ => hs, fun hc => by cases hc⟩
      · rw [if_neg hs] at h1
        subst h1
        exact ⟨(fun hc => by cases hc), fun _ => by simpa using hs⟩
    | cons lit rest =>
      simp only [propagateLoop] at h
      rcases hpc : propagateClauses asgn rest (p.clausesContainingLit lit) with
        ⟨confl, asgn', stack'⟩
      rw [hpc] at h
      cases confl with
      | true =>
        simp only [Option.some.injEq, Prod.mk.injEq] at h
        obtain ⟨h1, h2⟩ := h
        subst h1
        exact ⟨(fun hc => by cases hc), fun hc => by cases hc⟩
      | false =>
        simp only at h
        exact ih asgn' stack' res a' h

lemma evalWithLoop_satisfied (st : List OptBool) :
    ∀ (lits : List Lit) (cnt : Nat) (u : Option Lit),
      Clause.evalWithLoop st lits cnt u = .Satisfied →
      ∃ l ∈ lits, ∃ b : Bool,
        st.getD l.var OptBool.uns = OptBool.fromBool b ∧ l.evalWith b = true := by
  intro lits
  induction lits with
  | nil =>
    intro cnt u h
    exfalso
    simp only [Clause.evalWithLoop] at h
    rcases cnt with _ | _ | k
    · cases h
    · cases u <;> cases h
    · cases h
  | cons l rest ih =>
    intro cnt u h
    simp only [Clause.evalWithLoop] at h
    rcases hv : st.getD l.var OptBool.uns with _ | _ | _ <;> simp only [hv] at h
    · -- fls
      by_cases he : l.evalWith false = true
      · exact ⟨l, List.mem_cons_self _ _, false, hv, he⟩
      · rw [if_neg (by simpa using he)] at h
        obtain ⟨l', hmem, b, hb⟩ := ih cnt u h
        exact ⟨l', List.mem_cons_of_mem _ hmem, b, hb⟩
    · -- tru
      by_cases he : l.evalWith true = true
      · exact ⟨l, List.mem_cons_self _ _, true, hv, he⟩
      · rw [if_neg (by simpa using he)] at h
        obtain ⟨l', hmem, b, hb⟩ := ih cnt u h
        exact ⟨l', List.mem_cons_of_mem _ hmem, b, hb⟩
    · -- uns
      obtain ⟨l', hmem, b, hb⟩ := ih (cnt + 1) (some l) h
      exact ⟨l', List.mem_cons_of_mem _ hmem, b, hb⟩

lemma toSolution_getD (pa : SrcPA) (v : Nat) (b : Bool)
    (h : pa.currentState.getD v OptBool.uns = OptBool.fromBool b) :
    pa.toSolution.getD v false = b := by
  have hlt : v < pa.currentState.length := by
    by_contra hge
    rw [List.getD_eq_default _ _ (by omega)] at h
    cases b <;> simp [OptBool.fromBool] at h
  have hval : pa.currentState.getD v OptBool.uns = pa.currentState[v] := by
    simp [List.getD, List.getElem?_eq_getElem hlt]
  show (pa.currentState.map (fun x => x.unwrapOr false)).getD v false = b
  rw [List.getD_eq_getElem?_getD, List.getElem?_map,
    List.getElem?_eq_getElem hlt]
  simp only [Option.map_some', Option.getD_some]
  rw [show pa.currentState[v] = OptBool.fromBool b from by rw [← hval, h]]
  cases b <;> rfl

lemma clause_satisfied_by_solution (pa : SrcPA) (c : Clause)
    (h : c.evalWith pa.currentState = .Satisfied) :
    c.isSatisfiedBy pa.toSolution = true := by
  obtain ⟨l, hmem, b, hb, he⟩ := evalWithLoop_satisfied pa.currentState c 0 none h
  apply List.any_eq_true.mpr
  exact ⟨l, hmem, by rw [toSolution_getD pa l.var b hb]; exact he⟩

lemma verifyLoop_ok (sol : List Bool) :
    ∀ (clauses : List Clause) (i : Nat),
      (∀ c ∈ clauses, c.isSatisfiedBy sol = true) →
      Problem.verifyLoop sol i clauses = .ok () := by
  intro clauses
  induction clauses with
  | nil => intro i _; rfl
  | cons c rest ih =>
    intro i hall
    simp only [Problem.verifyLoop]
    rw [hall c (List.mem_cons_self _ _)]
    exact ih (i + 1) (fun c' h => hall c' (List.mem_cons_of_mem _ h))

lemma solveLoop_sat_allSat (p : Problem) (scores : List ℚ) :
    ∀ (fuel : Nat) (asgn : SrcPA) (lit : Lit) (sol : List Bool),
      solveLoop p scores fuel asgn lit = some (.sat sol) →
      ∃ a' : SrcPA, sol = a'.toSolution ∧ allClausesSatisfied p a' = true := by
  intro fuel
  induction fuel with
  | zero => intro asgn lit sol h; cases h
  | succ fuel ih =>
    intro asgn lit sol h
    simp only [solveLoop] at h
    rcases hpu : propagateUnits p asgn lit with - | ⟨res, a'⟩ <;> rw [hpu] at h
    · cases h
    · cases res with
      | Satisfied =>
        simp only at h
        injection h with h'
        injection h' with h1
        exact ⟨a', h1.symm,
          (propagateLoop_satisfied_allSat p _ _ _ _ _ hpu).1 rfl⟩
      | Unsatisfied =>
        simp only at h
        rcases hbt : a'.backtrack with - | ⟨ol, a''⟩ <;> rw [hbt] at h
        · cases h
        · cases ol with
          | none => cases h
          | some l => exact ih a'' l sol h
      | Undecided =>
        simp only at h
        rcases hmb : makeBranchingDecision p scores a' with - | ⟨l, a''⟩ <;>
          rw [hmb] at h
        · cases h
        · exact ih a'' l sol h

end DPLL

/-- C1 (round-trip): whenever `DPLLSolver::solve` returns `Some(solution)`,
`Problem::verify_solution` accepts it — the returned full assignment
satisfies every clause of the problem.  Quantified over the loop fuel: any
run that completes with SAT yields a verified solution. -/
theorem dpll_solve_sat_verifies (p : Problem) (fuel : Nat) (sol : List Bool)
    (h : DPLL.solve p fuel = some (.sat sol)) :
    p.verifySolution sol = .ok () := by
  have hex : ∃ a' : SrcPA, sol = a'.toSolution ∧ DPLL.allClausesSatisfied p a' = true := by
    simp only [DPLL.solve] at h
    rcases hmb : DPLL.makeBranchingDecision p p.jeroslowWangScores
        (SrcPA.new p.numVars) with - | ⟨l, a⟩ <;> rw [hmb] at h
    · cases h
    · exact DPLL.solveLoop_sat_allSat p p.jeroslowWangScores fuel a l sol h
  obtain ⟨a', rfl, hall⟩ := hex
  apply DPLL.verifyLoop_ok
  intro c hc
  apply DPLL.clause_satisfied_by_solution
  have := List.all_eq_true.mp hall c hc
  rcases hev : c.evalWith a'.currentState with _ | _ | l | k <;> rw [hev] at this <;>
    first
    | rfl
    | cases this

/-- Witness for the round-trip: the one-clause problem `{x0}` is solved SAT
with solution `[true]`, which verifies. -/
theorem dpll_solve_sat_verifies_witness :
    DPLL.solve ⟨1, [[Lit.new 0 true]]⟩ 10 = some (.sat [true]) ∧
    Problem.verifySolution ⟨1, [[Lit.new 0 true]]⟩ [true] = .ok () :=
  ⟨by decide, dpll_solve_sat_verifies ⟨1, [[Lit.new 0 true]]⟩ 10 [true] (by decide)⟩

/-- C3 counterexample: unit propagation on the problem `{x0}` with two
variables, after deciding `x0 = true`, empties its stack without conflict
and returns *SAT* although the partial assignment is *not* complete
(`x1` is unassigned).  The source decides SAT by `all_clauses_satisfied`,
not by `assignment.is_complete()`. -/
theorem propagateUnits_sat_without_complete_assignment :
    (DPLL.propagateUnits ⟨2, [[Lit.new 0 true]]⟩ ((SrcPA.new 2).decide 0)
        (Lit.new 0 true).negatedClause).map
      (fun r => (r.1, r.2.isComplete)) = some (.Satisfied, false) := by
  decide

/-- C3 (amended): whenever the unit-propagation loop of
`DPLLSolver::propagate_units` empties its falsified-literals stack without
detecting a conflict, it returns *SAT* if and only if every clause of the
problem is satisfied under the partial assignment, and *Undecided*
otherwise. -/
theorem propagateLoop_sat_iff_all_clauses_satisfied
    (p : Problem) (fuel : Nat) (asgn : SrcPA) (stack : List Lit)
    (res : PropagationResult) (a' : SrcPA)
    (h : DPLL.propagateLoop p fuel asgn stack = some (res, a'))
    (hnc : res ≠ .Unsatisfied) :
    (res = .Satisfied ↔ DPLL.allClausesSatisfied p a' = true) ∧
    (res = .Undecided ↔ DPLL.allClausesSatisfied p a' = false) := by
  have hmain := DPLL.propagateLoop_satisfied_allSat p fuel asgn stack res a' h
  cases res with
  | Satisfied =>
    exact ⟨⟨fun _ => hmain.1 rfl, fun _ => rfl⟩,
      ⟨(fun hc => by cases hc), fun hc => by rw [hmain.1 rfl] at hc; cases hc⟩⟩
  | Unsatisfied => exact absurd rfl hnc
  | Undecided =>
    exact ⟨⟨(fun hc => by cases hc), fun hc => by rw [hmain.2 rfl] at hc; cases hc⟩,
      ⟨fun _ => hmain.2 rfl, fun _ => rfl⟩⟩

/-- Witness for the amended C3 statement at the concrete run used in the
counterexample: the loop completes with *SAT* and all clauses are indeed
satisfied. -/
theorem propagateLoop_sat_iff_all_clauses_satisfied_witness :
    DPLL.propagateLoop ⟨2, [[Lit.new 0 true]]⟩ 6 ((SrcPA.new 2).decide 0)
        [(Lit.new 0 true).negatedClause]
      = some (.Satisfied, ⟨[OptBool.tru, OptBool.uns], [0], [0], 1, 0⟩) ∧
    (PropagationResult.Satisfied = .Satisfied ↔
      DPLL.allClausesSatisfied ⟨2, [[Lit.new 0 true]]⟩
        ⟨[OptBool.tru, OptBool.uns], [0], [0], 1, 0⟩ = true) :=
  ⟨by decide,
   (propagateLoop_sat_iff_all_clauses_satisfied ⟨2, [[Lit.new 0 true]]⟩ 6
      ((SrcPA.new 2).decide 0) [(Lit.new 0 true).negatedClause] .Satisfied
      ⟨[OptBool.tru, OptBool.uns], [0], [0], 1, 0⟩ (by decide) (by decide)).1⟩

/-- C9 failing input: on the problem with one variable and clauses
`{}` (empty) and `{x0}`, `DPLLSolver::solve` reaches
`make_branching_decision` with every variable assigned (propagation returned
*Undecided* because the empty clause is unsatisfied but is indexed under no
literal, so the conflict is never seen), and panics via `unreachable!()`
instead of returning `Some(_)` or `None` — for every amount of loop fuel. -/
theorem dpll_solve_panics_on_problem_with_empty_clause (fuel : Nat) :
    DPLL.solve ⟨1, [[], [Lit.new 0 true]]⟩ (fuel + 1) = some SolveOutcome.panic := by
  rfl

/-! ## DIMACS parser (`src/src/parser.rs`) and `ProblemBuilder`
(`src/src/problem.rs`)

The byte stream is a `List Nat`.  The source's `ByteArrayIterator` performs
no bounds checks (reading past the end is undefined behaviour); the
embedding returns `none` for any read past the end of the input. -/

namespace Parser

/-- `u8::is_ascii_whitespace`: space, \t, \n, \x0C, \r. -/
def isWs (b : Nat) : Bool := b == 32 || b == 9 || b == 10 || b == 12 || b == 13

def isDigit (b : Nat) : Bool := 48 ≤ b && b ≤ 57

/-- `ByteArrayIterator::skip_until`. -/
def skipUntil (target : Nat) : List Nat → Option (List Nat)
  | [] => none
  | b :: rest => if b == target then some rest else skipUntil target rest

/-- `ByteArrayIterator::skip_ascii_whitespace`. -/
def skipWs : List Nat → Option (List Nat)
  | [] => none
  | b :: rest => if isWs b then skipWs rest else some (b :: rest)

/-- `ByteArrayIterator::advance_if`. -/
def advanceIf (byte : Nat) : List Nat → Option (Bool × List Nat)
  | [] => none
  | b :: rest => if b == byte then some (true, rest) else some (false, b :: rest)

/-- `ByteArrayIterator::skip_expected`. -/
def skipExpected : List Nat → List Nat → Option (Bool × List Nat)
  | [], data => some (true, data)
  | _ :: _, [] => none
  | e :: es, b :: rest => if b == e then skipExpected es rest else some (false, b :: rest)

/-- The digit loop of `ByteArrayIterator::parse_usize`; the end of the input
acts as a non-digit byte. -/
def parseUsizeLoop (num : Nat) : List Nat → Nat × List Nat
  | [] => (num, [])
  | b :: rest =>
    if isDigit b then parseUsizeLoop (num * 10 + (b - 48)) rest else (num, b :: rest)

/-- `ByteArrayIterator::parse_usize`: `None` when no digit is found. -/
def parseUsize (data : List Nat) : Option (Nat × List Nat) :=
  match data with
  | [] => none
  | b :: _ => if isDigit b then some (parseUsizeLoop 0 data) else none

/-- Insertion step for `sortLits`. -/
def insertLit (a : Lit) : Clause → Clause
  | [] => [a]
  | b :: rest => if a.code ≤ b.code then a :: b :: rest else b :: insertLit a rest

/-- `Vec::sort_unstable` on literals: the ascending order by the `u32` code
(the derived `Ord`); realised as an insertion sort, which produces the same
ascending sequence. -/
def sortLits : Clause → Clause
  | [] => []
  | a :: rest => insertLit a (sortLits rest)

/-- `Vec::dedup`: remove consecutive duplicates. -/
def dedupLits : Clause → Clause
  | [] => []
  | [a] => [a]
  | a :: b :: rest => if a = b then dedupLits (b :: rest) else a :: dedupLits (b :: rest)

/-- `ProblemBuilder::add_clause`: sort, dedup, drop tautologies, append. -/
def addClause (clauses : List Clause) (c : Clause) : List Clause :=
  let c' := dedupLits (sortLits c)
  if c'.isTautology then clauses else clauses ++ [c']

/-- The `loop` parsing the literals of one clause (fuelled by the remaining
input length; each iteration consumes the parsed number). -/
def parseClauseLits (numVars : Nat) : Nat → List Nat → Clause →
    Except String (Clause × List Nat)
  | 0, _, _ => .error "out of fuel" -- unreachable with fuel ≥ data.length + 1
  | fuel + 1, data, acc =>
    match skipWs data with
    | none => .error "Expected literal in clause"
    | some data1 =>
      match advanceIf 45 data1 with
      | none => .error "Expected literal in clause"
      | some (isNegated, data2) =>
        match parseUsize data2 with
        | none => .error "Expected literal in clause"
        | some (literal, data3) =>
          if literal == 0 then .ok (acc, data3)
          else if literal > numVars then
            .error s!"Unexpected variable {literal}. The problem only declares {numVars} variables."
          else
            parseClauseLits numVars fuel data3 (acc ++ [Lit.new (literal - 1) (!isNegated)])

/-- The `for _ in 0..num_clauses` loop of `parse_dimacs_cnf`. -/
def parseClauses (numVars : Nat) : Nat → List Nat → List Clause →
    Except String (List Clause × List Nat)
  | 0, data, acc => .ok (acc, data)
  | n + 1, data, acc =>
    match parseClauseLits numVars (data.length + 1) data [] with
    | .error e => .error e
    | .ok (clause, data') => parseClauses numVars n data' (addClause acc clause)

/-- `parse_dimacs_cnf`. -/
def parseDimacsCnf (data : List Nat) : Except String Problem :=
  match skipUntil 112 data with
  | none => .error "Unexpected EOF while searching for problem line"
  | some d1 =>
    match skipWs d1 with
    | none => .error "Unexpected EOF while searching for problem line"
    | some d2 =>
      match skipExpected [99, 110, 102] d2 with
      | none => .error "Expected problem format 'cnf'"
      | some (false, _) => .error "Expected problem format 'cnf'"
      | some (true, d3) =>
        match skipWs d3 with
        | none => .error "Expected number of variables"
        | some d4 =>
          match parseUsize d4 with
          | none => .error "Expected number of variables"
          | some (numVars, d5) =>
            match skipWs d5 with
            | none => .error "Expected number of clauses"
            | some d6 =>
              match parseUsize d6 with
              | none => .error "Expected number of clauses"
              | some (numClauses, d7) =>
                match parseClauses numVars numClauses d7 [] with
                | .error e => .error e
                | .ok (clauses, _) => .ok ⟨numVars, clauses⟩

end Parser

/-- C8 counterexample: the DIMACS input `p cnf 1 1\n0\n`, whose single
clause consists of the terminating `0` alone, parses successfully into a
Problem that *does* contain a zero-literal clause. -/
theorem parseDimacsCnf_produces_empty_clause :
    (Parser.parseDimacsCnf
        [112, 32, 99, 110, 102, 32, 49, 32, 49, 10, 48, 10]).toOption.map
      (fun p => p.clauses.any (fun c => c.length == 0)) = some true := by
  rfl

/-- C8 (amended): the parser accepts empty clauses: `ProblemBuilder::add_clause`
keeps every zero-literal clause (sorting and deduplication leave it empty and
it is not a tautology, the only drop condition), and the input
`p cnf 1 1\n0\n` parses to the Problem with exactly the empty clause. -/
theorem parser_accepts_empty_clauses :
    (∀ clauses : List Clause, Parser.addClause clauses [] = clauses ++ [[]]) ∧
    Parser.parseDimacsCnf [112, 32, 99, 110, 102, 32, 49, 32, 49, 10, 48, 10]
      = .ok ⟨1, [[]]⟩ :=
  ⟨fun _ => rfl, rfl⟩

/-! ## VSIDS (`src/src/vsids.rs`)

`f64` activities are modelled as `ℚ` (the code only adds, scales and
compares scores; no `NaN` arises from these operations, so
`partial_cmp(..).unwrap_or(Equal)` is the total order on the values).  The
lazy `BinaryHeap<Activity>` is modelled as a list of entries: `push` is
cons and `pop` removes one maximal entry in the `Ord for Activity` order
(score first, then variable id) — equal entries are indistinguishable
values, so which maximal occurrence the real heap returns is immaterial. -/

structure Activity where
  var : Nat
  score : ℚ
deriving DecidableEq, Repr

namespace Activity

/-- The strict `Ord for Activity` order: compare scores, then variable ids. -/
def ltA (a b : Activity) : Prop :=
  a.score < b.score ∨ (a.score = b.score ∧ a.var < b.var)

instance : DecidablePred (fun p : Activity × Activity => ltA p.1 p.2) :=
  fun _ => by unfold ltA; infer_instance

instance (a b : Activity) : Decidable (ltA a b) := by unfold ltA; infer_instance

lemma ltA_trans {a b c : Activity} (h1 : ltA a b) (h2 : ltA b c) : ltA a c := by
  rcases h1 with h1 | ⟨h1s, h1v⟩ <;> rcases h2 with h2 | ⟨h2s, h2v⟩
  · exact Or.inl (lt_trans h1 h2)
  · exact Or.inl (h2s ▸ h1)
  · exact Or.inl (h1s ▸ h2)
  · exact Or.inr ⟨h1s.trans h2s, lt_trans h1v h2v⟩
lemma ltA_total (a b : Activity) : ltA a b ∨ a = b ∨ ltA b a := by
  rcases lt_trichotomy a.score b.score with h | h | h
  · exact Or.inl (Or.inl h)
  · rcases lt_trichotomy a.var b.var with hv | hv | hv
    · exact Or.inl (Or.inr ⟨h, hv⟩)
    · refine Or.inr (Or.inl ?_)
      obtain ⟨va, sa⟩ := a
      obtain ⟨vb, sb⟩ := b
      simp only at h hv
      rw [h, hv]
    · exact Or.inr (Or.inr (Or.inr ⟨h.symm, hv⟩))
  · exact Or.inr (Or.inr (Or.inl h))

end Activity

namespace VSIDSHeap

/-- Maximum of an element and a list in the `Activity` order. -/
def maxOf : Activity → List Activity → Activity
  | a, [] => a
  | a, b :: rest => maxOf (if Activity.ltA a b then b else a) rest

/-- Remove the first occurrence of a value. -/
def removeFirst (x : Activity) : List Activity → List Activity
  | [] => []
  | a :: rest => if a = x then rest else a :: removeFirst x rest

/-- `BinaryHeap::pop`: remove and return a maximal entry. -/
def heapPop : List Activity → Option (Activity × List Activity)
  | [] => none
  | a :: rest =>
    let m := maxOf a rest
    some (m, removeFirst m (a :: rest))

lemma maxOf_mem (a : Activity) (l : List Activity) : maxOf a l ∈ a :: l := by
  induction l generalizing a with
  | nil => exact List.mem_cons_self _ _
  | cons b rest ih =>
    show maxOf (if Activity.ltA a b then b else a) rest ∈ a :: b :: rest
    by_cases hab : Activity.ltA a b
    · rw [if_pos hab]
      rcases List.mem_cons.mp (ih b) with h | h
      · rw [h]
        exact List.mem_cons_of_mem _ (List.mem_cons_self _ _)
      · exact List.mem_cons_of_mem _ (List.mem_cons_of_mem _ h)
    · rw [if_neg hab]
      rcases List.mem_cons.mp (ih a) with h | h
      · rw [h]
        exact List.mem_cons_self _ _
      · exact List.mem_cons_of_mem _ (List.mem_cons_of_mem _ h)

lemma ltA_irrefl (x : Activity) : ¬ Activity.ltA x x := by
  intro h
  rcases h with h | ⟨-, h⟩ <;> exact lt_irrefl _ h

lemma maxOf_not_lt (a : Activity) (l : List Activity) :
    ∀ x ∈ a :: l, ¬ Activity.ltA (maxOf a l) x := by
  induction l generalizing a with
  | nil =>
    intro x hx
    rcases List.mem_cons.mp hx with rfl | h
    · exact ltA_irrefl x
    · cases h
  | cons b rest ih =>
    intro x hx
    show ¬ Activity.ltA (maxOf (if Activity.ltA a b then b else a) rest) x
    by_cases hab : Activity.ltA a b
    · rw [if_pos hab]
      have hMb : ¬ Activity.ltA (maxOf b rest) b := ih b b (List.mem_cons_self _ _)
      rcases List.mem_cons.mp hx with rfl | hx'
      · intro hMa
        exact hMb (Activity.ltA_trans hMa hab)
      · rcases List.mem_cons.mp hx' with rfl | hx''
        · exact hMb
        · exact ih b x (List.mem_cons_of_mem _ hx'')
    · rw [if_neg hab]
      have hMa : ¬ Activity.ltA (maxOf a rest) a := ih a a (List.mem_cons_self _ _)
      rcases List.mem_cons.mp hx with rfl | hx'
      · exact hMa
      · rcases List.mem_cons.mp hx' with rfl | hx''
        · intro hMb
          rcases Activity.ltA_total x a with h1 | h1 | h1
          · exact hMa (Activity.ltA_trans hMb h1)
          · rw [h1] at hMb
            exact hMa hMb
          · exact hab h1
        · exact ih a x (List.mem_cons_of_mem _ hx'')

lemma removeFirst_length (x : Activity) (l : List Activity) (h : x ∈ l) :
    (removeFirst x l).length + 1 = l.length := by
  induction l with
  | nil => cases h
  | cons a rest ih =>
    show (if a = x then rest else a :: removeFirst x rest).length + 1 = _
    by_cases hax : a = x
    · rw [if_pos hax]; rfl
    · rw [if_neg hax]
      have hmem : x ∈ rest := by
        rcases List.mem_cons.mp h with h' | h'
        · exact absurd h'.symm hax
        · exact h'
      simp only [List.length_cons]
      rw [ih hmem]

lemma removeFirst_subset (x : Activity) (l : List Activity) :
    ∀ y ∈ removeFirst x l, y ∈ l := by
  induction l with
  | nil => intro y hy; cases hy
  | cons a rest ih =>
    intro y hy
    show y ∈ a :: rest
    by_cases hax : a = x
    · rw [removeFirst, if_pos hax] at hy
      exact List.mem_cons_of_mem _ hy
    · rw [removeFirst, if_neg hax] at hy
      rcases List.mem_cons.mp hy with rfl | hy'
      · exact List.mem_cons_self _ _
      · exact List.mem_cons_of_mem _ (ih y hy')

lemma mem_removeFirst_of_ne (x y : Activity) (l : List Activity)
    (hy : y ∈ l) (hne : y ≠ x) : y ∈ removeFirst x l := by
  induction l with
  | nil => cases hy
  | cons a rest ih =>
    show y ∈ (if a = x then rest else a :: removeFirst x rest)
    by_cases hax : a = x
    · rw [if_pos hax]
      rcases List.mem_cons.mp hy with rfl | hy'
      · exact absurd hax hne
      · exact hy'
    · rw [if_neg hax]
      rcases List.mem_cons.mp hy with rfl | hy'
      · exact List.mem_cons_self _ _
      · exact List.mem_cons_of_mem _ (ih hy')

lemma heapPop_length (heap : List Activity) (act : Activity)
    (heap' : List Activity) (h : heapPop heap = some (act, heap')) :
    heap'.length + 1 = heap.length := by
  cases heap with
  | nil => cases h
  | cons a rest =>
    simp only [heapPop, Option.some.injEq, Prod.mk.injEq] at h
    obtain ⟨h1, h2⟩ := h
    rw [← h2]
    exact removeFirst_length _ _ (maxOf_mem a rest)

end VSIDSHeap

/-- `VSIDS` (`src/src/vsids.rs`). -/
structure VSIDS where
  activityScores : List ℚ
  heap : List Activity
  increment : ℚ
  growFactor : ℚ
deriving DecidableEq, Repr

namespace VSIDS

open VSIDSHeap

/-- The heap contents produced by pushing `Activity { var, score }` for
every indexed score, as `with_scores` and `rescale` do. -/
def heapOfScores (scores : List ℚ) : List Activity :=
  (List.range scores.length).map (fun v => ⟨v, scores.getD v 0⟩)

/-- `VSIDS::with_scores`. -/
def withScores (initialVarScores : List ℚ) : VSIDS :=
  { activityScores := initialVarScores
    heap := heapOfScores initialVarScores
    increment := 1
    growFactor := 1 / (95/100) }

/-- The pop-and-skip loop of `VSIDS::pop_most_active_unassigned_var`:
skip entries whose variable is already assigned (lazy removal) and entries
whose score is outdated (lazy update). -/
def popLoop (scores : List ℚ) (asgn : List OptBool) (heap : List Activity) :
    Option Nat × List Activity :=
  match h : heapPop heap with
  | none => (none, heap)
  | some (act, heap') =>
    if (asgn.getD act.var OptBool.uns).isSome then popLoop scores asgn heap'
    else if act.score < scores.getD act.var 0 then popLoop scores asgn heap'
    else (some act.var, heap')
termination_by heap.length
decreasing_by
  all_goals
    have := heapPop_length heap act heap' h
    omega

/-- `VSIDS::pop_most_active_unassigned_var`. -/
def popMostActiveUnassignedVar (vs : VSIDS) (asgn : List OptBool) :
    Option Nat × VSIDS :=
  let r := popLoop vs.activityScores asgn vs.heap
  (r.1, { vs with heap := r.2 })

/-- `VSIDS::decay`. -/
def decay (vs : VSIDS) : VSIDS := { vs with increment := vs.increment * vs.growFactor }

/-- `VSIDS::on_unassign_var`. -/
def onUnassignVar (vs : VSIDS) (v : Nat) : VSIDS :=
  { vs with heap := ⟨v, vs.activityScores.getD v 0⟩ :: vs.heap }

/-- `VSIDS::rescale`. -/
def rescale (vs : VSIDS) : VSIDS :=
  let scale : ℚ := 1 / 10 ^ 100
  let scores := vs.activityScores.map (· * scale)
  { activityScores := scores
    heap := heapOfScores scores
    increment := vs.increment * scale
    growFactor := vs.growFactor }

/-- The loop body of `VSIDS::bump_var_activities`. -/
def bumpVarActivities (vs : VSIDS) : List Nat → VSIDS
  | [] => vs
  | v :: rest =>
    let newScore := vs.activityScores.getD v 0 + vs.increment
    let vs' : VSIDS :=
      { vs with
        activityScores := vs.activityScores.set v newScore
        heap := ⟨v, newScore⟩ :: vs.heap }
    let vs'' := if newScore > 10 ^ 100 then vs'.rescale else vs'
    bumpVarActivities vs'' rest

end VSIDS

/-- A VSIDS state paired with the partial assignment it is kept in sync
with, stepped as the solver does: assignments touch only the assignment;
unassignments notify `on_unassign_var`; conflicts bump (with rescale) and
decay; decisions pop from the heap and assign the returned variable. -/
inductive VSIDSSync : VSIDS × List OptBool → VSIDS × List OptBool → Prop
  | assign (vs : VSIDS) (asgn : List OptBool) (v : Nat) (val : Bool)
      (h : asgn.getD v OptBool.uns = OptBool.uns) :
      VSIDSSync (vs, asgn) (vs, asgn.set v (OptBool.fromBool val))
  | unassign (vs : VSIDS) (asgn : List OptBool) (v : Nat)
      (h : asgn.getD v OptBool.uns ≠ OptBool.uns) :
      VSIDSSync (vs, asgn) (vs.onUnassignVar v, asgn.set v OptBool.uns)
  | bump (vs : VSIDS) (asgn : List OptBool) (vars : List Nat)
      (h : ∀ v ∈ vars, v < vs.activityScores.length) :
      VSIDSSync (vs, asgn) (vs.bumpVarActivities vars, asgn)
  | decay (vs : VSIDS) (asgn : List OptBool) :
      VSIDSSync (vs, asgn) (vs.decay, asgn)
  | popDecide (vs : VSIDS) (asgn : List OptBool) (v : Nat)
      (h : (vs.popMostActiveUnassignedVar asgn).1 = some v) :
      VSIDSSync (vs, asgn) ((vs.popMostActiveUnassignedVar asgn).2,
        asgn.set v OptBool.tru)

/-- States reachable from `with_scores` over a fully unassigned assignment
of matching length. -/
inductive VSIDSReach (scores0 : List ℚ) : VSIDS × List OptBool → Prop
  | init : VSIDSReach scores0
      (VSIDS.withScores scores0, List.replicate scores0.length OptBool.uns)
  | step {s s' : VSIDS × List OptBool} :
      VSIDSReach scores0 s → VSIDSSync s s' → VSIDSReach scores0 s'

/-- The VSIDS admissibility invariant: no heap entry is ahead of the score
table; every unassigned variable has its current score present in the heap;
the increment is positive; score table and assignment have equal length. -/
def VSIDSInv (vs : VSIDS) (asgn : List OptBool) : Prop :=
  (∀ e ∈ vs.heap, e.score ≤ vs.activityScores.getD e.var 0) ∧
  (∀ v < vs.activityScores.length, asgn.getD v OptBool.uns = OptBool.uns →
    (⟨v, vs.activityScores.getD v 0⟩ : Activity) ∈ vs.heap) ∧
  0 < vs.increment ∧
  0 < vs.growFactor ∧
  vs.activityScores.length = asgn.length ∧
  (∀ e ∈ vs.heap, e.var < vs.activityScores.length)

namespace VSIDS

open VSIDSHeap

/-- A heap entry that the pop loop may not skip: its variable is unassigned
and its score is not outdated. -/
def live (scores : List ℚ) (asgn : List OptBool) (e : Activity) : Prop :=
  asgn.getD e.var OptBool.uns = OptBool.uns ∧ ¬ e.score < scores.getD e.var 0


lemma popLoop_eq_none (scores : List ℚ) (asgn : List OptBool)
    (heap : List Activity) (hp : heapPop heap = none) :
    popLoop scores asgn heap = (none, heap) := by
  rw [popLoop]
  split
  · rfl
  · next act heap' h => rw [hp] at h; cases h

lemma popLoop_eq_some (scores : List ℚ) (asgn : List OptBool)
    (heap : List Activity) (act : Activity) (heap' : List Activity)
    (hp : heapPop heap = some (act, heap')) :
    popLoop scores asgn heap =
      if (asgn.getD act.var OptBool.uns).isSome then popLoop scores asgn heap'
      else if act.score < scores.getD act.var 0 then popLoop scores asgn heap'
      else (some act.var, heap') := by
  rw [popLoop]
  split
  · next h => rw [hp] at h; cases h
  · next act1 heap1 h =>
    rw [hp] at h
    simp only [Option.some.injEq, Prod.mk.injEq] at h
    rw [h.1, h.2]

lemma popLoop_spec (scores : List ℚ) (asgn : List OptBool) :
    ∀ (n : Nat) (heap : List Activity), heap.length ≤ n →
    (∀ e ∈ heap, e.score ≤ scores.getD e.var 0) →
    (∀ x ∈ (popLoop scores asgn heap).2, x ∈ heap) ∧
    (∀ w, (popLoop scores asgn heap).1 = some w →
      asgn.getD w OptBool.uns = OptBool.uns ∧
      (∀ e ∈ heap, live scores asgn e →
        ¬ Activity.ltA ⟨w, scores.getD w 0⟩ e ∧
        (e.var ≠ w → e ∈ (popLoop scores asgn heap).2))) ∧
    ((popLoop scores asgn heap).1 = none → ∀ e ∈ heap, ¬ live scores asgn e) := by
  intro n
  induction n with
  | zero =>
    intro heap hlen _
    have : heap = [] := List.length_eq_zero.mp (by omega)
    subst this
    rw [popLoop_eq_none scores asgn [] rfl]
    exact ⟨fun x hx => hx, (fun w hw => by cases hw), fun _ e he => absurd he
      (List.not_mem_nil e)⟩
  | succ n ih =>
    intro heap hlen hIN
    rcases hp : heapPop heap with - | ⟨act, heap'⟩
    · rw [popLoop_eq_none scores asgn heap hp]
      cases heap with
      | nil =>
        exact ⟨fun x hx => hx, (fun w hw => by cases hw), fun _ e he => absurd he
          (List.not_mem_nil e)⟩
      | cons a rest => cases hp
    · rw [popLoop_eq_some scores asgn heap act heap' hp]
      have hlen' : heap'.length + 1 = heap.length := heapPop_length heap act heap' hp
      have hact_mem : act ∈ heap := by
        cases heap with
        | nil => cases hp
        | cons a rest =>
          simp only [heapPop, Option.some.injEq, Prod.mk.injEq] at hp
          exact hp.1 ▸ maxOf_mem a rest
      have hact_max : ∀ x ∈ heap, ¬ Activity.ltA act x := by
        cases heap with
        | nil => intro x hx; cases hx
        | cons a rest =>
          simp only [heapPop, Option.some.injEq, Prod.mk.injEq] at hp
          exact hp.1 ▸ maxOf_not_lt a rest
      have hheap' : heap' = removeFirst act heap := by
        cases heap with
        | nil => cases hp
        | cons a rest =>
          simp only [heapPop, Option.some.injEq, Prod.mk.injEq] at hp
          rw [← hp.2, hp.1]
      have hsub' : ∀ x ∈ heap', x ∈ heap := by
        rw [hheap']
        exact removeFirst_subset act heap
      have hIN' : ∀ e ∈ heap', e.score ≤ scores.getD e.var 0 :=
        fun e he => hIN e (hsub' e he)
      have hihl : heap'.length ≤ n := by omega
      by_cases hassigned : (asgn.getD act.var OptBool.uns).isSome = true
      · -- lazy removal of an assigned variable
        rw [if_pos hassigned]
        obtain ⟨ihsub, ihsome, ihnone⟩ := ih heap' hihl hIN'
        have hlive_ne : ∀ e ∈ heap, live scores asgn e → e ≠ act := by
          intro e he hlive heq
          have h1 := hlive.1
          rw [heq] at h1
          rw [h1] at hassigned
          cases hassigned
        have hlive_mem' : ∀ e ∈ heap, live scores asgn e → e ∈ heap' := by
          intro e he hlive
          rw [hheap']
          exact mem_removeFirst_of_ne act e heap he (hlive_ne e he hlive)
        refine ⟨fun x hx => hsub' x (ihsub x hx), ?_, ?_⟩
        · intro w hw
          obtain ⟨hw1, hw2⟩ := ihsome w hw
          exact ⟨hw1, fun e he hlive =>
            ⟨(hw2 e (hlive_mem' e he hlive) hlive).1,
             fun hne => (hw2 e (hlive_mem' e he hlive) hlive).2 hne⟩⟩
        · intro hnone e he hlive
          exact ihnone hnone e (hlive_mem' e he hlive) hlive
      · rw [if_neg hassigned]
        by_cases hstale : act.score < scores.getD act.var 0
        · -- lazy update: outdated entry
          rw [if_pos hstale]
          obtain ⟨ihsub, ihsome, ihnone⟩ := ih heap' hihl hIN'
          have hlive_ne : ∀ e ∈ heap, live scores asgn e → e ≠ act := by
            intro e he hlive heq
            have h2 := hlive.2
            rw [heq] at h2
            exact h2 hstale
          have hlive_mem' : ∀ e ∈ heap, live scores asgn e → e ∈ heap' := by
            intro e he hlive
            rw [hheap']
            exact mem_removeFirst_of_ne act e heap he (hlive_ne e he hlive)
          refine ⟨fun x hx => hsub' x (ihsub x hx), ?_, ?_⟩
          · intro w hw
            obtain ⟨hw1, hw2⟩ := ihsome w hw
            exact ⟨hw1, fun e he hlive =>
              ⟨(hw2 e (hlive_mem' e he hlive) hlive).1,
               fun hne => (hw2 e (hlive_mem' e he hlive) hlive).2 hne⟩⟩
          · intro hnone e he hlive
            exact ihnone hnone e (hlive_mem' e he hlive) hlive
        · -- success: the popped entry is returned
          rw [if_neg hstale]
          have hacteq : act = ⟨act.var, scores.getD act.var 0⟩ := by
            have h1 := hIN act hact_mem
            have h2 : act.score = scores.getD act.var 0 := le_antisymm h1 (by
              exact le_of_not_lt hstale)
            obtain ⟨v, s⟩ := act
            simp only at h2
            rw [h2]
          refine ⟨fun x hx => hsub' x hx, ?_, ?_⟩
          · intro w hw
            simp only [Option.some.injEq] at hw
            subst hw
            constructor
            · rcases hx : asgn.getD act.var OptBool.uns with _ | _ | _
              · exact absurd (by rw [hx]; rfl) hassigned
              · exact absurd (by rw [hx]; rfl) hassigned
              · rfl
            · intro e he hlive
              constructor
              · rw [← hacteq]
                exact hact_max e he
              · intro hne
                rw [hheap']
                apply mem_removeFirst_of_ne
                · exact he
                · intro heq
                  rw [heq] at hne
                  exact hne rfl
          · intro hnone
            cases hnone

end VSIDS

namespace VSIDS

lemma heapOfScores_spec (scores : List ℚ) :
    (∀ e ∈ heapOfScores scores, e.var < scores.length ∧
      e.score = scores.getD e.var 0) ∧
    (∀ v < scores.length, (⟨v, scores.getD v 0⟩ : Activity) ∈ heapOfScores scores) := by
  constructor
  · intro e he
    obtain ⟨v, hv, rfl⟩ := List.mem_map.mp he
    exact ⟨List.mem_range.mp hv, rfl⟩
  · intro v hv
    exact List.mem_map.mpr ⟨v, List.mem_range.mpr hv, rfl⟩

lemma vsidsInv_init (scores0 : List ℚ) :
    VSIDSInv (withScores scores0) (List.replicate scores0.length OptBool.uns) := by
  obtain ⟨h1, h2⟩ := heapOfScores_spec scores0
  refine ⟨fun e he => le_of_eq (h1 e he).2, fun v hv _ => h2 v hv, one_pos,
    by norm_num [withScores], by simp [withScores], fun e he => (h1 e he).1⟩

lemma getD_set_ne_opt (asgn : List OptBool) (v w : Nat) (b : OptBool) (h : v ≠ w) :
    (asgn.set v b).getD w OptBool.uns = asgn.getD w OptBool.uns := by
  simp [List.getD, List.getElem?_set_ne h]

lemma getD_set_self_opt (asgn : List OptBool) (v : Nat) (b : OptBool)
    (h : v < asgn.length) : (asgn.set v b).getD v OptBool.uns = b := by
  simp [List.getD, List.getElem?_set_eq_of_lt _ h]

lemma vsidsInv_rescale (vs : VSIDS) (asgn : List OptBool) (hinv : VSIDSInv vs asgn) :
    VSIDSInv vs.rescale asgn := by
  obtain ⟨-, -, hinc, hgrow, hlen, -⟩ := hinv
  obtain ⟨h1, h2⟩ := heapOfScores_spec (vs.activityScores.map (· * (1 / 10 ^ 100)))
  refine ⟨fun e he => le_of_eq (h1 e he).2, ?_, ?_, hgrow, ?_, ?_⟩
  · intro v hv hu
    simp only [rescale]
    apply h2
    simpa [rescale] using hv
  · show 0 < vs.increment * (1 / 10 ^ 100)
    positivity
  · show (vs.activityScores.map _).length = asgn.length
    simpa using hlen
  · intro e he
    exact (h1 e he).1

set_option maxRecDepth 4096 in
lemma vsidsInv_bump (vars : List Nat) :
    ∀ (vs : VSIDS) (asgn : List OptBool), VSIDSInv vs asgn →
    (∀ v ∈ vars, v < vs.activityScores.length) →
    VSIDSInv (vs.bumpVarActivities vars) asgn := by
  induction vars with
  | nil => intro vs asgn hinv _; exact hinv
  | cons v rest ih =>
    intro vs asgn hinv hb
    obtain ⟨h1, h2, hinc, hgrow, hlen, h6⟩ := hinv
    have hvlt : v < vs.activityScores.length := hb v (List.mem_cons_self _ _)
    set newScore := vs.activityScores.getD v 0 + vs.increment with hns
    set scores' := vs.activityScores.set v newScore with hsc
    have hlen' : scores'.length = vs.activityScores.length := by simp [hsc]
    have hgetD_self : scores'.getD v 0 = newScore := by
      rw [hsc]
      simp [List.getD, List.getElem?_set_eq_of_lt _ hvlt]
    have hgetD_ne : ∀ w, w ≠ v → scores'.getD w 0 = vs.activityScores.getD w 0 := by
      intro w hw
      rw [hsc]
      simp [List.getD, List.getElem?_set_ne (fun hx => hw hx.symm)]
    have hinv' : VSIDSInv
        { vs with activityScores := scores', heap := ⟨v, newScore⟩ :: vs.heap }
        asgn := by
      refine ⟨?_, ?_, hinc, hgrow, by rw [hlen']; exact hlen, ?_⟩
      · intro e he
        rcases List.mem_cons.mp he with rfl | he'
        · show newScore ≤ scores'.getD v 0
          rw [hgetD_self]
        · show e.score ≤ scores'.getD e.var 0
          by_cases hev : e.var = v
          · rw [hev, hgetD_self, hns]
            calc e.score ≤ vs.activityScores.getD e.var 0 := h1 e he'
            _ = vs.activityScores.getD v 0 := by rw [hev]
            _ ≤ vs.activityScores.getD v 0 + vs.increment := by linarith
          · rw [hgetD_ne e.var hev]
            exact h1 e he'
      · intro w hw hu
        show (⟨w, scores'.getD w 0⟩ : Activity) ∈ _
        by_cases hwv : w = v
        · subst hwv
          rw [hgetD_self]
          exact List.mem_cons_self _ _
        · rw [hgetD_ne w hwv]
          exact List.mem_cons_of_mem _ (h2 w (by rw [← hlen']; exact hw) hu)
      · intro e he
        rcases List.mem_cons.mp he with rfl | he'
        · show v < scores'.length
          rw [hlen']; exact hvlt
        · show e.var < scores'.length
          rw [hlen']; exact h6 e he'
    have hunfold : vs.bumpVarActivities (v :: rest) =
        VSIDS.bumpVarActivities
          (if newScore > 10 ^ 100 then
            VSIDS.rescale
              { vs with activityScores := scores', heap := ⟨v, newScore⟩ :: vs.heap }
          else { vs with activityScores := scores', heap := ⟨v, newScore⟩ :: vs.heap })
          rest := rfl
    rw [hunfold]
    by_cases hbig : newScore > 10 ^ 100
    · rw [if_pos hbig]
      apply ih _ asgn (vsidsInv_rescale _ asgn hinv')
      intro w hwmem
      show w < ((scores').map _).length
      rw [List.length_map, hlen']
      exact hb w (List.mem_cons_of_mem _ hwmem)
    · rw [if_neg hbig]
      apply ih _ asgn hinv'
      intro w hwmem
      show w < scores'.length
      rw [hlen']
      exact hb w (List.mem_cons_of_mem _ hwmem)

end VSIDS

namespace VSIDS

lemma vsidsInv_assign (vs : VSIDS) (asgn : List OptBool) (v : Nat) (val : Bool)
    (hinv : VSIDSInv vs asgn) :
    VSIDSInv vs (asgn.set v (OptBool.fromBool val)) := by
  obtain ⟨h1, h2, hinc, hgrow, hlen, h6⟩ := hinv
  refine ⟨h1, ?_, hinc, hgrow, by simpa using hlen, h6⟩
  intro w hw hu
  by_cases hwv : w = v
  · subst hwv
    exfalso
    have hwa : w < asgn.length := by omega
    rw [getD_set_self_opt asgn w _ hwa] at hu
    cases val <;> simp [OptBool.fromBool] at hu
  · rw [getD_set_ne_opt asgn v w _ (fun hx => hwv hx.symm)] at hu
    exact h2 w hw hu

lemma vsidsInv_unassign (vs : VSIDS) (asgn : List OptBool) (v : Nat)
    (h : asgn.getD v OptBool.uns ≠ OptBool.uns)
    (hinv : VSIDSInv vs asgn) :
    VSIDSInv (vs.onUnassignVar v) (asgn.set v OptBool.uns) := by
  obtain ⟨h1, h2, hinc, hgrow, hlen, h6⟩ := hinv
  have hvlt : v < asgn.length := by
    by_contra hge
    exact h (by simp [List.getD, List.getElem?_eq_none (by omega : asgn.length ≤ v)])
  refine ⟨?_, ?_, hinc, hgrow, by simpa using hlen, ?_⟩
  · intro e he
    rcases List.mem_cons.mp he with rfl | he'
    · exact le_refl _
    · exact h1 e he'
  · intro w hw hu
    by_cases hwv : w = v
    · subst hwv
      exact List.mem_cons_self _ _
    · rw [getD_set_ne_opt asgn v w _ (fun hx => hwv hx.symm)] at hu
      exact List.mem_cons_of_mem _ (h2 w hw hu)
  · intro e he
    rcases List.mem_cons.mp he with rfl | he'
    · show v < vs.activityScores.length
      omega
    · exact h6 e he'

lemma vsidsInv_decay (vs : VSIDS) (asgn : List OptBool) (hinv : VSIDSInv vs asgn) :
    VSIDSInv vs.decay asgn := by
  obtain ⟨h1, h2, hinc, hgrow, hlen, h6⟩ := hinv
  exact ⟨h1, h2, mul_pos hinc hgrow, hgrow, hlen, h6⟩

lemma vsidsInv_popDecide (vs : VSIDS) (asgn : List OptBool) (v : Nat)
    (h : (vs.popMostActiveUnassignedVar asgn).1 = some v)
    (hinv : VSIDSInv vs asgn) :
    VSIDSInv (vs.popMostActiveUnassignedVar asgn).2 (asgn.set v OptBool.tru) := by
  obtain ⟨h1, h2, hinc, hgrow, hlen, h6⟩ := hinv
  obtain ⟨hsub, hsome, -⟩ :=
    popLoop_spec vs.activityScores asgn vs.heap.length vs.heap (le_refl _) h1
  have hppl : (vs.popMostActiveUnassignedVar asgn).1
      = (popLoop vs.activityScores asgn vs.heap).1 := rfl
  rw [hppl] at h
  obtain ⟨hvu, hlive⟩ := hsome v h
  have hheap2 : (vs.popMostActiveUnassignedVar asgn).2.heap
      = (popLoop vs.activityScores asgn vs.heap).2 := rfl
  have hscores2 : (vs.popMostActiveUnassignedVar asgn).2.activityScores
      = vs.activityScores := rfl
  have hinc2 : (vs.popMostActiveUnassignedVar asgn).2.increment = vs.increment := rfl
  have hgrow2 : (vs.popMostActiveUnassignedVar asgn).2.growFactor = vs.growFactor := rfl
  refine ⟨?_, ?_, ?_, ?_, ?_, ?_⟩
  · intro e he
    rw [hheap2] at he
    rw [hscores2]
    exact h1 e (hsub e he)
  · intro w hw hu
    rw [hscores2] at hw ⊢
    rw [hheap2]
    by_cases hwv : w = v
    · subst hwv
      exfalso
      have hwa : w < asgn.length := by omega
      rw [getD_set_self_opt asgn w _ hwa] at hu
      cases hu
    · rw [getD_set_ne_opt asgn v w _ (fun hx => hwv hx.symm)] at hu
      have hmem := h2 w hw hu
      have hl : live vs.activityScores asgn ⟨w, vs.activityScores.getD w 0⟩ :=
        ⟨hu, by simp⟩
      exact (hlive _ hmem hl).2 hwv
  · rw [hinc2]; exact hinc
  · rw [hgrow2]; exact hgrow
  · rw [hscores2]; simpa using hlen
  · intro e he
    rw [hheap2] at he
    rw [hscores2]
    exact h6 e (hsub e he)

lemma vsidsReach_inv (scores0 : List ℚ) (s : VSIDS × List OptBool)
    (hreach : VSIDSReach scores0 s) : VSIDSInv s.1 s.2 := by
  induction hreach with
  | init => exact vsidsInv_init scores0
  | step hr hs ih =>
    cases hs with
    | assign vs asgn v val h => exact vsidsInv_assign vs asgn v val ih
    | unassign vs asgn v h => exact vsidsInv_unassign vs asgn v h ih
    | bump vs asgn vars h => exact vsidsInv_bump vars vs asgn ih h
    | decay vs asgn => exact vsidsInv_decay vs asgn ih
    | popDecide vs asgn v h => exact vsidsInv_popDecide vs asgn v h ih

end VSIDS

/-- C7 (VSIDS admissibility): in every state reachable from `with_scores`
with the partial assignment kept in sync (assignments, `on_unassign_var`
notifications, conflict bumps with rescaling, decays, and pop-then-decide,
as the solver performs them), `pop_most_active_unassigned_var` returns an
unassigned variable whose current activity is maximal among all unassigned
variables, and returns `None` only when no unassigned variable remains (in
particular none remains in the heap). -/
theorem vsids_pop_most_active_admissible (scores0 : List ℚ) (vs : VSIDS)
    (asgn : List OptBool) (hreach : VSIDSReach scores0 (vs, asgn)) :
    (∀ v, (vs.popMostActiveUnassignedVar asgn).1 = some v →
      asgn.getD v OptBool.uns = OptBool.uns ∧
      (∀ u, u < vs.activityScores.length → asgn.getD u OptBool.uns = OptBool.uns →
        vs.activityScores.getD u 0 ≤ vs.activityScores.getD v 0)) ∧
    ((vs.popMostActiveUnassignedVar asgn).1 = none →
      ∀ u, u < vs.activityScores.length → asgn.getD u OptBool.uns ≠ OptBool.uns) := by
  obtain ⟨h1, h2, -, -, -, -⟩ := VSIDS.vsidsReach_inv scores0 (vs, asgn) hreach
  obtain ⟨hsub, hsome, hnone⟩ :=
    VSIDS.popLoop_spec vs.activityScores asgn vs.heap.length vs.heap (le_refl _) h1
  have hppl : (vs.popMostActiveUnassignedVar asgn).1
      = (VSIDS.popLoop vs.activityScores asgn vs.heap).1 := rfl
  constructor
  · intro v hv
    rw [hppl] at hv
    obtain ⟨hvu, hlive⟩ := hsome v hv
    refine ⟨hvu, ?_⟩
    intro u hu huu
    have hmem := h2 u hu huu
    have hl : VSIDS.live vs.activityScores asgn ⟨u, vs.activityScores.getD u 0⟩ :=
      ⟨huu, by simp⟩
    have hnlt := (hlive _ hmem hl).1
    unfold Activity.ltA at hnlt
    push_neg at hnlt
    simp only at hnlt
    exact hnlt.1
  · intro hn u hu huu
    rw [hppl] at hn
    have hmem := h2 u hu huu
    have hl : VSIDS.live vs.activityScores asgn ⟨u, vs.activityScores.getD u 0⟩ :=
      ⟨huu, by simp⟩
    exact hnone hn _ hmem hl

/-- Witness for VSIDS admissibility at the initial state over scores
`[2, 1]`: the pop returns variable 0, which is unassigned and has the
maximal activity. -/
theorem vsids_pop_most_active_admissible_witness :
    ((VSIDS.withScores [2, 1]).popMostActiveUnassignedVar
        (List.replicate 2 OptBool.uns)).1 = some 0 ∧
    (List.replicate 2 OptBool.uns).getD 0 OptBool.uns = OptBool.uns ∧
    (∀ u, u < (VSIDS.withScores [2, 1]).activityScores.length →
      (List.replicate 2 OptBool.uns).getD u OptBool.uns = OptBool.uns →
      (VSIDS.withScores [2, 1]).activityScores.getD u 0 ≤
        (VSIDS.withScores [2, 1]).activityScores.getD 0 0) := by
  have h1 : VSIDSHeap.heapPop (VSIDS.withScores [2, 1]).heap
      = some (⟨0, 2⟩, [⟨1, 1⟩]) := by decide
  have h2 : VSIDS.popLoop (VSIDS.withScores [2, 1]).activityScores
      (List.replicate 2 OptBool.uns) (VSIDS.withScores [2, 1]).heap
      = (some 0, [⟨1, 1⟩]) := by
    rw [VSIDS.popLoop_eq_some _ _ _ _ _ h1]
    rw [if_neg (by decide), if_neg (by decide)]
  have hpop : ((VSIDS.withScores [2, 1]).popMostActiveUnassignedVar
      (List.replicate 2 OptBool.uns)).1 = some 0 := by
    show (VSIDS.popLoop (VSIDS.withScores [2, 1]).activityScores
      (List.replicate 2 OptBool.uns) (VSIDS.withScores [2, 1]).heap).1 = some 0
    rw [h2]
  have hr : VSIDSReach [2, 1]
      (VSIDS.withScores [2, 1], List.replicate 2 OptBool.uns) := by
    have := @VSIDSReach.init [2, 1]
    simpa using this
  obtain ⟨hv, hmax⟩ :=
    (vsids_pop_most_active_admissible [2, 1] _ _ hr).1 0 hpop
  exact ⟨hpop, hv, hmax⟩

/-! ## Cube generation (`src/pkgs/parallel/src/pool/cube_and_conquer.rs`)

`CubeGenerator::generate` drives a `dpll_core::DPLLSolver`.  The `dpll_core`
crate's `dpll.rs`/`problem.rs`/`vsids.rs` sources are not under `src/` (only
`partial_assignment.rs`, `decision_path.rs`, `opt_bool.rs` are), so the
solver pieces used by the generator are modelled from the spec (§4.3, §4.4)
on top of the embedded `CorePA` and `VSIDS`:

* `propagate_units_from` — *Modelled from the spec:* pop a falsified
  literal, scan its clauses: Satisfied/Undecided skip, Unsatisfied bumps the
  conflict clause's variables, decays, and returns UNSAT, `Unit(m)`
  propagates `m` and pushes `m.inverted()`; after the stack empties, SAT iff
  `assignment.is_complete()`, else Undecided.
* `propagate_units_root` — *Modelled from the spec:* walk every clause once
  treating each `Unit(m)` found as a root-level unit; a clause found
  Unsatisfied during the walk is a root-level conflict (UNSAT), matching
  §4.3's handling of clause states; then run the normal stack loop.
* `vsids` selection and `backtrack_one_level` (which reports every
  unassigned variable to `VSIDS::on_unassign_var`) follow §4.3/§4.4.

The coroutine is embedded as a fuelled state machine (the spec's §9 blesses
this rewrite); `none` = fuel ran out. -/

namespace CorePA

/-- `PartialAssignment::last_decision_lit` (`pkgs/core`). -/
def lastDecisionLit (pa : CorePA) : Option Lit :=
  match pa.decisionMarks with
  | [] => none
  | m :: _ =>
    let v := pa.history.getD (pa.history.length - 1 - m) 0
    some (Lit.new v (pa.currentState.getD v OptBool.uns).unwrap)

/-- `PartialAssignment::extract_decisions_upto` (`pkgs/core`): the first
`level` decision literals, bottom-up. -/
def extractDecisionsUpto (pa : CorePA) (level : Nat) : List Lit :=
  (pa.decisionMarks.reverse.take level).map (fun m =>
    let v := pa.history.getD (pa.history.length - 1 - m) 0
    Lit.new v (pa.currentState.getD v OptBool.uns).unwrap)

/-- `PartialAssignment::extract_decisions` (`pkgs/core`). -/
def extractDecisions (pa : CorePA) : List Lit :=
  pa.extractDecisionsUpto pa.decisionLevel

/-- `PartialAssignment::to_solution` (`pkgs/core`). -/
def toSolution (pa : CorePA) : List Bool :=
  pa.currentState.map (fun v => v.unwrapOr false)

end CorePA

/-- `UnitPropagationResult` of `dpll_core` (modelled from the spec). -/
inductive UnitPropagationResult where
  | SAT
  | UNSAT
  | Undecided
deriving DecidableEq, Repr

/-- The `dpll_core::DPLLSolver` state the cube generator manipulates:
its partial assignment and its VSIDS instance. -/
structure CoreSolver where
  assignment : CorePA
  vsids : VSIDS
deriving Repr

/-- `CubeGenerationResult` (`cube_and_conquer.rs`). -/
inductive CubeGenerationResult where
  | SAT (solution : List Bool)
  | UNSAT
  | Cube (dp : List Lit)
deriving DecidableEq, Repr

namespace CubeGen

/-- Modelled from the spec: the clause scan of one popped falsified literal
in `dpll_core`'s unit propagation.  Returns `(conflict?, solver, stack)`;
on a conflict the clause's variables are bumped and the increment decayed. -/
def propagateClausesCore (s : CoreSolver) (stack : List Lit) :
    List Clause → Bool × CoreSolver × List Lit
  | [] => (false, s, stack)
  | c :: cs =>
    match c.evalWith s.assignment.currentState with
    | .Satisfied => propagateClausesCore s stack cs
    | .Undecided _ => propagateClausesCore s stack cs
    | .Unsatisfied =>
      (true,
       { s with vsids := (s.vsids.bumpVarActivities (c.map Lit.var)).decay },
       stack)
    | .Unit m =>
      propagateClausesCore
        { s with assignment := s.assignment.propagate m.var m.isPos }
        (m.inverted :: stack) cs

/-- Modelled from the spec: the falsified-literals stack loop; fuelled. -/
def propagateLoopCore (p : Problem) : Nat → CoreSolver → List Lit →
    Option (UnitPropagationResult × CoreSolver)
  | 0, _, _ => none
  | fuel + 1, s, stack =>
    match stack with
    | [] => some (if s.assignment.isComplete then .SAT else .Undecided, s)
    | lit :: rest =>
      match propagateClausesCore s rest (p.clausesContainingLit lit) with
      | (true, s', _) => some (.UNSAT, s')
      | (false, s', stack') => propagateLoopCore p fuel s' stack'

/-- Modelled from the spec: `DPLLSolver::propagate_units_from`. -/
def propagateUnitsFrom (p : Problem) (s : CoreSolver) (falsifiedLit : Lit) :
    Option (UnitPropagationResult × CoreSolver) :=
  propagateLoopCore p (2 * p.numVars + 2) s [falsifiedLit]

/-- Modelled from the spec: the root walk of `propagate_units_root`, seeding
the stack from every `Unit` clause; `none` = a clause already Unsatisfied
(root conflict). -/
def rootScan (s : CoreSolver) (stack : List Lit) :
    List Clause → Option (CoreSolver × List Lit)
  | [] => some (s, stack)
  | c :: cs =>
    match c.evalWith s.assignment.currentState with
    | .Unit m =>
      rootScan { s with assignment := s.assignment.propagate m.var m.isPos }
        (m.inverted :: stack) cs
    | .Unsatisfied => none
    | _ => rootScan s stack cs

/-- Modelled from the spec: `DPLLSolver::propagate_units_root`. -/
def propagateUnitsRoot (p : Problem) (s : CoreSolver) :
    Option (UnitPropagationResult × CoreSolver) :=
  match rootScan s [] p.clauses with
  | none => some (.UNSAT, s)
  | some (s', stack) => propagateLoopCore p (2 * p.numVars + 2) s' stack

/-- `DPLLSolver::backtrack_one_level`: `backtrack_once` with every
unassigned variable reported to `VSIDS::on_unassign_var`. -/
def backtrackOneLevel (s : CoreSolver) : BacktrackResult × CoreSolver :=
  let r := s.assignment.backtrackOnce
  (r.1, ⟨r.2.1, r.2.2.foldl VSIDS.onUnassignVar s.vsids⟩)

/-- The two loops of `CubeGenerator::generate`: `gen` is the top of the
outer `loop`, `bt` the labelled inner backtracking `loop`. -/
inductive Phase where
  | gen
  | bt
deriving DecidableEq, Repr

/-- The body of `CubeGenerator::generate` after the root propagation and
the first decision, accumulating the emitted `CubeGenerationResult`s.
Fuelled state machine over `Phase` (one step per loop iteration). -/
def runLoop (p : Problem) (maxDepth : Nat) : Nat → Phase → CoreSolver →
    Bool → List CubeGenerationResult → Option (List CubeGenerationResult)
  | 0, _, _, _, _ => none
  | fuel + 1, .gen, s, generatedAny, acc =>
    match s.assignment.lastDecisionLit with
    | none => none -- unreachable: the loop always holds at least one decision
    | some dl =>
      match propagateUnitsFrom p s dl.inverted with
      | none => none
      | some (.SAT, s') => some (acc ++ [.SAT s'.assignment.toSolution])
      | some (.UNSAT, s') => runLoop p maxDepth fuel .bt s' generatedAny acc
      | some (.Undecided, s') =>
        if maxDepth ≤ s'.assignment.decisionLevel then
          runLoop p maxDepth fuel .bt s' true
            (acc ++ [.Cube s'.assignment.extractDecisions])
        else
          match s'.vsids.popMostActiveUnassignedVar
              s'.assignment.currentState with
          | (some v, vs') =>
            runLoop p maxDepth fuel .gen ⟨s'.assignment.decide v, vs'⟩
              generatedAny acc
          | (none, vs') =>
            runLoop p maxDepth fuel .bt ⟨s'.assignment, vs'⟩ generatedAny acc
  | fuel + 1, .bt, s, generatedAny, acc =>
    match backtrackOneLevel s with
    | (.ContinueBacktracking, s') =>
      runLoop p maxDepth fuel .bt s' generatedAny acc
    | (.TryAlternative _, s') =>
      runLoop p maxDepth fuel .gen s' generatedAny acc
    | (.NoMoreDecisions, _) =>
      some (if generatedAny then acc else acc ++ [.UNSAT])

/-- `CubeGenerator::generate` as a fuelled run producing the full emitted
sequence (`none` = fuel ran out). -/
def generate (p : Problem) (maxDepth : Nat) (fuel : Nat) :
    Option (List CubeGenerationResult) :=
  let s0 : CoreSolver :=
    ⟨CorePA.withDecisions p.numVars [], VSIDS.withScores p.jeroslowWangScores⟩
  match propagateUnitsRoot p s0 with
  | none => none
  | some (.SAT, s') => some [.SAT s'.assignment.toSolution]
  | some (.UNSAT, _) => some [.UNSAT]
  | some (.Undecided, s') =>
    match s'.vsids.popMostActiveUnassignedVar s'.assignment.currentState with
    | (some v, vs') =>
      runLoop p maxDepth fuel .gen ⟨s'.assignment.decide v, vs'⟩ false []
    | (none, _) =>
      -- all variables assigned by root propagation: trivial problem
      some [.SAT s'.assignment.toSolution]

end CubeGen

/-! ### Semantic layer for cube generation: views of the solver trail

A `GView` is the logical content of a `CorePA` trail: the root-level unit
propagations followed by the decision levels, each with its decision
variable/value and its propagations, in chronological order.  `VMatch`
relates a view to a concrete solver state; the generator proofs below work
at the view level and transport along `VMatch`. -/

/-- Assoc lookup on variable/value pairs (first match wins). -/
def alookup : List (Nat × Bool) → Nat → Option Bool
  | [], _ => none
  | (x, b) :: rest, w => if x = w then some b else alookup rest w

/-- One decision level of a view. -/
structure GLevel where
  decVar : Nat
  decVal : Bool
  props : List (Nat × Bool)
deriving DecidableEq, Repr

/-- Root propagations plus decision levels, chronological. -/
abbrev GView := List (Nat × Bool) × List GLevel

/-- The assignments contributed by one level, decision first. -/
def GLevel.asgns (L : GLevel) : List (Nat × Bool) := (L.decVar, L.decVal) :: L.props

/-- All assignments of a view, chronological. -/
def viewAsgns (V : GView) : List (Nat × Bool) := V.1 ++ V.2.flatMap GLevel.asgns

/-- All assigned variables of a view, chronological. -/
def viewVars (V : GView) : List Nat := (viewAsgns V).map Prod.fst

/-- The chronological trail position of each decision. -/
def marksFrom (pos : Nat) : List GLevel → List Nat
  | [] => []
  | L :: Ls => pos :: marksFrom (pos + 1 + L.props.length) Ls

/-- The decision marks of a view, chronological. -/
def viewMarks (V : GView) : List Nat := marksFrom V.1.length V.2

/-- The value of an assignment cell as an `Option Bool`. -/
def stVal (st : List OptBool) (w : Nat) : Option Bool :=
  match st.getD w OptBool.uns with
  | OptBool.uns => none
  | OptBool.tru => some true
  | OptBool.fls => some false

/-- Matching between a view and a concrete `CorePA` state. -/
structure VMatch (numVars : Nat) (V : GView) (a : CorePA) : Prop where
  initLevel : a.initialDecisionLevel = 0
  hist : a.history = (viewVars V).reverse
  marks : a.decisionMarks = (viewMarks V).reverse
  state : ∀ w, stVal a.currentState w = alookup (viewAsgns V) w
  lenS : a.currentState.length = numVars
  nassign : a.numAssigned = (viewVars V).length
  nodup : (viewVars V).Nodup
  bounded : ∀ w ∈ viewVars V, w < numVars

lemma alookup_append (xs ys : List (Nat × Bool)) (w : Nat) :
    alookup (xs ++ ys) w =
      match alookup xs w with
      | some b => some b
      | none => alookup ys w := by
  induction xs with
  | nil => rfl
  | cons pr rest ih =>
    obtain ⟨x, b⟩ := pr
    show (if x = w then some b else alookup (rest ++ ys) w) = _
    by_cases hx : x = w
    · simp [alookup, hx]
    · simp only [alookup, if_neg hx]
      exact ih

lemma alookup_eq_none_iff (l : List (Nat × Bool)) (w : Nat) :
    alookup l w = none ↔ w ∉ l.map Prod.fst := by
  induction l with
  | nil => simp [alookup]
  | cons pr rest ih =>
    obtain ⟨x, b⟩ := pr
    show (if x = w then some b else alookup rest w) = none ↔ _
    by_cases hx : x = w
    · simp [hx]
    · simp only [if_neg hx, List.map_cons, List.mem_cons]
      rw [ih]
      constructor
      · intro h hc
        rcases hc with hc | hc
        · exact hx hc.symm
        · exact h hc
      · intro h hc
        exact h (Or.inr hc)

lemma alookup_mem (l : List (Nat × Bool)) (w : Nat) (b : Bool)
    (h : alookup l w = some b) : (w, b) ∈ l := by
  induction l with
  | nil => cases h
  | cons pr rest ih =>
    obtain ⟨x, c⟩ := pr
    by_cases hx : x = w
    · subst hx
      rw [alookup, if_pos rfl] at h
      cases h
      exact List.mem_cons_self _ _
    · simp only [alookup, if_neg hx] at h
      exact List.mem_cons_of_mem _ (ih h)

/-- Record a unit propagation in a view: append to the last level's
propagations, or to the root propagations if there is no decision yet. -/
def pushProp (m : Nat × Bool) : List GLevel → List GLevel
  | [] => []
  | [L] => [⟨L.decVar, L.decVal, L.props ++ [m]⟩]
  | L :: L' :: Ls => L :: pushProp m (L' :: Ls)

/-- `pushProp` lifted to views (empty-levels case: root propagation). -/
def pushPropV (V : GView) (m : Nat × Bool) : GView :=
  match V with
  | (rp, []) => (rp ++ [m], [])
  | (rp, L :: Ls) => (rp, pushProp m (L :: Ls))

lemma pushProp_last (m : Nat × Bool) (Ls : List GLevel) (L : GLevel) :
    pushProp m (Ls ++ [L]) = Ls ++ [⟨L.decVar, L.decVal, L.props ++ [m]⟩] := by
  induction Ls with
  | nil => rfl
  | cons A Ls ih =>
    cases Ls with
    | nil => simp only [List.nil_append, List.cons_append]; rfl
    | cons B Ls =>
      show A :: pushProp m ((B :: Ls) ++ [L]) = _
      rw [ih]
      rfl

/-- Views reachable from `V` by recording unit propagations. -/
inductive PropExt : GView → GView → Prop
  | refl (V : GView) : PropExt V V
  | push {V V' : GView} (m : Nat × Bool) :
      PropExt V V' → PropExt V (pushPropV V' m)

lemma propExt_root (rp : List (Nat × Bool)) (V' : GView)
    (h : PropExt (rp, []) V') : ∃ rext, V' = (rp ++ rext, []) := by
  induction h with
  | refl => exact ⟨[], by simp⟩
  | push m h ih =>
    obtain ⟨rext, rfl⟩ := ih
    exact ⟨rext ++ [m], by simp [pushPropV]⟩

lemma propExt_last (rp : List (Nat × Bool)) (Ls : List GLevel) (v : Nat)
    (val : Bool) (ps : List (Nat × Bool)) (V' : GView)
    (h : PropExt (rp, Ls ++ [⟨v, val, ps⟩]) V') :
    ∃ ps', V' = (rp, Ls ++ [⟨v, val, ps ++ ps'⟩]) := by
  induction h with
  | refl => exact ⟨[], by simp⟩
  | push m h ih =>
    obtain ⟨ps', rfl⟩ := ih
    refine ⟨ps' ++ [m], ?_⟩
    have hsh : Ls ++ [(⟨v, val, ps ++ ps'⟩ : GLevel)] ≠ [] := by simp
    match hLs : Ls ++ [(⟨v, val, ps ++ ps'⟩ : GLevel)], hsh with
    | A :: rest, _ =>
      show (rp, pushProp m (A :: rest)) = _
      rw [← hLs, pushProp_last]
      simp

/-! ### Semantic predicates -/

/-- Modelled from the spec: a total assignment satisfies the problem. -/
def PModels (σ : Nat → Bool) (p : Problem) : Prop :=
  ∀ c ∈ p.clauses, ∃ l ∈ c, σ l.var = l.isPos

/-- A total assignment agrees with the decisions of the given levels. -/
def AgreesD (σ : Nat → Bool) (Ls : List GLevel) : Prop :=
  ∀ L ∈ Ls, σ L.decVar = L.decVal

/-- A total assignment agrees with a cube of decision literals. -/
def AgreesL (σ : Nat → Bool) (cube : List Lit) : Prop :=
  ∀ l ∈ cube, σ l.var = l.isPos

/-- A total assignment extends a list of partial assignments. -/
def ExtendsA (σ : Nat → Bool) (asgns : List (Nat × Bool)) : Prop :=
  ∀ pr ∈ asgns, σ pr.1 = pr.2

/-- A literal is falsified under a partial valuation. -/
def LitFalseF (f : Nat → Option Bool) (l : Lit) : Prop :=
  f l.var = some (!l.isPos)

/-- Every literal of the clause is falsified. -/
def ClauseFalseF (f : Nat → Option Bool) (c : Clause) : Prop :=
  ∀ l ∈ c, LitFalseF f l

/-- The assignments visible up to (and including) decision level `j`. -/
def prefixAsgns (rp : List (Nat × Bool)) (Ls : List GLevel) (j : Nat) :
    List (Nat × Bool) :=
  rp ++ (Ls.take j).flatMap GLevel.asgns

/-- Graded forcing: a model agreeing with the first `j` decisions extends
every assignment made up to level `j`. -/
def ForcedTo (p : Problem) (rp : List (Nat × Bool)) (Ls : List GLevel) : Prop :=
  ∀ j σ, PModels σ p → AgreesD σ (Ls.take j) → ExtendsA σ (prefixAsgns rp Ls j)

/-- Graded cleanliness: the state just before each decision is conflict
free. -/
def CleanTo (p : Problem) (rp : List (Nat × Bool)) (Ls : List GLevel) : Prop :=
  ∀ j < Ls.length, ∀ c ∈ p.clauses,
    ¬ ClauseFalseF (alookup (prefixAsgns rp Ls j)) c

/-- The search still owes `σ` a visit: some prefix of the decisions agrees
with `σ` and the next decision is a true-branch whose false alternative
(which `σ` takes) is not yet explored. -/
def FutureB (σ : Nat → Bool) (Ls : List GLevel) : Prop :=
  ∃ j < Ls.length, AgreesD σ (Ls.take j) ∧
    (Ls.getD j ⟨0, true, []⟩).decVal = true ∧
    σ (Ls.getD j ⟨0, true, []⟩).decVar = false

/-- Total number of assignments contributed by a list of levels. -/
def levelsLen (Ls : List GLevel) : Nat := (Ls.flatMap GLevel.asgns).length

lemma flatMap_pushProp (m : Nat × Bool) (Ls : List GLevel) (h : Ls ≠ []) :
    (pushProp m Ls).flatMap GLevel.asgns = Ls.flatMap GLevel.asgns ++ [m] := by
  induction Ls with
  | nil => exact absurd rfl h
  | cons A tl ih =>
    cases tl with
    | nil => simp [pushProp, GLevel.asgns]
    | cons B tl2 =>
      show (A :: pushProp m (B :: tl2)).flatMap GLevel.asgns = _
      rw [List.flatMap_cons, ih (by simp), List.flatMap_cons]
      simp

lemma marksFrom_pushProp (m : Nat × Bool) (Ls : List GLevel) (h : Ls ≠ []) :
    ∀ pos, marksFrom pos (pushProp m Ls) = marksFrom pos Ls := by
  induction Ls with
  | nil => exact absurd rfl h
  | cons A tl ih =>
    intro pos
    cases tl with
    | nil => simp [pushProp, marksFrom]
    | cons B tl2 =>
      show marksFrom pos (A :: pushProp m (B :: tl2)) = _
      rw [marksFrom, marksFrom, ih (by simp)]

lemma viewAsgns_pushPropV (V : GView) (m : Nat × Bool) :
    viewAsgns (pushPropV V m) = viewAsgns V ++ [m] := by
  obtain ⟨rp, Ls⟩ := V
  cases Ls with
  | nil => simp [pushPropV, viewAsgns]
  | cons L tl =>
    show viewAsgns (rp, pushProp m (L :: tl)) = _
    simp only [viewAsgns, flatMap_pushProp m (L :: tl) (by simp)]
    simp

lemma viewMarks_pushPropV (V : GView) (m : Nat × Bool) :
    viewMarks (pushPropV V m) = viewMarks V := by
  obtain ⟨rp, Ls⟩ := V
  cases Ls with
  | nil => simp [pushPropV, viewMarks, marksFrom]
  | cons L tl =>
    show viewMarks (rp, pushProp m (L :: tl)) = _
    simp only [viewMarks, marksFrom_pushProp m (L :: tl) (by simp)]

lemma viewVars_pushPropV (V : GView) (m : Nat × Bool) :
    viewVars (pushPropV V m) = viewVars V ++ [m.1] := by
  simp [viewVars, viewAsgns_pushPropV]

lemma marksFrom_append (Ls : List GLevel) (L : GLevel) :
    ∀ pos, marksFrom pos (Ls ++ [L]) = marksFrom pos Ls ++ [pos + levelsLen Ls] := by
  induction Ls with
  | nil => intro pos; simp [marksFrom, levelsLen]
  | cons A tl ih =>
    intro pos
    show marksFrom pos (A :: (tl ++ [L])) = _
    rw [marksFrom, ih, marksFrom]
    have : pos + 1 + A.props.length + levelsLen tl = pos + levelsLen (A :: tl) := by
      simp only [levelsLen, List.flatMap_cons, List.length_append, GLevel.asgns,
        List.length_cons]
      omega
    rw [List.cons_append, this]

lemma viewAsgns_last (rp : List (Nat × Bool)) (Ls : List GLevel) (L : GLevel) :
    viewAsgns (rp, Ls ++ [L]) = viewAsgns (rp, Ls) ++ L.asgns := by
  simp [viewAsgns]

lemma viewVars_length (V : GView) : (viewVars V).length = (viewAsgns V).length := by
  simp [viewVars]

lemma viewMarks_last (rp : List (Nat × Bool)) (Ls : List GLevel) (L : GLevel) :
    viewMarks (rp, Ls ++ [L]) =
      viewMarks (rp, Ls) ++ [(viewAsgns (rp, Ls)).length] := by
  simp only [viewMarks, marksFrom_append]
  simp [viewAsgns, levelsLen]

lemma stVal_set_lookup (st : List OptBool) (asgns : List (Nat × Bool))
    (w : Nat) (b : Bool) (hst : ∀ u, stVal st u = alookup asgns u)
    (hw : alookup asgns w = none) (hlt : w < st.length) :
    ∀ u, stVal (st.set w (OptBool.fromBool b)) u = alookup (asgns ++ [(w, b)]) u := by
  intro u
  rw [alookup_append]
  by_cases huw : u = w
  · subst huw
    rw [hw]
    show stVal (st.set u (OptBool.fromBool b)) u = if u = u then some b else none
    rw [if_pos rfl]
    show (match (st.set u (OptBool.fromBool b)).getD u OptBool.uns with
      | OptBool.uns => none | OptBool.tru => some true | OptBool.fls => some false) = some b
    rw [VSIDS.getD_set_self_opt st u _ hlt]
    cases b <;> rfl
  · have hchg : stVal (st.set w (OptBool.fromBool b)) u = stVal st u := by
      show (match (st.set w (OptBool.fromBool b)).getD u OptBool.uns with
        | OptBool.uns => none | OptBool.tru => some true | OptBool.fls => some false) = _
      rw [VSIDS.getD_set_ne_opt st w u _ (fun hx => huw hx.symm)]
      rfl
    rw [hchg, hst u]
    match halk : alookup asgns u with
    | some c => rfl
    | none =>
      show none = alookup [(w, b)] u
      show none = if w = u then some b else alookup [] u
      rw [if_neg (fun hx => huw hx.symm)]
      rfl

lemma vm_propagate (nV : Nat) (V : GView) (a : CorePA) (w : Nat) (b : Bool)
    (hvm : VMatch nV V a) (hw : alookup (viewAsgns V) w = none) (hb : w < nV) :
    VMatch nV (pushPropV V (w, b)) (a.propagate w b) := by
  obtain ⟨h0, hh, hm, hs, hl, hn, hnd, hbd⟩ := hvm
  have hwnot : w ∉ viewVars V := by
    rw [viewVars]; exact (alookup_eq_none_iff _ _).mp hw
  refine ⟨h0, ?_, ?_, ?_, ?_, ?_, ?_, ?_⟩
  · show w :: a.history = (viewVars (pushPropV V (w, b))).reverse
    rw [viewVars_pushPropV, hh]
    simp
  · show a.decisionMarks = (viewMarks (pushPropV V (w, b))).reverse
    rw [viewMarks_pushPropV]
    exact hm
  · show ∀ u, stVal (a.currentState.set w (OptBool.fromBool b)) u = _
    rw [viewAsgns_pushPropV]
    exact stVal_set_lookup _ _ w b hs hw (by rw [hl]; exact hb)
  · show (a.currentState.set w (OptBool.fromBool b)).length = nV
    rw [List.length_set]
    exact hl
  · show a.numAssigned + 1 = (viewVars (pushPropV V (w, b))).length
    rw [viewVars_pushPropV, List.length_append, hn]
    rfl
  · rw [viewVars_pushPropV]
    rw [List.nodup_append]
    exact ⟨hnd, List.nodup_singleton w,
      fun x hx hy => by
        rw [List.mem_singleton] at hy
        subst hy
        exact hwnot hx⟩
  · intro u hu
    rw [viewVars_pushPropV] at hu
    rcases List.mem_append.mp hu with h | h
    · exact hbd u h
    · rw [List.mem_singleton] at h
      subst h
      exact hb

lemma vm_decide (nV : Nat) (rp : List (Nat × Bool)) (Ls : List GLevel)
    (a : CorePA) (v : Nat)
    (hvm : VMatch nV (rp, Ls) a) (hv : alookup (viewAsgns (rp, Ls)) v = none)
    (hb : v < nV) :
    VMatch nV (rp, Ls ++ [⟨v, true, []⟩]) (a.decide v) := by
  obtain ⟨h0, hh, hm, hs, hl, hn, hnd, hbd⟩ := hvm
  have hvnot : v ∉ viewVars (rp, Ls) := by
    rw [viewVars]; exact (alookup_eq_none_iff _ _).mp hv
  have hAs : viewAsgns (rp, Ls ++ [⟨v, true, []⟩])
      = viewAsgns (rp, Ls) ++ [(v, true)] := by
    rw [viewAsgns_last]
    rfl
  have hVs : viewVars (rp, Ls ++ [⟨v, true, []⟩]) = viewVars (rp, Ls) ++ [v] := by
    rw [viewVars, hAs, List.map_append]
    rfl
  refine ⟨h0, ?_, ?_, ?_, ?_, ?_, ?_, ?_⟩
  · show v :: a.history = _
    rw [hVs, hh]
    simp
  · show a.history.length :: a.decisionMarks = _
    rw [viewMarks_last, hm, hh, List.reverse_append, List.length_reverse,
      viewVars_length]
    rfl
  · show ∀ u, stVal (a.currentState.set v OptBool.tru) u = _
    rw [hAs]
    exact stVal_set_lookup _ _ v true hs hv (by rw [hl]; exact hb)
  · show (a.currentState.set v OptBool.tru).length = nV
    rw [List.length_set]
    exact hl
  · show a.numAssigned + 1 = _
    rw [hVs, List.length_append, hn]
    rfl
  · rw [hVs, List.nodup_append]
    exact ⟨hnd, List.nodup_singleton v,
      fun x hx hy => by
        rw [List.mem_singleton] at hy
        subst hy
        exact hvnot hx⟩
  · intro u hu
    rw [hVs] at hu
    rcases List.mem_append.mp hu with h | h
    · exact hbd u h
    · rw [List.mem_singleton] at h
      subst h
      exact hb

lemma stVal_eq_some (st : List OptBool) (w : Nat) (b : Bool) :
    stVal st w = some b ↔ st.getD w OptBool.uns = OptBool.fromBool b := by
  show (match st.getD w OptBool.uns with
    | OptBool.uns => none | OptBool.tru => some true | OptBool.fls => some false)
      = some b ↔ _
  cases hg : st.getD w OptBool.uns <;> cases b <;> simp [OptBool.fromBool]

lemma stVal_eq_none (st : List OptBool) (w : Nat) :
    stVal st w = none ↔ st.getD w OptBool.uns = OptBool.uns := by
  show (match st.getD w OptBool.uns with
    | OptBool.uns => none | OptBool.tru => some true | OptBool.fls => some false)
      = none ↔ _
  cases hg : st.getD w OptBool.uns <;> simp

lemma OptBool.unwrap_fromBool (b : Bool) : (OptBool.fromBool b).unwrap = b := by
  cases b <;> rfl

lemma getD_reverse_nat (l : List Nat) (m : Nat) (h : m < l.length) :
    l.reverse.getD (l.length - 1 - m) 0 = l.getD m 0 := by
  have h1 : l.length - 1 - m < l.length := by omega
  simp only [List.getD, List.get?_eq_getElem?]
  rw [List.getElem?_reverse h1]
  have h2 : l.length - 1 - (l.length - 1 - m) = m := by omega
  rw [h2]

lemma getD_append_right_nat (l1 l2 : List Nat) (d : Nat) :
    (l1 ++ l2).getD l1.length d = l2.getD 0 d := by
  induction l1 with
  | nil => rfl
  | cons a rest ih =>
    show (a :: (rest ++ l2)).getD (rest.length + 1) d = _
    rw [List.getD_cons_succ]
    exact ih

lemma alookup_of_mem_nodup (l : List (Nat × Bool)) (w : Nat) (b : Bool)
    (hmem : (w, b) ∈ l) (hnd : (l.map Prod.fst).Nodup) : alookup l w = some b := by
  induction l with
  | nil => cases hmem
  | cons pr rest ih =>
    obtain ⟨x, c⟩ := pr
    simp only [List.map_cons, List.nodup_cons] at hnd
    by_cases hx : x = w
    · subst hx
      rw [alookup, if_pos rfl]
      rcases List.mem_cons.mp hmem with h | h
      · cases h
        rfl
      · exfalso
        exact hnd.1 (List.mem_map.mpr ⟨(x, b), h, rfl⟩)
    · rw [alookup, if_neg hx]
      rcases List.mem_cons.mp hmem with h | h
      · cases h
        exact absurd rfl hx
      · exact ih h hnd.2

lemma marksFrom_length (Ls : List GLevel) : ∀ pos, (marksFrom pos Ls).length = Ls.length := by
  induction Ls with
  | nil => intro pos; rfl
  | cons L tl ih =>
    intro pos
    show (pos :: marksFrom (pos + 1 + L.props.length) tl).length = _
    simp [ih]

lemma viewAsgns_shift (pre : List (Nat × Bool)) (L : GLevel) (Ls : List GLevel) :
    viewAsgns (pre, L :: Ls) = viewAsgns (pre ++ L.asgns, Ls) := by
  simp [viewAsgns]

lemma viewMarks_shift (pre : List (Nat × Bool)) (L : GLevel) (Ls : List GLevel) :
    viewMarks (pre, L :: Ls) = pre.length :: viewMarks (pre ++ L.asgns, Ls) := by
  show marksFrom pre.length (L :: Ls) = _
  rw [marksFrom]
  congr 1
  show marksFrom (pre.length + 1 + L.props.length) Ls = marksFrom (pre ++ L.asgns).length Ls
  congr 1
  simp [GLevel.asgns]
  omega

lemma vm_lastDecisionLit (nV : Nat) (rp : List (Nat × Bool)) (Ls : List GLevel)
    (v : Nat) (val : Bool) (ps : List (Nat × Bool)) (a : CorePA)
    (hvm : VMatch nV (rp, Ls ++ [⟨v, val, ps⟩]) a) :
    a.lastDecisionLit = some (Lit.new v val) := by
  obtain ⟨h0, hh, hm, hs, hl, hn, hnd, hbd⟩ := hvm
  have hAs : viewAsgns (rp, Ls ++ [⟨v, val, ps⟩])
      = viewAsgns (rp, Ls) ++ ((v, val) :: ps) := by
    rw [viewAsgns_last]
    rfl
  have hVs : viewVars (rp, Ls ++ [⟨v, val, ps⟩])
      = viewVars (rp, Ls) ++ (v :: ps.map Prod.fst) := by
    rw [viewVars, hAs, List.map_append]
    rfl
  have hmarks : a.decisionMarks
      = (viewAsgns (rp, Ls)).length :: (viewMarks (rp, Ls)).reverse := by
    rw [hm, viewMarks_last, List.reverse_append]
    rfl
  have hWlen : (viewVars (rp, Ls ++ [⟨v, val, ps⟩])).length
      = (viewAsgns (rp, Ls)).length + 1 + ps.length := by
    rw [hVs, List.length_append, viewVars_length]
    simp only [List.length_cons, List.length_map]
    omega
  have hhlen : a.history.length = (viewAsgns (rp, Ls)).length + 1 + ps.length := by
    rw [hh, List.length_reverse, hWlen]
  have hidx : a.history.getD
      (a.history.length - 1 - (viewAsgns (rp, Ls)).length) 0 = v := by
    rw [hhlen, hh]
    have hb1 : (viewAsgns (rp, Ls)).length
        < (viewVars (rp, Ls ++ [⟨v, val, ps⟩])).length := by
      rw [hWlen]; omega
    have heq : (viewAsgns (rp, Ls)).length + 1 + ps.length - 1
          - (viewAsgns (rp, Ls)).length
        = (viewVars (rp, Ls ++ [⟨v, val, ps⟩])).length - 1
          - (viewAsgns (rp, Ls)).length := by
      rw [hWlen]
    rw [heq, getD_reverse_nat _ _ hb1, hVs]
    rw [show (viewAsgns (rp, Ls)).length = (viewVars (rp, Ls)).length from
      (viewVars_length _).symm]
    rw [getD_append_right_nat]
    rfl
  have hval : a.currentState.getD v OptBool.uns = OptBool.fromBool val := by
    rw [← stVal_eq_some, hs v, hAs, alookup_append]
    have hvnot : v ∉ (viewAsgns (rp, Ls)).map Prod.fst := by
      intro hcon
      rw [viewVars, hAs, List.map_append] at hnd
      obtain ⟨h1, h2, hdisj⟩ := List.nodup_append.mp hnd
      exact hdisj hcon (by simp)
    rw [(alookup_eq_none_iff _ _).mpr hvnot]
    show alookup ((v, val) :: ps) v = some val
    rw [alookup, if_pos rfl]
  show CorePA.lastDecisionLit a = _
  rw [CorePA.lastDecisionLit, hmarks]
  simp only [hidx, hval]
  rw [OptBool.unwrap_fromBool]

lemma marks_map_extract (st : List OptBool) (W : List Nat) :
    ∀ (Ls : List GLevel) (pre : List (Nat × Bool)),
    W = viewVars (pre, Ls) →
    (viewMarks (pre, Ls)).map (fun m =>
        Lit.new (W.reverse.getD (W.reverse.length - 1 - m) 0)
          ((st.getD (W.reverse.getD (W.reverse.length - 1 - m) 0)
            OptBool.uns).unwrap))
      = Ls.map (fun L => Lit.new L.decVar
          ((st.getD L.decVar OptBool.uns).unwrap)) := by
  intro Ls
  induction Ls with
  | nil => intro pre hW; rfl
  | cons L tl ih =>
    intro pre hW
    have hWd : W = List.map Prod.fst pre
        ++ (L.decVar :: List.map Prod.fst (L.props ++ tl.flatMap GLevel.asgns)) := by
      rw [hW]
      simp [viewVars, viewAsgns, GLevel.asgns]
    have hplt : pre.length < W.length := by
      rw [hWd]
      simp only [List.length_append, List.length_map, List.length_cons]
      omega
    have hHead : W.reverse.getD (W.reverse.length - 1 - pre.length) 0 = L.decVar := by
      rw [List.length_reverse, getD_reverse_nat _ _ hplt, hWd]
      rw [show pre.length = (List.map Prod.fst pre).length by simp]
      rw [getD_append_right_nat]
      rfl
    rw [viewMarks_shift, List.map_cons, hHead,
      ih (pre ++ L.asgns) (by rw [hW, viewVars, viewVars, viewAsgns_shift])]
    rfl

lemma vm_extractDecisions (nV : Nat) (rp : List (Nat × Bool)) (Ls : List GLevel)
    (a : CorePA) (hvm : VMatch nV (rp, Ls) a) :
    a.extractDecisions = Ls.map (fun L => Lit.new L.decVar L.decVal) := by
  obtain ⟨h0, hh, hm, hs, hl, hn, hnd, hbd⟩ := hvm
  have hdl : a.decisionLevel = Ls.length := by
    rw [CorePA.decisionLevel, hm, List.length_reverse, viewMarks, marksFrom_length]
  show CorePA.extractDecisionsUpto a a.decisionLevel = _
  rw [CorePA.extractDecisionsUpto, hdl, hm, List.reverse_reverse,
    List.take_of_length_le (by rw [viewMarks, marksFrom_length])]
  simp only [hh]
  rw [marks_map_extract a.currentState (viewVars (rp, Ls)) Ls rp rfl]
  refine List.map_congr_left ?_
  intro L hL
  have hmem : (L.decVar, L.decVal) ∈ viewAsgns (rp, Ls) := by
    refine List.mem_append.mpr (Or.inr ?_)
    refine List.mem_flatMap.mpr ⟨L, hL, ?_⟩
    exact List.mem_cons_self _ _
  have hval : a.currentState.getD L.decVar OptBool.uns
      = OptBool.fromBool L.decVal := by
    rw [← stVal_eq_some, hs]
    exact alookup_of_mem_nodup _ _ _ hmem hnd
  rw [hval, OptBool.unwrap_fromBool]

lemma backtrackOnce_decomp_tru (st : List OptBool) (hist marks : List Nat)
    (n m : Nat) (restMarks pre keepRest : List Nat) (v : Nat)
    (hmarks : marks = m :: restMarks)
    (hhist : hist = pre ++ v :: keepRest)
    (hkeep : keepRest.length = m)
    (hvpre : v ∉ pre)
    (htru : st.getD v OptBool.uns = OptBool.tru) :
    CorePA.backtrackOnce ⟨st, hist, marks, n, 0⟩ =
      (.TryAlternative (Lit.new v true),
       ⟨(CorePA.unassignAll pre st).set v OptBool.fls, v :: keepRest,
        m :: restMarks, n - pre.length, 0⟩,
       pre) := by
  subst hmarks
  subst hhist
  have hundo : CorePA.undoPops m (pre ++ v :: keepRest) st n =
      (v :: keepRest, CorePA.unassignAll pre st, n - pre.length, pre) :=
    CorePA.undoPops_append m pre (v :: keepRest) st n (by simp [hkeep])
  have hstv : (CorePA.unassignAll pre st).getD v OptBool.uns
      = st.getD v OptBool.uns := by
    rw [CorePA.unassignAll_getD, if_neg hvpre]
  have hcond : ((CorePA.unassignAll pre st).getD v OptBool.uns).isTrue = true := by
    rw [hstv, htru]
    rfl
  have hguard : ¬ (restMarks.length + 1 ≤ 0) := by omega
  simp only [CorePA.backtrackOnce, hundo, if_neg hguard, List.headD_cons]
  rw [if_pos hcond]

lemma backtrackOnce_decomp_fls (st : List OptBool) (hist marks : List Nat)
    (n m : Nat) (restMarks pre keepRest : List Nat) (v : Nat)
    (hmarks : marks = m :: restMarks)
    (hhist : hist = pre ++ v :: keepRest)
    (hkeep : keepRest.length = m)
    (hvpre : v ∉ pre)
    (hfls : st.getD v OptBool.uns = OptBool.fls) :
    CorePA.backtrackOnce ⟨st, hist, marks, n, 0⟩ =
      (.ContinueBacktracking,
       ⟨(CorePA.unassignAll pre st).set v OptBool.uns, keepRest,
        restMarks, n - pre.length - 1, 0⟩,
       pre ++ [v]) := by
  subst hmarks
  subst hhist
  have hundo : CorePA.undoPops m (pre ++ v :: keepRest) st n =
      (v :: keepRest, CorePA.unassignAll pre st, n - pre.length, pre) :=
    CorePA.undoPops_append m pre (v :: keepRest) st n (by simp [hkeep])
  have hstv : (CorePA.unassignAll pre st).getD v OptBool.uns
      = st.getD v OptBool.uns := by
    rw [CorePA.unassignAll_getD, if_neg hvpre]
  have hcond : ((CorePA.unassignAll pre st).getD v OptBool.uns).isTrue = false := by
    rw [hstv, hfls]
    rfl
  have hguard : ¬ (restMarks.length + 1 ≤ 0) := by omega
  simp only [CorePA.backtrackOnce, hundo, if_neg hguard, List.headD_cons,
    List.tail_cons]
  rw [if_neg (by simp only [Bool.not_eq_true]; exact hcond)]

lemma alookup_append_single_ne (A : List (Nat × Bool)) (v w : Nat) (b : Bool)
    (h : w ≠ v) : alookup (A ++ [(v, b)]) w = alookup A w := by
  rw [alookup_append]
  match hA : alookup A w with
  | some c => rfl
  | none =>
    show alookup [(v, b)] w = none
    show (if v = w then some b else alookup [] w) = none
    rw [if_neg (fun hx => h hx.symm)]
    rfl

lemma vm_decomp (nV : Nat) (rp : List (Nat × Bool)) (Ls : List GLevel)
    (v : Nat) (val : Bool) (ps : List (Nat × Bool)) (a : CorePA)
    (hvm : VMatch nV (rp, Ls ++ [⟨v, val, ps⟩]) a) :
    a.decisionMarks = (viewAsgns (rp, Ls)).length :: (viewMarks (rp, Ls)).reverse
    ∧ a.history = (ps.map Prod.fst).reverse ++ v :: (viewVars (rp, Ls)).reverse
    ∧ a.currentState.getD v OptBool.uns = OptBool.fromBool val
    ∧ v ∉ viewVars (rp, Ls)
    ∧ (∀ w ∈ ps.map Prod.fst, w ∉ viewVars (rp, Ls) ∧ w ≠ v)
    ∧ v < a.currentState.length
    ∧ a.numAssigned = (viewVars (rp, Ls)).length + 1 + ps.length
    ∧ (viewVars (rp, Ls)).reverse.length = (viewAsgns (rp, Ls)).length := by
  obtain ⟨h0, hh, hm, hs, hl, hn, hnd, hbd⟩ := hvm
  have hAs : viewAsgns (rp, Ls ++ [⟨v, val, ps⟩])
      = viewAsgns (rp, Ls) ++ ((v, val) :: ps) := by
    rw [viewAsgns_last]
    rfl
  have hVs : viewVars (rp, Ls ++ [⟨v, val, ps⟩])
      = viewVars (rp, Ls) ++ (v :: ps.map Prod.fst) := by
    rw [viewVars, hAs, List.map_append]
    rfl
  rw [hVs] at hnd
  obtain ⟨hndW, hndT, hdisjWT⟩ := List.nodup_append.mp hnd
  obtain ⟨hvmp, hndmp⟩ := List.nodup_cons.mp hndT
  refine ⟨?_, ?_, ?_, ?_, ?_, ?_, ?_, ?_⟩
  · rw [hm, viewMarks_last, List.reverse_append]
    rfl
  · rw [hh, hVs]
    simp
  · rw [← stVal_eq_some, hs v, hAs, alookup_append]
    have hvnot : v ∉ (viewAsgns (rp, Ls)).map Prod.fst := by
      intro hcon
      exact hdisjWT hcon (List.mem_cons_self _ _)
    rw [(alookup_eq_none_iff _ _).mpr hvnot]
    show alookup ((v, val) :: ps) v = some val
    rw [alookup, if_pos rfl]
  · intro hcon
    exact hdisjWT hcon (List.mem_cons_self _ _)
  · intro w hw
    refine ⟨fun hcon => hdisjWT hcon (List.mem_cons_of_mem _ hw), ?_⟩
    intro hwv
    subst hwv
    exact hvmp hw
  · rw [hl]
    exact hbd v (by rw [hVs]; exact List.mem_append.mpr (Or.inr (List.mem_cons_self _ _)))
  · rw [hn, hVs, List.length_append, List.length_cons, List.length_map]
    omega
  · rw [List.length_reverse, viewVars_length]

lemma stVal_unassign_eq (st : List OptBool) (A : List (Nat × Bool)) (v : Nat)
    (val : Bool) (ps : List (Nat × Bool))
    (hst : ∀ w, stVal st w = alookup (A ++ (v, val) :: ps) w)
    (hdisj : ∀ w ∈ ps.map Prod.fst, w ∉ A.map Prod.fst ∧ w ≠ v) :
    ∀ w, w ≠ v →
      stVal (CorePA.unassignAll ((ps.map Prod.fst).reverse) st) w = alookup A w := by
  intro w hwv
  show (match (CorePA.unassignAll ((ps.map Prod.fst).reverse) st).getD w OptBool.uns with
    | OptBool.uns => none | OptBool.tru => some true | OptBool.fls => some false) = _
  rw [CorePA.unassignAll_getD]
  by_cases hw : w ∈ (ps.map Prod.fst).reverse
  · rw [if_pos hw]
    have hwA : w ∉ A.map Prod.fst := (hdisj w (List.mem_reverse.mp hw)).1
    exact ((alookup_eq_none_iff A w).mpr hwA).symm
  · rw [if_neg hw]
    have h2 : alookup (A ++ (v, val) :: ps) w = alookup A w := by
      rw [alookup_append]
      match hA : alookup A w with
      | some c => rfl
      | none =>
        show alookup ((v, val) :: ps) w = none
        show (if v = w then some val else alookup ps w) = none
        rw [if_neg (fun hx => hwv hx.symm)]
        exact (alookup_eq_none_iff ps w).mpr (fun hc => hw (List.mem_reverse.mpr hc))
    rw [← h2, ← hst w]
    rfl

lemma vm_backtrackOnce_nil (nV : Nat) (rp : List (Nat × Bool)) (a : CorePA)
    (hvm : VMatch nV (rp, []) a) :
    a.backtrackOnce = (.NoMoreDecisions, a, []) := by
  apply CorePA.backtrackOnce_of_le
  rw [hvm.marks]
  simp [viewMarks, marksFrom]

lemma vm_backtrackOnce_true (nV : Nat) (rp : List (Nat × Bool)) (Ls : List GLevel)
    (v : Nat) (ps : List (Nat × Bool)) (a : CorePA)
    (hvm : VMatch nV (rp, Ls ++ [⟨v, true, ps⟩]) a) :
    ∃ a', a.backtrackOnce
        = (.TryAlternative (Lit.new v true), a', (ps.map Prod.fst).reverse)
      ∧ VMatch nV (rp, Ls ++ [⟨v, false, []⟩]) a' := by
  obtain ⟨hmarks, hhist, hval, hvW, hdisj, hvlt, hnum, hrevlen⟩ :=
    vm_decomp nV rp Ls v true ps a hvm
  have h0 := hvm.initLevel
  have hs0 := hvm.state
  have hl0 := hvm.lenS
  have hnd0 := hvm.nodup
  have hbd0 := hvm.bounded
  have hAs : viewAsgns (rp, Ls ++ [⟨v, true, ps⟩])
      = viewAsgns (rp, Ls) ++ ((v, true) :: ps) := by
    rw [viewAsgns_last]
    rfl
  have hVsOld : viewVars (rp, Ls ++ [⟨v, true, ps⟩])
      = viewVars (rp, Ls) ++ (v :: ps.map Prod.fst) := by
    rw [viewVars, hAs, List.map_append]
    rfl
  have hAsNew : viewAsgns (rp, Ls ++ [⟨v, false, []⟩])
      = viewAsgns (rp, Ls) ++ [(v, false)] := by
    rw [viewAsgns_last]
    rfl
  have hVsNew : viewVars (rp, Ls ++ [⟨v, false, []⟩])
      = viewVars (rp, Ls) ++ [v] := by
    rw [viewVars, hAsNew, List.map_append]
    rfl
  have hvA : v ∉ (viewAsgns (rp, Ls)).map Prod.fst := hvW
  have hs1 : ∀ w, stVal a.currentState w
      = alookup (viewAsgns (rp, Ls) ++ (v, true) :: ps) w := by
    intro w
    rw [← hAs]
    exact hs0 w
  have hvpre : v ∉ (ps.map Prod.fst).reverse := by
    intro hc
    exact (hdisj v (List.mem_reverse.mp hc)).2 rfl
  obtain ⟨st, hist, marks, n, init⟩ := a
  simp only at hmarks hhist hval hvlt hnum h0 hs0 hl0 hs1
  subst h0
  have hbt := backtrackOnce_decomp_tru st hist marks n
    (viewAsgns (rp, Ls)).length ((viewMarks (rp, Ls)).reverse)
    ((ps.map Prod.fst).reverse) ((viewVars (rp, Ls)).reverse) v
    hmarks hhist hrevlen hvpre hval
  refine ⟨_, hbt, ?_⟩
  have hulen : (CorePA.unassignAll ((ps.map Prod.fst).reverse) st).length
      = st.length := CorePA.unassignAll_length _ _
  refine ⟨rfl, ?_, ?_, ?_, ?_, ?_, ?_, ?_⟩
  · show v :: (viewVars (rp, Ls)).reverse = _
    rw [hVsNew]
    simp
  · show (viewAsgns (rp, Ls)).length :: (viewMarks (rp, Ls)).reverse = _
    rw [viewMarks_last, List.reverse_append]
    rfl
  · show ∀ w, stVal ((CorePA.unassignAll ((ps.map Prod.fst).reverse) st).set v
        OptBool.fls) w = _
    intro w
    rw [hAsNew]
    by_cases hwv : w = v
    · subst hwv
      have hlt2 : w < (CorePA.unassignAll ((ps.map Prod.fst).reverse) st).length := by
        rw [hulen]; exact hvlt
      show (match ((CorePA.unassignAll ((ps.map Prod.fst).reverse) st).set w
          OptBool.fls).getD w OptBool.uns with
        | OptBool.uns => none | OptBool.tru => some true
        | OptBool.fls => some false) = _
      rw [VSIDS.getD_set_self_opt _ _ _ hlt2]
      rw [alookup_append, (alookup_eq_none_iff _ _).mpr hvA]
      show some false = alookup [(w, false)] w
      show some false = if w = w then some false else alookup [] w
      rw [if_pos rfl]
    · have h1 : stVal ((CorePA.unassignAll ((ps.map Prod.fst).reverse) st).set v
          OptBool.fls) w
          = stVal (CorePA.unassignAll ((ps.map Prod.fst).reverse) st) w := by
        show (match ((CorePA.unassignAll ((ps.map Prod.fst).reverse) st).set v
            OptBool.fls).getD w OptBool.uns with
          | OptBool.uns => none | OptBool.tru => some true
          | OptBool.fls => some false) = _
        rw [VSIDS.getD_set_ne_opt _ _ _ _ (fun hx => hwv hx.symm)]
        rfl
      rw [h1, stVal_unassign_eq st _ v true ps hs1 hdisj w hwv,
        alookup_append_single_ne _ _ _ _ hwv]
  · show ((CorePA.unassignAll ((ps.map Prod.fst).reverse) st).set v
        OptBool.fls).length = nV
    rw [List.length_set, hulen]
    exact hl0
  · show n - ((ps.map Prod.fst).reverse).length = _
    rw [hVsNew, List.length_append]
    simp only [List.length_reverse, List.length_map, List.length_cons,
      List.length_nil]
    omega
  · rw [hVsNew]
    rw [hVsOld] at hnd0
    refine List.Nodup.sublist ?_ hnd0
    exact List.Sublist.append_left ((List.nil_sublist _).cons₂ v) _
  · intro w hw
    refine hbd0 w ?_
    rw [hVsNew] at hw
    rw [hVsOld]
    rcases List.mem_append.mp hw with h | h
    · exact List.mem_append.mpr (Or.inl h)
    · rw [List.mem_singleton] at h
      subst h
      exact List.mem_append.mpr (Or.inr (List.mem_cons_self _ _))

lemma vm_backtrackOnce_false (nV : Nat) (rp : List (Nat × Bool)) (Ls : List GLevel)
    (v : Nat) (ps : List (Nat × Bool)) (a : CorePA)
    (hvm : VMatch nV (rp, Ls ++ [⟨v, false, ps⟩]) a) :
    ∃ a', a.backtrackOnce
        = (.ContinueBacktracking, a', (ps.map Prod.fst).reverse ++ [v])
      ∧ VMatch nV (rp, Ls) a' := by
  obtain ⟨hmarks, hhist, hval, hvW, hdisj, hvlt, hnum, hrevlen⟩ :=
    vm_decomp nV rp Ls v false ps a hvm
  have h0 := hvm.initLevel
  have hs0 := hvm.state
  have hl0 := hvm.lenS
  have hnd0 := hvm.nodup
  have hbd0 := hvm.bounded
  have hAs : viewAsgns (rp, Ls ++ [⟨v, false, ps⟩])
      = viewAsgns (rp, Ls) ++ ((v, false) :: ps) := by
    rw [viewAsgns_last]
    rfl
  have hVsOld : viewVars (rp, Ls ++ [⟨v, false, ps⟩])
      = viewVars (rp, Ls) ++ (v :: ps.map Prod.fst) := by
    rw [viewVars, hAs, List.map_append]
    rfl
  have hvA : v ∉ (viewAsgns (rp, Ls)).map Prod.fst := hvW
  have hs1 : ∀ w, stVal a.currentState w
      = alookup (viewAsgns (rp, Ls) ++ (v, false) :: ps) w := by
    intro w
    rw [← hAs]
    exact hs0 w
  have hvpre : v ∉ (ps.map Prod.fst).reverse := by
    intro hc
    exact (hdisj v (List.mem_reverse.mp hc)).2 rfl
  obtain ⟨st, hist, marks, n, init⟩ := a
  simp only at hmarks hhist hval hvlt hnum h0 hs0 hl0 hs1
  subst h0
  have hbt := backtrackOnce_decomp_fls st hist marks n
    (viewAsgns (rp, Ls)).length ((viewMarks (rp, Ls)).reverse)
    ((ps.map Prod.fst).reverse) ((viewVars (rp, Ls)).reverse) v
    hmarks hhist hrevlen hvpre hval
  refine ⟨_, hbt, ?_⟩
  have hulen : (CorePA.unassignAll ((ps.map Prod.fst).reverse) st).length
      = st.length := CorePA.unassignAll_length _ _
  refine ⟨rfl, rfl, rfl, ?_, ?_, ?_, ?_, ?_⟩
  · show ∀ w, stVal ((CorePA.unassignAll ((ps.map Prod.fst).reverse) st).set v
        OptBool.uns) w = _
    intro w
    by_cases hwv : w = v
    · subst hwv
      have hlt2 : w < (CorePA.unassignAll ((ps.map Prod.fst).reverse) st).length := by
        rw [hulen]; exact hvlt
      show (match ((CorePA.unassignAll ((ps.map Prod.fst).reverse) st).set w
          OptBool.uns).getD w OptBool.uns with
        | OptBool.uns => none | OptBool.tru => some true
        | OptBool.fls => some false) = _
      rw [VSIDS.getD_set_self_opt _ _ _ hlt2]
      exact ((alookup_eq_none_iff _ _).mpr hvA).symm
    · have h1 : stVal ((CorePA.unassignAll ((ps.map Prod.fst).reverse) st).set v
          OptBool.uns) w
          = stVal (CorePA.unassignAll ((ps.map Prod.fst).reverse) st) w := by
        show (match ((CorePA.unassignAll ((ps.map Prod.fst).reverse) st).set v
            OptBool.uns).getD w OptBool.uns with
          | OptBool.uns => none | OptBool.tru => some true
          | OptBool.fls => some false) = _
        rw [VSIDS.getD_set_ne_opt _ _ _ _ (fun hx => hwv hx.symm)]
        rfl
      rw [h1, stVal_unassign_eq st _ v false ps hs1 hdisj w hwv]
  · show ((CorePA.unassignAll ((ps.map Prod.fst).reverse) st).set v
        OptBool.uns).length = nV
    rw [List.length_set, hulen]
    exact hl0
  · show n - ((ps.map Prod.fst).reverse).length - 1 = _
    simp only [List.length_reverse, List.length_map]
    omega
  · rw [hVsOld] at hnd0
    exact (List.nodup_append.mp hnd0).1
  · intro w hw
    refine hbd0 w ?_
    rw [hVsOld]
    exact List.mem_append.mpr (Or.inl hw)

/-- A literal that is assigned and evaluates to false. -/
def LitFalseSt (st : List OptBool) (l : Lit) : Prop :=
  st.getD l.var OptBool.uns = OptBool.fromBool (!l.isPos)

lemma Lit.evalWith_eq_beq (l : Lit) (b : Bool) : l.evalWith b = (b == l.isPos) := by
  obtain ⟨c⟩ := l
  show (Lit.isNeg ⟨c⟩).xor b = (b == Lit.isPos ⟨c⟩)
  simp only [Lit.isNeg, Lit.isPos]
  rcases Nat.mod_two_eq_zero_or_one c with h | h <;> rw [h] <;> cases b <;> rfl

lemma evalWithLoop_ne_unsat (st : List OptBool) :
    ∀ (lits : List Lit) (cnt : Nat) (u : Option Lit), 1 ≤ cnt →
      Clause.evalWithLoop st lits cnt u ≠ .Unsatisfied := by
  intro lits
  induction lits with
  | nil =>
    intro cnt u hc
    simp only [Clause.evalWithLoop]
    rcases cnt with _ | _ | k
    · omega
    · cases u <;> intro h <;> cases h
    · intro h; cases h
  | cons l rest ih =>
    intro cnt u hc
    simp only [Clause.evalWithLoop]
    rcases hv : st.getD l.var OptBool.uns with _ | _ | _ <;> simp only [hv]
    · by_cases he : l.evalWith false = true
      · rw [if_pos he]; intro h; cases h
      · rw [if_neg (by simpa using he)]; exact ih cnt u hc
    · by_cases he : l.evalWith true = true
      · rw [if_pos he]; intro h; cases h
      · rw [if_neg (by simpa using he)]; exact ih cnt u hc
    · exact ih (cnt + 1) (some l) (by omega)

lemma evalWithLoop_unsat_extract (st : List OptBool) :
    ∀ (lits : List Lit) (cnt : Nat) (u : Option Lit),
      Clause.evalWithLoop st lits cnt u = .Unsatisfied →
      ∀ l ∈ lits, LitFalseSt st l := by
  intro lits
  induction lits with
  | nil => intro cnt u h l hl; cases hl
  | cons l rest ih =>
    intro cnt u h l' hl'
    simp only [Clause.evalWithLoop] at h
    rcases hv : st.getD l.var OptBool.uns with _ | _ | _ <;> simp only [hv] at h
    · by_cases he : l.evalWith false = true
      · rw [if_pos he] at h; cases h
      · rw [if_neg (by simpa using he)] at h
        rcases List.mem_cons.mp hl' with rfl | hmem
        · show st.getD l'.var OptBool.uns = OptBool.fromBool (!l'.isPos)
          rw [Lit.evalWith_eq_beq] at he
          have hp : l'.isPos = true := by
            cases hp : l'.isPos
            · rw [hp] at he; simp at he
            · rfl
          rw [hv, hp]
          rfl
        · exact ih cnt u h l' hmem
    · by_cases he : l.evalWith true = true
      · rw [if_pos he] at h; cases h
      · rw [if_neg (by simpa using he)] at h
        rcases List.mem_cons.mp hl' with rfl | hmem
        · show st.getD l'.var OptBool.uns = OptBool.fromBool (!l'.isPos)
          rw [Lit.evalWith_eq_beq] at he
          have hp : l'.isPos = false := by
            cases hp : l'.isPos
            · rfl
            · rw [hp] at he; simp at he
          rw [hv, hp]
          rfl
        · exact ih cnt u h l' hmem
    · exact absurd h (evalWithLoop_ne_unsat st rest (cnt + 1) (some l) (by omega))

lemma evalWithLoop_skip_false (st : List OptBool) :
    ∀ (lits : List Lit) (cnt : Nat) (u : Option Lit),
      (∀ l ∈ lits, LitFalseSt st l) →
      Clause.evalWithLoop st lits cnt u = Clause.evalWithLoop st [] cnt u := by
  intro lits
  induction lits with
  | nil => intro cnt u h; rfl
  | cons l rest ih =>
    intro cnt u h
    have hl := h l (List.mem_cons_self _ _)
    cases hp : l.isPos
    · have hl2 : st.getD l.var OptBool.uns = OptBool.tru := by
        rw [hl, hp]
        rfl
      have he : l.evalWith true = false := by
        rw [Lit.evalWith_eq_beq, hp]
        rfl
      show Clause.evalWithLoop st (l :: rest) cnt u = _
      simp only [Clause.evalWithLoop, hl2]
      rw [if_neg (by simp [he])]
      exact ih cnt u (fun x hx => h x (List.mem_cons_of_mem _ hx))
    · have hl2 : st.getD l.var OptBool.uns = OptBool.fls := by
        rw [hl, hp]
        rfl
      have he : l.evalWith false = false := by
        rw [Lit.evalWith_eq_beq, hp]
        rfl
      show Clause.evalWithLoop st (l :: rest) cnt u = _
      simp only [Clause.evalWithLoop, hl2]
      rw [if_neg (by simp [he])]
      exact ih cnt u (fun x hx => h x (List.mem_cons_of_mem _ hx))

lemma clause_evalWith_unsat_iff (st : List OptBool) (c : Clause) :
    Clause.evalWith c st = .Unsatisfied ↔ ∀ l ∈ c, LitFalseSt st l := by
  constructor
  · exact fun h => evalWithLoop_unsat_extract st c 0 none h
  · intro h
    show Clause.evalWithLoop st c 0 none = _
    rw [evalWithLoop_skip_false st c 0 none h]
    rfl

lemma Lit.new_var (v : Nat) (b : Bool) : (Lit.new v b).var = v := by
  cases b <;> simp [Lit.new, Lit.var] <;> omega

lemma Lit.new_isPos (v : Nat) (b : Bool) : (Lit.new v b).isPos = b := by
  cases b <;> simp [Lit.new, Lit.isPos] <;> omega

lemma Lit.inverted_var (l : Lit) : l.inverted.var = l.var := by
  obtain ⟨c⟩ := l
  show (⟨c ^^^ 1⟩ : Lit).var = (⟨c⟩ : Lit).var
  rcases Nat.even_or_odd c with ⟨k, hk⟩ | ⟨k, hk⟩
  · rw [show c = 2 * k by omega, Nat.xor_one_of_even]
    show (2 * k + 1) / 2 = 2 * k / 2
    omega
  · rw [show c = 2 * k + 1 by omega, Nat.xor_one_of_odd]
    show 2 * k / 2 = (2 * k + 1) / 2
    omega

lemma Lit.inverted_isPos (l : Lit) : l.inverted.isPos = !l.isPos := by
  obtain ⟨c⟩ := l
  show (⟨c ^^^ 1⟩ : Lit).isPos = !(⟨c⟩ : Lit).isPos
  rcases Nat.even_or_odd c with ⟨k, hk⟩ | ⟨k, hk⟩
  · rw [show c = 2 * k by omega, Nat.xor_one_of_even]
    show ((2 * k + 1) % 2 == 0) = !(2 * k % 2 == 0)
    have h1 : (2 * k + 1) % 2 = 1 := by omega
    have h2 : 2 * k % 2 = 0 := by omega
    rw [h1, h2]
    rfl
  · rw [show c = 2 * k + 1 by omega, Nat.xor_one_of_odd]
    show (2 * k % 2 == 0) = !((2 * k + 1) % 2 == 0)
    have h1 : (2 * k + 1) % 2 = 1 := by omega
    have h2 : 2 * k % 2 = 0 := by omega
    rw [h1, h2]
    rfl

lemma Lit.eq_of_var_isPos (l1 l2 : Lit) (hv : l1.var = l2.var)
    (hp : l1.isPos = l2.isPos) : l1 = l2 := by
  obtain ⟨c1⟩ := l1
  obtain ⟨c2⟩ := l2
  simp only [Lit.var] at hv
  simp only [Lit.isPos] at hp
  have hm : c1 % 2 = c2 % 2 := by
    rcases Nat.mod_two_eq_zero_or_one c1 with h1 | h1 <;>
      rcases Nat.mod_two_eq_zero_or_one c2 with h2 | h2 <;>
        rw [h1, h2] at hp ⊢ <;> first | rfl | (exfalso; simp at hp)
  have : c1 = c2 := by omega
  rw [this]

lemma evalWithLoop_ne_unit_two (st : List OptBool) :
    ∀ (lits : List Lit) (cnt : Nat) (u : Option Lit) (m : Lit), 2 ≤ cnt →
      Clause.evalWithLoop st lits cnt u ≠ .Unit m := by
  intro lits
  induction lits with
  | nil =>
    intro cnt u m hc
    simp only [Clause.evalWithLoop]
    rcases cnt with _ | _ | k
    · omega
    · omega
    · intro h; cases h
  | cons l rest ih =>
    intro cnt u m hc
    simp only [Clause.evalWithLoop]
    rcases hv : st.getD l.var OptBool.uns with _ | _ | _ <;> simp only [hv]
    · by_cases he : l.evalWith false = true
      · rw [if_pos he]; intro h; cases h
      · rw [if_neg (by simpa using he)]; exact ih cnt u m hc
    · by_cases he : l.evalWith true = true
      · rw [if_pos he]; intro h; cases h
      · rw [if_neg (by simpa using he)]; exact ih cnt u m hc
    · exact ih (cnt + 1) (some l) m (by omega)

lemma evalWithLoop_unit_one (st : List OptBool) (l0 : Lit) :
    ∀ (lits : List Lit) (m : Lit),
      Clause.evalWithLoop st lits 1 (some l0) = .Unit m →
      m = l0 ∧ ∀ l ∈ lits, LitFalseSt st l := by
  intro lits
  induction lits with
  | nil =>
    intro m h
    refine ⟨?_, fun l hl => absurd hl (List.not_mem_nil l)⟩
    cases h
    rfl
  | cons l rest ih =>
    intro m h
    simp only [Clause.evalWithLoop] at h
    rcases hv : st.getD l.var OptBool.uns with _ | _ | _ <;> simp only [hv] at h
    · by_cases he : l.evalWith false = true
      · rw [if_pos he] at h; cases h
      · rw [if_neg (by simpa using he)] at h
        obtain ⟨hm, hrest⟩ := ih m h
        refine ⟨hm, ?_⟩
        intro l' hl'
        rcases List.mem_cons.mp hl' with rfl | hmem
        · show st.getD l'.var OptBool.uns = OptBool.fromBool (!l'.isPos)
          rw [Lit.evalWith_eq_beq] at he
          have hp : l'.isPos = true := by
            cases hp : l'.isPos
            · rw [hp] at he; simp at he
            · rfl
          rw [hv, hp]
          rfl
        · exact hrest l' hmem
    · by_cases he : l.evalWith true = true
      · rw [if_pos he] at h; cases h
      · rw [if_neg (by simpa using he)] at h
        obtain ⟨hm, hrest⟩ := ih m h
        refine ⟨hm, ?_⟩
        intro l' hl'
        rcases List.mem_cons.mp hl' with rfl | hmem
        · show st.getD l'.var OptBool.uns = OptBool.fromBool (!l'.isPos)
          rw [Lit.evalWith_eq_beq] at he
          have hp : l'.isPos = false := by
            cases hp : l'.isPos
            · rfl
            · rw [hp] at he; simp at he
          rw [hv, hp]
          rfl
        · exact hrest l' hmem
    · exact absurd h (evalWithLoop_ne_unit_two st rest 2 (some l) m (le_refl 2))

lemma evalWithLoop_unit_zero (st : List OptBool) :
    ∀ (lits : List Lit) (m : Lit),
      Clause.evalWithLoop st lits 0 none = .Unit m →
      m ∈ lits ∧ st.getD m.var OptBool.uns = OptBool.uns ∧
        ∀ l ∈ lits, l ≠ m → LitFalseSt st l := by
  intro lits
  induction lits with
  | nil => intro m h; cases h
  | cons l rest ih =>
    intro m h
    simp only [Clause.evalWithLoop] at h
    rcases hv : st.getD l.var OptBool.uns with _ | _ | _ <;> simp only [hv] at h
    · by_cases he : l.evalWith false = true
      · rw [if_pos he] at h; cases h
      · rw [if_neg (by simpa using he)] at h
        obtain ⟨hmem, hmu, hothers⟩ := ih m h
        refine ⟨List.mem_cons_of_mem _ hmem, hmu, ?_⟩
        intro l' hl' hne
        rcases List.mem_cons.mp hl' with rfl | hmem'
        · show st.getD l'.var OptBool.uns = OptBool.fromBool (!l'.isPos)
          rw [Lit.evalWith_eq_beq] at he
          have hp : l'.isPos = true := by
            cases hp : l'.isPos
            · rw [hp] at he; simp at he
            · rfl
          rw [hv, hp]
          rfl
        · exact hothers l' hmem' hne
    · by_cases he : l.evalWith true = true
      · rw [if_pos he] at h; cases h
      · rw [if_neg (by simpa using he)] at h
        obtain ⟨hmem, hmu, hothers⟩ := ih m h
        refine ⟨List.mem_cons_of_mem _ hmem, hmu, ?_⟩
        intro l' hl' hne
        rcases List.mem_cons.mp hl' with rfl | hmem'
        · show st.getD l'.var OptBool.uns = OptBool.fromBool (!l'.isPos)
          rw [Lit.evalWith_eq_beq] at he
          have hp : l'.isPos = false := by
            cases hp : l'.isPos
            · rfl
            · rw [hp] at he; simp at he
          rw [hv, hp]
          rfl
        · exact hothers l' hmem' hne
    · obtain ⟨hm, hrest⟩ := evalWithLoop_unit_one st l rest m h
      subst hm
      refine ⟨List.mem_cons_self _ _, hv, ?_⟩
      intro l' hl' hne
      rcases List.mem_cons.mp hl' with rfl | hmem'
      · exact absurd rfl hne
      · exact hrest l' hmem'

lemma unit_forces (st : List OptBool) (c : Clause) (m : Lit) (σ : Nat → Bool)
    (hu : Clause.evalWith c st = .Unit m)
    (hext : ∀ w b, st.getD w OptBool.uns = OptBool.fromBool b → σ w = b)
    (hsat : ∃ l ∈ c, σ l.var = l.isPos) :
    σ m.var = m.isPos := by
  obtain ⟨hm, hmu, hothers⟩ := evalWithLoop_unit_zero st c m hu
  obtain ⟨l, hl, hσl⟩ := hsat
  by_cases hlm : l = m
  · subst hlm
    exact hσl
  · exfalso
    have hf := hothers l hl hlm
    have hneg := hext l.var (!l.isPos) hf
    rw [hσl] at hneg
    cases hp : l.isPos <;> rw [hp] at hneg <;> cases hneg

lemma corePA_toSolution_getD (pa : CorePA) (v : Nat) (b : Bool)
    (h : pa.currentState.getD v OptBool.uns = OptBool.fromBool b) :
    pa.toSolution.getD v false = b := by
  have hlt : v < pa.currentState.length := by
    by_contra hge
    rw [List.getD_eq_default _ _ (by omega)] at h
    cases b <;> simp [OptBool.fromBool] at h
  have hval : pa.currentState.getD v OptBool.uns = pa.currentState[v] := by
    simp [List.getD, List.getElem?_eq_getElem hlt]
  show (pa.currentState.map (fun x => x.unwrapOr false)).getD v false = b
  rw [List.getD_eq_getElem?_getD, List.getElem?_map,
    List.getElem?_eq_getElem hlt]
  simp only [Option.map_some', Option.getD_some]
  rw [show pa.currentState[v] = OptBool.fromBool b from by rw [← hval, h]]
  cases b <;> rfl

lemma vm_extends (nV : Nat) (V : GView) (a : CorePA) (σ : Nat → Bool)
    (hvm : VMatch nV V a) (hext : ExtendsA σ (viewAsgns V)) :
    ∀ w b, a.currentState.getD w OptBool.uns = OptBool.fromBool b → σ w = b := by
  intro w b h
  have h1 : alookup (viewAsgns V) w = some b := by
    rw [← hvm.state w, stVal_eq_some]
    exact h
  exact hext (w, b) (alookup_mem _ _ _ h1)

lemma vm_complete_all_assigned (nV : Nat) (V : GView) (a : CorePA)
    (hvm : VMatch nV V a) (hc : a.isComplete = true) :
    ∀ w, w < nV → a.currentState.getD w OptBool.uns ≠ OptBool.uns := by
  have hlen : (viewVars V).length = nV := by
    have hbeq : a.numAssigned = a.currentState.length := by
      have h := hc
      simp only [CorePA.isComplete, beq_iff_eq] at h
      exact h
    rw [← hvm.nassign, hbeq, hvm.lenS]
  intro w hw
  have hmem : w ∈ viewVars V := by
    by_contra hnot
    have hsub : (viewVars V).toFinset ⊆ Finset.range nV := fun x hx =>
      Finset.mem_range.mpr (hvm.bounded x (List.mem_toFinset.mp hx))
    have hcard : (viewVars V).toFinset.card = nV := by
      rw [List.toFinset_card_of_nodup hvm.nodup, hlen]
    have heq : (viewVars V).toFinset = Finset.range nV :=
      Finset.eq_of_subset_of_card_le hsub (by rw [hcard, Finset.card_range])
    exact hnot (List.mem_toFinset.mp (by rw [heq]; exact Finset.mem_range.mpr hw))
  obtain ⟨pr, hpr, hfst⟩ := List.mem_map.mp hmem
  obtain ⟨x, b⟩ := pr
  cases hfst
  have halk : alookup (viewAsgns V) x = some b :=
    alookup_of_mem_nodup _ _ _ hpr hvm.nodup
  have hst : a.currentState.getD x OptBool.uns = OptBool.fromBool b :=
    (stVal_eq_some _ _ _).mp ((hvm.state x).trans halk)
  rw [hst]
  cases b <;> simp [OptBool.fromBool]

lemma vm_all_assigned_complete (nV : Nat) (V : GView) (a : CorePA)
    (hvm : VMatch nV V a)
    (hall : ∀ w, w < nV → a.currentState.getD w OptBool.uns ≠ OptBool.uns) :
    a.isComplete = true := by
  have hsub : (viewVars V).toFinset ⊆ Finset.range nV := fun x hx =>
    Finset.mem_range.mpr (hvm.bounded x (List.mem_toFinset.mp hx))
  have hsup : Finset.range nV ⊆ (viewVars V).toFinset := by
    intro w hw
    have hne := hall w (Finset.mem_range.mp hw)
    have hne2 : stVal a.currentState w ≠ none := by
      intro hc
      exact hne ((stVal_eq_none _ _).mp hc)
    rw [hvm.state w] at hne2
    have hmemf : w ∈ (viewAsgns V).map Prod.fst := by
      by_contra hnot
      exact hne2 ((alookup_eq_none_iff _ _).mpr hnot)
    exact List.mem_toFinset.mpr hmemf
  have heq : (viewVars V).toFinset = Finset.range nV :=
    Finset.Subset.antisymm hsub hsup
  have hlen : (viewVars V).length = nV := by
    rw [← List.toFinset_card_of_nodup hvm.nodup, heq, Finset.card_range]
  show (a.numAssigned == a.currentState.length) = true
  rw [hvm.nassign, hvm.lenS, hlen]
  simp

lemma vm_complete_clean_models (p : Problem) (V : GView) (a : CorePA)
    (hvm : VMatch p.numVars V a)
    (hwf : ∀ c ∈ p.clauses, ∀ l ∈ c, l.var < p.numVars)
    (hcomp : a.isComplete = true)
    (hclean : ∀ c ∈ p.clauses, ¬ ∀ l ∈ c, LitFalseSt a.currentState l) :
    PModels (fun w => a.toSolution.getD w false) p := by
  intro c hc
  have hnf := hclean c hc
  push_neg at hnf
  obtain ⟨l, hl, hlf⟩ := hnf
  have hassigned := vm_complete_all_assigned p.numVars V a hvm hcomp l.var
    (hwf c hc l hl)
  refine ⟨l, hl, ?_⟩
  rcases hv : a.currentState.getD l.var OptBool.uns with _ | _ | _
  · have hp : l.isPos = false := by
      cases hp : l.isPos
      · rfl
      · exfalso
        apply hlf
        show a.currentState.getD l.var OptBool.uns = OptBool.fromBool (!l.isPos)
        rw [hv, hp]
        rfl
    show (fun w => a.toSolution.getD w false) l.var = l.isPos
    rw [hp]
    exact corePA_toSolution_getD a l.var false (by rw [hv]; rfl)
  · have hp : l.isPos = true := by
      cases hp : l.isPos
      · exfalso
        apply hlf
        show a.currentState.getD l.var OptBool.uns = OptBool.fromBool (!l.isPos)
        rw [hv, hp]
        rfl
      · rfl
    show (fun w => a.toSolution.getD w false) l.var = l.isPos
    rw [hp]
    exact corePA_toSolution_getD a l.var true (by rw [hv]; rfl)
  · exact absurd hv hassigned

namespace VSIDS

open VSIDSHeap

lemma heapPop_mem_subset (heap : List Activity) (act : Activity)
    (heap' : List Activity) (h : heapPop heap = some (act, heap')) :
    act ∈ heap ∧ ∀ x ∈ heap', x ∈ heap := by
  cases heap with
  | nil => cases h
  | cons a rest =>
    simp only [heapPop, Option.some.injEq, Prod.mk.injEq] at h
    obtain ⟨h1, h2⟩ := h
    constructor
    · rw [← h1]
      exact maxOf_mem a rest
    · intro x hx
      rw [← h2] at hx
      exact removeFirst_subset _ _ x hx

lemma popLoop_some_mem (scores : List ℚ) (asgn : List OptBool) :
    ∀ (n : Nat) (heap : List Activity), heap.length ≤ n →
      ∀ w, (popLoop scores asgn heap).1 = some w → ∃ e ∈ heap, e.var = w := by
  intro n
  induction n with
  | zero =>
    intro heap hlen w hw
    have : heap = [] := List.length_eq_zero.mp (by omega)
    subst this
    rw [popLoop_eq_none scores asgn [] rfl] at hw
    cases hw
  | succ n ih =>
    intro heap hlen w hw
    rcases hp : heapPop heap with - | ⟨act, heap'⟩
    · rw [popLoop_eq_none scores asgn heap hp] at hw
      cases hw
    · obtain ⟨hmem, hsub⟩ := heapPop_mem_subset heap act heap' hp
      have hlen' : heap'.length + 1 = heap.length := heapPop_length heap act heap' hp
      rw [popLoop_eq_some scores asgn heap act heap' hp] at hw
      by_cases hc1 : (asgn.getD act.var OptBool.uns).isSome
      · rw [if_pos hc1] at hw
        obtain ⟨e, he, hev⟩ := ih heap' (by omega) w hw
        exact ⟨e, hsub e he, hev⟩
      · rw [if_neg hc1] at hw
        by_cases hc2 : act.score < scores.getD act.var 0
        · rw [if_pos hc2] at hw
          obtain ⟨e, he, hev⟩ := ih heap' (by omega) w hw
          exact ⟨e, hsub e he, hev⟩
        · rw [if_neg hc2] at hw
          cases hw
          exact ⟨act, hmem, rfl⟩

lemma vsidsInv_pop_some (vs : VSIDS) (asgn : List OptBool) (v : Nat)
    (hinv : VSIDSInv vs asgn)
    (h : (vs.popMostActiveUnassignedVar asgn).1 = some v) :
    asgn.getD v OptBool.uns = OptBool.uns ∧ v < vs.activityScores.length := by
  obtain ⟨h1, h2, -, -, hlen5, h6⟩ := hinv
  obtain ⟨hsub, hsome, -⟩ :=
    popLoop_spec vs.activityScores asgn vs.heap.length vs.heap (le_refl _) h1
  have hppl : (vs.popMostActiveUnassignedVar asgn).1
      = (popLoop vs.activityScores asgn vs.heap).1 := rfl
  rw [hppl] at h
  refine ⟨(hsome v h).1, ?_⟩
  obtain ⟨e, he, hev⟩ := popLoop_some_mem vs.activityScores asgn
    vs.heap.length vs.heap (le_refl _) v h
  rw [← hev]
  exact h6 e he

lemma vsidsInv_pop_none (vs : VSIDS) (asgn : List OptBool)
    (hinv : VSIDSInv vs asgn)
    (h : (vs.popMostActiveUnassignedVar asgn).1 = none) :
    ∀ u, u < asgn.length → asgn.getD u OptBool.uns ≠ OptBool.uns := by
  obtain ⟨h1, h2, -, -, hlen5, h6⟩ := hinv
  obtain ⟨-, -, hnone⟩ :=
    popLoop_spec vs.activityScores asgn vs.heap.length vs.heap (le_refl _) h1
  have hppl : (vs.popMostActiveUnassignedVar asgn).1
      = (popLoop vs.activityScores asgn vs.heap).1 := rfl
  rw [hppl] at h
  intro u hu huu
  have hmem := h2 u (by omega) huu
  exact hnone h _ hmem ⟨huu, by simp⟩

lemma onUnassign_fold_fields (ws : List Nat) :
    ∀ vs : VSIDS,
      (ws.foldl VSIDS.onUnassignVar vs).activityScores = vs.activityScores ∧
      (ws.foldl VSIDS.onUnassignVar vs).increment = vs.increment ∧
      (ws.foldl VSIDS.onUnassignVar vs).growFactor = vs.growFactor ∧
      ∀ e, e ∈ (ws.foldl VSIDS.onUnassignVar vs).heap ↔
        e ∈ vs.heap ∨ ∃ w ∈ ws, e = ⟨w, vs.activityScores.getD w 0⟩ := by
  induction ws with
  | nil =>
    intro vs
    refine ⟨rfl, rfl, rfl, fun e => ?_⟩
    simp
  | cons w ws ih =>
    intro vs
    simp only [List.foldl_cons]
    obtain ⟨hsc, hinc, hgr, hmem⟩ := ih (vs.onUnassignVar w)
    refine ⟨hsc, hinc, hgr, fun e => ?_⟩
    rw [hmem e]
    show e ∈ (⟨w, vs.activityScores.getD w 0⟩ : Activity) :: vs.heap ∨ _ ↔ _
    constructor
    · intro h
      rcases h with h | ⟨w', hw', he⟩
      · rcases List.mem_cons.mp h with rfl | h'
        · exact Or.inr ⟨w, List.mem_cons_self _ _, rfl⟩
        · exact Or.inl h'
      · exact Or.inr ⟨w', List.mem_cons_of_mem _ hw', he⟩
    · intro h
      rcases h with h | ⟨w', hw', he⟩
      · exact Or.inl (List.mem_cons_of_mem _ h)
      · rcases List.mem_cons.mp hw' with rfl | hw''
        · exact Or.inl (by rw [he]; exact List.mem_cons_self _ _)
        · exact Or.inr ⟨w', hw'', he⟩

lemma vsidsInv_backtrack_fold (vs : VSIDS) (asgn asgn' : List OptBool)
    (ws : List Nat) (hinv : VSIDSInv vs asgn)
    (hlen : asgn'.length = asgn.length)
    (hunsub : ∀ w, w < asgn.length → asgn'.getD w OptBool.uns = OptBool.uns →
      asgn.getD w OptBool.uns = OptBool.uns ∨ w ∈ ws)
    (hws : ∀ w ∈ ws, w < asgn.length) :
    VSIDSInv (ws.foldl VSIDS.onUnassignVar vs) asgn' := by
  obtain ⟨h1, h2, hinc, hgrow, hlen5, h6⟩ := hinv
  obtain ⟨hsc, hincf, hgrf, hmem⟩ := onUnassign_fold_fields ws vs
  refine ⟨?_, ?_, ?_, ?_, ?_, ?_⟩
  · intro e he
    rw [hsc]
    rcases (hmem e).mp he with h | ⟨w, hw, rfl⟩
    · exact h1 e h
    · exact le_refl _
  · intro v hv hu
    rw [hsc] at hv ⊢
    rcases hunsub v (by omega) hu with h | h
    · exact (hmem _).mpr (Or.inl (h2 v hv h))
    · exact (hmem _).mpr (Or.inr ⟨v, h, rfl⟩)
  · rw [hincf]; exact hinc
  · rw [hgrf]; exact hgrow
  · rw [hsc, hlen5, hlen]
  · intro e he
    rw [hsc]
    rcases (hmem e).mp he with h | ⟨w, hw, rfl⟩
    · exact h6 e h
    · show w < vs.activityScores.length
      rw [hlen5]
      exact hws w hw

end VSIDS

lemma vsidsInv_backtrack_vm (nV : Nat) (V V' : GView) (a a' : CorePA)
    (ws : List Nat) (vs : VSIDS)
    (hvmOld : VMatch nV V a) (hvmNew : VMatch nV V' a')
    (hinv : VSIDSInv vs a.currentState)
    (hcover : ∀ w, w ∈ viewVars V → w ∉ viewVars V' → w ∈ ws)
    (hws : ∀ w ∈ ws, w < nV) :
    VSIDSInv (ws.foldl VSIDS.onUnassignVar vs) a'.currentState := by
  refine VSIDS.vsidsInv_backtrack_fold vs a.currentState a'.currentState ws hinv
    (by rw [hvmOld.lenS, hvmNew.lenS]) ?_ (by rw [hvmOld.lenS]; exact hws)
  intro w hw hu
  have hnew : w ∉ viewVars V' := by
    intro hc
    obtain ⟨pr, hpr, hfst⟩ := List.mem_map.mp hc
    obtain ⟨x, b⟩ := pr
    cases hfst
    have halk : alookup (viewAsgns V') x = some b :=
      alookup_of_mem_nodup _ _ _ hpr hvmNew.nodup
    have hst : a'.currentState.getD x OptBool.uns = OptBool.fromBool b :=
      (stVal_eq_some _ _ _).mp ((hvmNew.state x).trans halk)
    rw [hst] at hu
    cases b <;> simp [OptBool.fromBool] at hu
  by_cases hold : w ∈ viewVars V
  · exact Or.inr (hcover w hold hnew)
  · refine Or.inl ?_
    rw [← stVal_eq_none]
    rw [hvmOld.state w]
    exact (alookup_eq_none_iff _ _).mpr hold

lemma OptBool.fromBool_inj (b1 b2 : Bool) (h : OptBool.fromBool b1 = OptBool.fromBool b2) :
    b1 = b2 := by
  cases b1 <;> cases b2 <;> first | rfl | (exfalso; cases h)

lemma propExt_trans {V1 V2 V3 : GView} (h1 : PropExt V1 V2) (h2 : PropExt V2 V3) :
    PropExt V1 V3 := by
  induction h2 with
  | refl => exact h1
  | push m h ih => exact PropExt.push m ih

lemma scanCore_spec (p : Problem)
    (hwf : ∀ c ∈ p.clauses, ∀ l ∈ c, l.var < p.numVars) :
    ∀ (cs : List Clause) (s : CoreSolver) (stack : List Lit) (V : GView)
      (confl : Bool) (s' : CoreSolver) (stack' : List Lit),
    (∀ c ∈ cs, c ∈ p.clauses) →
    VMatch p.numVars V s.assignment →
    VSIDSInv s.vsids s.assignment.currentState →
    (∀ c ∈ p.clauses, (∀ l ∈ c, LitFalseSt s.assignment.currentState l) →
      (∃ l ∈ stack, l ∈ c) ∨ c ∈ cs) →
    CubeGen.propagateClausesCore s stack cs = (confl, s', stack') →
    ∃ V', PropExt V V' ∧ VMatch p.numVars V' s'.assignment ∧
      VSIDSInv s'.vsids s'.assignment.currentState ∧
      (∀ σ, PModels σ p →
        (∀ w b, s.assignment.currentState.getD w OptBool.uns
          = OptBool.fromBool b → σ w = b) →
        ∀ w b, s'.assignment.currentState.getD w OptBool.uns
          = OptBool.fromBool b → σ w = b) ∧
      (confl = true →
        ∃ c ∈ p.clauses, ∀ l ∈ c, LitFalseSt s'.assignment.currentState l) ∧
      (confl = false → ∀ c ∈ p.clauses,
        (∀ l ∈ c, LitFalseSt s'.assignment.currentState l) →
        ∃ l ∈ stack', l ∈ c) := by
  intro cs
  induction cs with
  | nil =>
    intro s stack V confl s' stack' hcs hvm hinv hscan heq
    simp only [CubeGen.propagateClausesCore] at heq
    cases heq
    refine ⟨V, PropExt.refl V, hvm, hinv, fun σ hσ hext => hext, ?_, ?_⟩
    · intro h
      cases h
    · intro h c hc hfalse
      rcases hscan c hc hfalse with hst | hcs2
      · exact hst
      · cases hcs2
  | cons c cs ih =>
    intro s stack V confl s' stack' hcs hvm hinv hscan heq
    have hcp : c ∈ p.clauses := hcs c (List.mem_cons_self _ _)
    simp only [CubeGen.propagateClausesCore] at heq
    rcases hev : c.evalWith s.assignment.currentState with - | - | m | k <;>
      rw [hev] at heq
    · -- Satisfied: skip
      refine ih s stack V confl s' stack' (fun x hx => hcs x (List.mem_cons_of_mem _ hx))
        hvm hinv ?_ heq
      intro c2 hc2 hfall
      rcases hscan c2 hc2 hfall with hst | hmem
      · exact Or.inl hst
      · rcases List.mem_cons.mp hmem with rfl | hmem2
        · exfalso
          rw [(clause_evalWith_unsat_iff _ _).mpr hfall] at hev
          cases hev
        · exact Or.inr hmem2
    · -- Unsatisfied: conflict, bump and decay
      cases heq
      refine ⟨V, PropExt.refl V, hvm, ?_, fun σ hσ hext => hext, ?_, ?_⟩
      · show VSIDSInv ((s.vsids.bumpVarActivities (c.map Lit.var)).decay)
          s.assignment.currentState
        refine VSIDS.vsidsInv_decay _ _ ?_
        refine VSIDS.vsidsInv_bump (c.map Lit.var) s.vsids
          s.assignment.currentState hinv ?_
        intro v hv
        obtain ⟨l, hl, rfl⟩ := List.mem_map.mp hv
        have h5 := hinv.2.2.2.2.1
        rw [h5, hvm.lenS]
        exact hwf c hcp l hl
      · intro _
        exact ⟨c, hcp, (clause_evalWith_unsat_iff _ _).mp hev⟩
      · intro h
        cases h
    · -- Unit m: propagate and continue
      obtain ⟨hmc, hmu, hothers⟩ := evalWithLoop_unit_zero _ c m hev
      have hmvar : m.var < p.numVars := hwf c hcp m hmc
      have halk : alookup (viewAsgns V) m.var = none := by
        rw [← hvm.state m.var, stVal_eq_none]
        exact hmu
      have hvm2 := vm_propagate p.numVars V s.assignment m.var m.isPos hvm halk hmvar
      have hinv2 : VSIDSInv s.vsids
          (s.assignment.currentState.set m.var (OptBool.fromBool m.isPos)) :=
        VSIDS.vsidsInv_assign s.vsids s.assignment.currentState m.var m.isPos hinv
      have hstep : ∀ σ, PModels σ p →
          (∀ w b, s.assignment.currentState.getD w OptBool.uns
            = OptBool.fromBool b → σ w = b) →
          ∀ w b, (s.assignment.currentState.set m.var
              (OptBool.fromBool m.isPos)).getD w OptBool.uns
            = OptBool.fromBool b → σ w = b := by
        intro σ hσ hext w b hw
        by_cases hwm : w = m.var
        · have hlt : m.var < s.assignment.currentState.length := by
            rw [hvm.lenS]
            exact hmvar
          rw [hwm, VSIDS.getD_set_self_opt _ _ _ hlt] at hw
          have hb : b = m.isPos := (OptBool.fromBool_inj _ _ hw.symm)
          subst hb
          rw [hwm]
          exact unit_forces s.assignment.currentState c m σ hev hext (hσ c hcp)
        · rw [VSIDS.getD_set_ne_opt _ _ _ _ (fun hx => hwm hx.symm)] at hw
          exact hext w b hw
      have hscan2 : ∀ c2 ∈ p.clauses,
          (∀ l ∈ c2, LitFalseSt (s.assignment.currentState.set m.var
            (OptBool.fromBool m.isPos)) l) →
          (∃ l ∈ m.inverted :: stack, l ∈ c2) ∨ c2 ∈ cs := by
        intro c2 hc2 hfall
        by_cases hinv2mem : m.inverted ∈ c2
        · exact Or.inl ⟨m.inverted, List.mem_cons_self _ _, hinv2mem⟩
        · have hlt : m.var < s.assignment.currentState.length := by
            rw [hvm.lenS]
            exact hmvar
          have hfall0 : ∀ l ∈ c2, LitFalseSt s.assignment.currentState l := by
            intro l hl
            have hf := hfall l hl
            by_cases hlv : l.var = m.var
            · exfalso
              show False
              have : (s.assignment.currentState.set m.var
                  (OptBool.fromBool m.isPos)).getD l.var OptBool.uns
                  = OptBool.fromBool (!l.isPos) := hf
              rw [hlv, VSIDS.getD_set_self_opt _ _ _ hlt] at this
              have hpos : m.isPos = !l.isPos := OptBool.fromBool_inj _ _ this
              have hlm : l = m.inverted := by
                refine Lit.eq_of_var_isPos l m.inverted ?_ ?_
                · rw [Lit.inverted_var, hlv]
                · rw [Lit.inverted_isPos, hpos]
                  cases l.isPos <;> rfl
              exact hinv2mem (hlm ▸ hl)
            · show s.assignment.currentState.getD l.var OptBool.uns
                = OptBool.fromBool (!l.isPos)
              have : (s.assignment.currentState.set m.var
                  (OptBool.fromBool m.isPos)).getD l.var OptBool.uns
                  = OptBool.fromBool (!l.isPos) := hf
              rw [VSIDS.getD_set_ne_opt _ _ _ _ (fun hx => hlv hx.symm)] at this
              exact this
          rcases hscan c2 hc2 hfall0 with hst | hmem
          · obtain ⟨l, hls, hlc⟩ := hst
            exact Or.inl ⟨l, List.mem_cons_of_mem _ hls, hlc⟩
          · rcases List.mem_cons.mp hmem with rfl | hmem2
            · exfalso
              rw [(clause_evalWith_unsat_iff _ _).mpr hfall0] at hev
              cases hev
            · exact Or.inr hmem2
      obtain ⟨V2, hpe, hvm3, hinv3, hforce, hconfl, hnoconfl⟩ :=
        ih ({ s with assignment := s.assignment.propagate m.var m.isPos })
          (m.inverted :: stack) (pushPropV V (m.var, m.isPos)) confl s' stack'
          (fun x hx => hcs x (List.mem_cons_of_mem _ hx)) hvm2 hinv2 hscan2 heq
      refine ⟨V2, propExt_trans (PropExt.push _ (PropExt.refl V)) hpe,
        hvm3, hinv3, ?_, hconfl, hnoconfl⟩
      intro σ hσ hext
      exact hforce σ hσ (hstep σ hσ hext)
    · -- Undecided: skip
      refine ih s stack V confl s' stack' (fun x hx => hcs x (List.mem_cons_of_mem _ hx))
        hvm hinv ?_ heq
      intro c2 hc2 hfall
      rcases hscan c2 hc2 hfall with hst | hmem
      · exact Or.inl hst
      · rcases List.mem_cons.mp hmem with rfl | hmem2
        · exfalso
          rw [(clause_evalWith_unsat_iff _ _).mpr hfall] at hev
          cases hev
        · exact Or.inr hmem2

lemma mem_clausesContainingLit (p : Problem) (l : Lit) (c : Clause) :
    c ∈ p.clausesContainingLit l ↔ c ∈ p.clauses ∧ l ∈ c := by
  show c ∈ p.clauses.filter (fun c => c.contains l) ↔ _
  rw [List.mem_filter]
  constructor
  · rintro ⟨h1, h2⟩
    exact ⟨h1, List.elem_iff.mp h2⟩
  · rintro ⟨h1, h2⟩
    exact ⟨h1, List.elem_iff.mpr h2⟩

lemma loopCore_spec (p : Problem)
    (hwf : ∀ c ∈ p.clauses, ∀ l ∈ c, l.var < p.numVars) :
    ∀ (fuel : Nat) (s : CoreSolver) (stack : List Lit) (V : GView)
      (res : UnitPropagationResult) (s' : CoreSolver),
    VMatch p.numVars V s.assignment →
    VSIDSInv s.vsids s.assignment.currentState →
    (∀ c ∈ p.clauses, (∀ l ∈ c, LitFalseSt s.assignment.currentState l) →
      ∃ l ∈ stack, l ∈ c) →
    CubeGen.propagateLoopCore p fuel s stack = some (res, s') →
    ∃ V', PropExt V V' ∧ VMatch p.numVars V' s'.assignment ∧
      VSIDSInv s'.vsids s'.assignment.currentState ∧
      (∀ σ, PModels σ p →
        (∀ w b, s.assignment.currentState.getD w OptBool.uns
          = OptBool.fromBool b → σ w = b) →
        ∀ w b, s'.assignment.currentState.getD w OptBool.uns
          = OptBool.fromBool b → σ w = b) ∧
      (res = .SAT → s'.assignment.isComplete = true ∧
        ∀ c ∈ p.clauses, ¬ ∀ l ∈ c, LitFalseSt s'.assignment.currentState l) ∧
      (res = .Undecided → s'.assignment.isComplete = false ∧
        ∀ c ∈ p.clauses, ¬ ∀ l ∈ c, LitFalseSt s'.assignment.currentState l) ∧
      (res = .UNSAT →
        ∃ c ∈ p.clauses, ∀ l ∈ c, LitFalseSt s'.assignment.currentState l) := by
  intro fuel
  induction fuel with
  | zero =>
    intro s stack V res s' hvm hinv hcover heq
    cases heq
  | succ fuel ih =>
    intro s stack V res s' hvm hinv hcover heq
    cases stack with
    | nil =>
      simp only [CubeGen.propagateLoopCore] at heq
      have hclean : ∀ c ∈ p.clauses,
          ¬ ∀ l ∈ c, LitFalseSt s.assignment.currentState l := by
        intro c hc hfall
        obtain ⟨l, hl, -⟩ := hcover c hc hfall
        cases hl
      split at heq
      · rename_i hcomp
        cases heq
        refine ⟨V, PropExt.refl V, hvm, hinv, fun σ hσ hext => hext, ?_, ?_, ?_⟩
        · intro _; exact ⟨hcomp, hclean⟩
        · intro h; cases h
        · intro h; cases h
      · rename_i hcomp
        cases heq
        refine ⟨V, PropExt.refl V, hvm, hinv, fun σ hσ hext => hext, ?_, ?_, ?_⟩
        · intro h; cases h
        · intro _
          refine ⟨?_, hclean⟩
          cases hcb : s.assignment.isComplete
          · rfl
          · exact absurd hcb hcomp
        · intro h; cases h
    | cons lit rest =>
      simp only [CubeGen.propagateLoopCore] at heq
      have hscan0 : ∀ c ∈ p.clauses,
          (∀ l ∈ c, LitFalseSt s.assignment.currentState l) →
          (∃ l ∈ rest, l ∈ c) ∨ c ∈ p.clausesContainingLit lit := by
        intro c hc hfall
        obtain ⟨l, hls, hlc⟩ := hcover c hc hfall
        rcases List.mem_cons.mp hls with rfl | hmem
        · exact Or.inr ((mem_clausesContainingLit p l c).mpr ⟨hc, hlc⟩)
        · exact Or.inl ⟨l, hmem, hlc⟩
      split at heq
      · rename_i s1 stack1 hsc
        cases heq
        obtain ⟨V1, hpe1, hvm1, hinv1, hforce1, hconfl1, hnoconfl1⟩ :=
          scanCore_spec p hwf (p.clausesContainingLit lit) s rest V true s' stack1
            (fun c hc => ((mem_clausesContainingLit p lit c).mp hc).1)
            hvm hinv hscan0 hsc
        refine ⟨V1, hpe1, hvm1, hinv1, hforce1, ?_, ?_, ?_⟩
        · intro h; cases h
        · intro h; cases h
        · intro _; exact hconfl1 rfl
      · rename_i s1 stack1 hsc
        obtain ⟨V1, hpe1, hvm1, hinv1, hforce1, hconfl1, hnoconfl1⟩ :=
          scanCore_spec p hwf (p.clausesContainingLit lit) s rest V false s1 stack1
            (fun c hc => ((mem_clausesContainingLit p lit c).mp hc).1)
            hvm hinv hscan0 hsc
        obtain ⟨V2, hpe2, hvm2, hinv2, hforce2, hsat2, hund2, huns2⟩ :=
          ih s1 stack1 V1 res s' hvm1 hinv1 (hnoconfl1 rfl) heq
        exact ⟨V2, propExt_trans hpe1 hpe2, hvm2, hinv2,
          fun σ hσ hext => hforce2 σ hσ (hforce1 σ hσ hext),
          hsat2, hund2, huns2⟩

lemma rootScan_spec (p : Problem)
    (hwf : ∀ c ∈ p.clauses, ∀ l ∈ c, l.var < p.numVars) :
    ∀ (cs : List Clause) (s : CoreSolver) (stack : List Lit) (V : GView),
    (∀ c ∈ cs, c ∈ p.clauses) →
    VMatch p.numVars V s.assignment →
    VSIDSInv s.vsids s.assignment.currentState →
    (∀ σ, PModels σ p → ∀ w b, s.assignment.currentState.getD w OptBool.uns
        = OptBool.fromBool b → σ w = b) →
    (∀ c ∈ p.clauses, (∀ l ∈ c, LitFalseSt s.assignment.currentState l) →
      (∃ l ∈ stack, l ∈ c) ∨ c ∈ cs) →
    (CubeGen.rootScan s stack cs = none → ∀ σ, ¬ PModels σ p) ∧
    (∀ s' stack', CubeGen.rootScan s stack cs = some (s', stack') →
      ∃ V', PropExt V V' ∧ VMatch p.numVars V' s'.assignment ∧
        VSIDSInv s'.vsids s'.assignment.currentState ∧
        (∀ σ, PModels σ p → ∀ w b, s'.assignment.currentState.getD w OptBool.uns
            = OptBool.fromBool b → σ w = b) ∧
        (∀ c ∈ p.clauses, (∀ l ∈ c, LitFalseSt s'.assignment.currentState l) →
          ∃ l ∈ stack', l ∈ c)) := by
  intro cs
  induction cs with
  | nil =>
    intro s stack V hcs hvm hinv hroot hscan
    constructor
    · intro h
      cases h
    · intro s' stack' heq
      simp only [CubeGen.rootScan] at heq
      cases heq
      refine ⟨V, PropExt.refl V, hvm, hinv, hroot, ?_⟩
      intro c hc hfall
      rcases hscan c hc hfall with hst | hmem
      · exact hst
      · cases hmem
  | cons c cs ih =>
    intro s stack V hcs hvm hinv hroot hscan
    have hcp : c ∈ p.clauses := hcs c (List.mem_cons_self _ _)
    rcases hev : c.evalWith s.assignment.currentState with - | - | m | k
    · -- Satisfied
      have hred : CubeGen.rootScan s stack (c :: cs) = CubeGen.rootScan s stack cs := by
        simp only [CubeGen.rootScan, hev]
      rw [hred]
      refine ih s stack V (fun x hx => hcs x (List.mem_cons_of_mem _ hx)) hvm hinv hroot ?_
      intro c2 hc2 hfall
      rcases hscan c2 hc2 hfall with hst | hmem
      · exact Or.inl hst
      · rcases List.mem_cons.mp hmem with rfl | hmem2
        · exfalso
          rw [(clause_evalWith_unsat_iff _ _).mpr hfall] at hev
          cases hev
        · exact Or.inr hmem2
    · -- Unsatisfied: root conflict
      have hred : CubeGen.rootScan s stack (c :: cs) = none := by
        simp only [CubeGen.rootScan, hev]
      rw [hred]
      constructor
      · intro _ σ hσ
        have hfall := (clause_evalWith_unsat_iff _ _).mp hev
        obtain ⟨l, hl, hlt⟩ := hσ c hcp
        have := hroot σ hσ l.var (!l.isPos) (hfall l hl)
        rw [hlt] at this
        cases hp : l.isPos <;> rw [hp] at this <;> cases this
      · intro s' stack' h
        cases h
    · -- Unit m
      obtain ⟨hmc, hmu, hothers⟩ := evalWithLoop_unit_zero _ c m hev
      have hmvar : m.var < p.numVars := hwf c hcp m hmc
      have halk : alookup (viewAsgns V) m.var = none := by
        rw [← hvm.state m.var, stVal_eq_none]
        exact hmu
      have hvm2 := vm_propagate p.numVars V s.assignment m.var m.isPos hvm halk hmvar
      have hinv2 : VSIDSInv s.vsids
          (s.assignment.currentState.set m.var (OptBool.fromBool m.isPos)) :=
        VSIDS.vsidsInv_assign s.vsids s.assignment.currentState m.var m.isPos hinv
      have hroot2 : ∀ σ, PModels σ p →
          ∀ w b, (s.assignment.currentState.set m.var
              (OptBool.fromBool m.isPos)).getD w OptBool.uns
            = OptBool.fromBool b → σ w = b := by
        intro σ hσ w b hw
        by_cases hwm : w = m.var
        · have hlt : m.var < s.assignment.currentState.length := by
            rw [hvm.lenS]
            exact hmvar
          rw [hwm, VSIDS.getD_set_self_opt _ _ _ hlt] at hw
          have hb : b = m.isPos := (OptBool.fromBool_inj _ _ hw.symm)
          subst hb
          rw [hwm]
          exact unit_forces s.assignment.currentState c m σ hev (hroot σ hσ) (hσ c hcp)
        · rw [VSIDS.getD_set_ne_opt _ _ _ _ (fun hx => hwm hx.symm)] at hw
          exact hroot σ hσ w b hw
      have hscan2 : ∀ c2 ∈ p.clauses,
          (∀ l ∈ c2, LitFalseSt (s.assignment.currentState.set m.var
            (OptBool.fromBool m.isPos)) l) →
          (∃ l ∈ m.inverted :: stack, l ∈ c2) ∨ c2 ∈ cs := by
        intro c2 hc2 hfall
        by_cases hinvmem : m.inverted ∈ c2
        · exact Or.inl ⟨m.inverted, List.mem_cons_self _ _, hinvmem⟩
        · have hlt : m.var < s.assignment.currentState.length := by
            rw [hvm.lenS]
            exact hmvar
          have hfall0 : ∀ l ∈ c2, LitFalseSt s.assignment.currentState l := by
            intro l hl
            have hf := hfall l hl
            by_cases hlv : l.var = m.var
            · exfalso
              have hthis : (s.assignment.currentState.set m.var
                  (OptBool.fromBool m.isPos)).getD l.var OptBool.uns
                  = OptBool.fromBool (!l.isPos) := hf
              rw [hlv, VSIDS.getD_set_self_opt _ _ _ hlt] at hthis
              have hpos : m.isPos = !l.isPos := OptBool.fromBool_inj _ _ hthis
              have hlm : l = m.inverted := by
                refine Lit.eq_of_var_isPos l m.inverted ?_ ?_
                · rw [Lit.inverted_var, hlv]
                · rw [Lit.inverted_isPos, hpos]
                  cases l.isPos <;> rfl
              exact hinvmem (hlm ▸ hl)
            · have hthis : (s.assignment.currentState.set m.var
                  (OptBool.fromBool m.isPos)).getD l.var OptBool.uns
                  = OptBool.fromBool (!l.isPos) := hf
              rw [VSIDS.getD_set_ne_opt _ _ _ _ (fun hx => hlv hx.symm)] at hthis
              exact hthis
          rcases hscan c2 hc2 hfall0 with hst | hmem
          · obtain ⟨l, hls, hlc⟩ := hst
            exact Or.inl ⟨l, List.mem_cons_of_mem _ hls, hlc⟩
          · rcases List.mem_cons.mp hmem with rfl | hmem2
            · exfalso
              rw [(clause_evalWith_unsat_iff _ _).mpr hfall0] at hev
              cases hev
            · exact Or.inr hmem2
      have hred : CubeGen.rootScan s stack (c :: cs)
          = CubeGen.rootScan ⟨s.assignment.propagate m.var m.isPos, s.vsids⟩
            (m.inverted :: stack) cs := by
        simp only [CubeGen.rootScan, hev]
      rw [hred]
      obtain ⟨hnone, hsome⟩ :=
        ih ({ s with assignment := s.assignment.propagate m.var m.isPos })
          (m.inverted :: stack) (pushPropV V (m.var, m.isPos))
          (fun x hx => hcs x (List.mem_cons_of_mem _ hx)) hvm2 hinv2 hroot2 hscan2
      refine ⟨hnone, ?_⟩
      intro s' stack' heq
      obtain ⟨V2, hpe, hvm3, hinv3, hroot3, hcov3⟩ := hsome s' stack' heq
      exact ⟨V2, propExt_trans (PropExt.push _ (PropExt.refl V)) hpe,
        hvm3, hinv3, hroot3, hcov3⟩
    · -- Undecided
      have hred : CubeGen.rootScan s stack (c :: cs) = CubeGen.rootScan s stack cs := by
        simp only [CubeGen.rootScan, hev]
      rw [hred]
      refine ih s stack V (fun x hx => hcs x (List.mem_cons_of_mem _ hx)) hvm hinv hroot ?_
      intro c2 hc2 hfall
      rcases hscan c2 hc2 hfall with hst | hmem
      · exact Or.inl hst
      · rcases List.mem_cons.mp hmem with rfl | hmem2
        · exfalso
          rw [(clause_evalWith_unsat_iff _ _).mpr hfall] at hev
          cases hev
        · exact Or.inr hmem2

lemma vm_decisionLevel (nV : Nat) (V : GView) (a : CorePA) (hvm : VMatch nV V a) :
    a.decisionLevel = V.2.length := by
  rw [CorePA.decisionLevel, hvm.marks, List.length_reverse, viewMarks,
    marksFrom_length]

lemma vm_litFalse_iff (nV : Nat) (V : GView) (a : CorePA) (hvm : VMatch nV V a)
    (l : Lit) :
    LitFalseSt a.currentState l ↔ alookup (viewAsgns V) l.var = some (!l.isPos) := by
  show a.currentState.getD l.var OptBool.uns = OptBool.fromBool (!l.isPos) ↔ _
  rw [← stVal_eq_some, hvm.state]

lemma vm_extendsA_of_state (nV : Nat) (V : GView) (a : CorePA) (σ : Nat → Bool)
    (hvm : VMatch nV V a)
    (hext : ∀ w b, a.currentState.getD w OptBool.uns = OptBool.fromBool b → σ w = b) :
    ExtendsA σ (viewAsgns V) := by
  intro pr hpr
  obtain ⟨w, b⟩ := pr
  have halk : alookup (viewAsgns V) w = some b :=
    alookup_of_mem_nodup _ _ _ hpr hvm.nodup
  exact hext w b ((stVal_eq_some _ _ _).mp ((hvm.state w).trans halk))

lemma vm_clean_full (p : Problem) (V : GView) (a : CorePA)
    (hvm : VMatch p.numVars V a)
    (hclean : ∀ c ∈ p.clauses, ¬ ∀ l ∈ c, LitFalseSt a.currentState l) :
    ∀ c ∈ p.clauses, ¬ ClauseFalseF (alookup (viewAsgns V)) c := by
  intro c hc hfall
  refine hclean c hc ?_
  intro l hl
  exact (vm_litFalse_iff p.numVars V a hvm l).mpr (hfall l hl)

lemma glist_take_append (Ls : List GLevel) (L : GLevel) (j : Nat)
    (h : j ≤ Ls.length) : (Ls ++ [L]).take j = Ls.take j :=
  List.take_append_of_le_length h

lemma glist_getD_append (Ls : List GLevel) (L : GLevel) (j : Nat)
    (d : GLevel) (h : j < Ls.length) : (Ls ++ [L]).getD j d = Ls.getD j d := by
  simp only [List.getD, List.get?_eq_getElem?]
  rw [List.getElem?_append_left h]

lemma glist_getD_append_len (Ls : List GLevel) (L : GLevel) (d : GLevel) :
    (Ls ++ [L]).getD Ls.length d = L := by
  simp only [List.getD, List.get?_eq_getElem?]
  rw [List.getElem?_append_right (le_refl _)]
  simp

lemma prefixAsgns_take_append (rp : List (Nat × Bool)) (Ls : List GLevel)
    (L : GLevel) (j : Nat) (h : j ≤ Ls.length) :
    prefixAsgns rp (Ls ++ [L]) j = prefixAsgns rp Ls j := by
  rw [prefixAsgns, prefixAsgns, glist_take_append Ls L j h]

lemma prefixAsgns_full (rp : List (Nat × Bool)) (Ls : List GLevel) (j : Nat)
    (h : Ls.length ≤ j) : prefixAsgns rp Ls j = viewAsgns (rp, Ls) := by
  rw [prefixAsgns, viewAsgns, List.take_of_length_le h]

lemma agreesD_append_single (σ : Nat → Bool) (Ls : List GLevel) (L : GLevel) :
    AgreesD σ (Ls ++ [L]) ↔ AgreesD σ Ls ∧ σ L.decVar = L.decVal := by
  constructor
  · intro h
    exact ⟨fun x hx => h x (List.mem_append.mpr (Or.inl hx)),
      h L (List.mem_append.mpr (Or.inr (List.mem_singleton.mpr rfl)))⟩
  · rintro ⟨h1, h2⟩ x hx
    rcases List.mem_append.mp hx with hx' | hx'
    · exact h1 x hx'
    · rw [List.mem_singleton.mp hx']
      exact h2

lemma agreesD_take (σ : Nat → Bool) (Ls : List GLevel) (j : Nat)
    (h : AgreesD σ Ls) : AgreesD σ (Ls.take j) := by
  intro x hx
  exact h x ((List.take_sublist j Ls).mem hx)

lemma forcedTo_append_level (p : Problem) (rp : List (Nat × Bool))
    (Ls : List GLevel) (L : GLevel) (hL : L.props = [])
    (hf : ForcedTo p rp Ls) : ForcedTo p rp (Ls ++ [L]) := by
  intro j σ hσ hag
  by_cases hj : j ≤ Ls.length
  · rw [prefixAsgns_take_append rp Ls L j hj]
    rw [glist_take_append Ls L j hj] at hag
    exact hf j σ hσ hag
  · rw [prefixAsgns_full rp _ j (by simp; omega)]
    rw [List.take_of_length_le (by simp; omega)] at hag
    obtain ⟨hag0, hagL⟩ := (agreesD_append_single σ Ls L).mp hag
    have hfull : ExtendsA σ (viewAsgns (rp, Ls)) := by
      have := hf Ls.length σ hσ (by rw [List.take_length]; exact hag0)
      rw [prefixAsgns_full rp Ls Ls.length (le_refl _)] at this
      exact this
    intro pr hpr
    rw [viewAsgns_last] at hpr
    rcases List.mem_append.mp hpr with h | h
    · exact hfull pr h
    · have : L.asgns = [(L.decVar, L.decVal)] := by
        rw [GLevel.asgns, hL]
      rw [this, List.mem_singleton] at h
      rw [h]
      exact hagL

lemma forcedTo_drop_last (p : Problem) (rp : List (Nat × Bool))
    (Ls : List GLevel) (L : GLevel)
    (hf : ForcedTo p rp (Ls ++ [L])) : ForcedTo p rp Ls := by
  intro j σ hσ hag
  by_cases hj : j ≤ Ls.length
  · rw [← prefixAsgns_take_append rp Ls L j hj]
    refine hf j σ hσ ?_
    rw [glist_take_append Ls L j hj]
    exact hag
  · rw [prefixAsgns_full rp Ls j (by omega)]
    rw [List.take_of_length_le (by omega : Ls.length ≤ j)] at hag
    have h1 := hf Ls.length σ hσ (by
      rw [glist_take_append Ls L Ls.length (le_refl _), List.take_length]
      exact hag)
    rw [prefixAsgns_take_append rp Ls L Ls.length (le_refl _),
      prefixAsgns_full rp Ls Ls.length (le_refl _)] at h1
    exact h1

lemma cleanTo_append_level (p : Problem) (rp : List (Nat × Bool))
    (Ls : List GLevel) (L : GLevel) (hclean : CleanTo p rp Ls)
    (hfull : ∀ c ∈ p.clauses, ¬ ClauseFalseF (alookup (viewAsgns (rp, Ls))) c) :
    CleanTo p rp (Ls ++ [L]) := by
  intro j hj c hc
  by_cases hjl : j < Ls.length
  · rw [prefixAsgns_take_append rp Ls L j (by omega)]
    exact hclean j hjl c hc
  · have hj2 : j = Ls.length := by
      simp only [List.length_append, List.length_cons, List.length_nil] at hj
      omega
    subst hj2
    rw [prefixAsgns_take_append rp Ls L _ (le_refl _),
      prefixAsgns_full rp Ls _ (le_refl _)]
    exact hfull c hc

lemma cleanTo_drop_last (p : Problem) (rp : List (Nat × Bool))
    (Ls : List GLevel) (L : GLevel)
    (hclean : CleanTo p rp (Ls ++ [L])) : CleanTo p rp Ls := by
  intro j hj c hc
  rw [← prefixAsgns_take_append rp Ls L j (by omega)]
  refine hclean j ?_ c hc
  simp only [List.length_append, List.length_cons, List.length_nil]
  omega

lemma agreesD_last_props (σ : Nat → Bool) (Ls : List GLevel) (v : Nat)
    (val : Bool) (ps ps' : List (Nat × Bool)) :
    AgreesD σ (Ls ++ [⟨v, val, ps⟩]) ↔ AgreesD σ (Ls ++ [⟨v, val, ps'⟩]) := by
  rw [agreesD_append_single, agreesD_append_single]

lemma cleanTo_last_props (p : Problem) (rp : List (Nat × Bool))
    (Ls : List GLevel) (v : Nat) (val : Bool) (ps ps' : List (Nat × Bool))
    (h : CleanTo p rp (Ls ++ [⟨v, val, ps⟩])) :
    CleanTo p rp (Ls ++ [⟨v, val, ps'⟩]) := by
  intro j hj c hc
  have hjl : j ≤ Ls.length := by
    simp only [List.length_append, List.length_cons, List.length_nil] at hj
    omega
  rw [prefixAsgns_take_append rp Ls _ j hjl]
  have := h j (by simpa using hj) c hc
  rw [prefixAsgns_take_append rp Ls _ j hjl] at this
  exact this

lemma futureB_last_props (σ : Nat → Bool) (Ls : List GLevel) (v : Nat)
    (val : Bool) (ps ps' : List (Nat × Bool))
    (h : FutureB σ (Ls ++ [⟨v, val, ps⟩])) :
    FutureB σ (Ls ++ [⟨v, val, ps'⟩]) := by
  obtain ⟨j, hj, hag, hdv, hdw⟩ := h
  have hjl : j ≤ Ls.length := by
    simp only [List.length_append, List.length_cons, List.length_nil] at hj
    omega
  refine ⟨j, by simpa using hj, ?_, ?_, ?_⟩
  · rw [glist_take_append Ls _ j hjl]
    rw [glist_take_append Ls _ j hjl] at hag
    exact hag
  · by_cases hje : j < Ls.length
    · rw [glist_getD_append Ls _ j _ hje]
      rw [glist_getD_append Ls _ j _ hje] at hdv
      exact hdv
    · have : j = Ls.length := by omega
      subst this
      rw [glist_getD_append_len]
      rw [glist_getD_append_len] at hdv
      exact hdv
  · by_cases hje : j < Ls.length
    · rw [glist_getD_append Ls _ j _ hje]
      rw [glist_getD_append Ls _ j _ hje] at hdw
      exact hdw
    · have : j = Ls.length := by omega
      subst this
      rw [glist_getD_append_len]
      rw [glist_getD_append_len] at hdw
      exact hdw

lemma agreesL_map (σ : Nat → Bool) (Ls : List GLevel) :
    AgreesL σ (Ls.map fun L => Lit.new L.decVar L.decVal) ↔ AgreesD σ Ls := by
  constructor
  · intro h L hL
    have := h (Lit.new L.decVar L.decVal) (List.mem_map.mpr ⟨L, hL, rfl⟩)
    rw [Lit.new_var, Lit.new_isPos] at this
    exact this
  · intro h l hl
    obtain ⟨L, hL, rfl⟩ := List.mem_map.mp hl
    rw [Lit.new_var, Lit.new_isPos]
    exact h L hL

lemma forcedTo_wave (p : Problem) (rp : List (Nat × Bool)) (Ls : List GLevel)
    (v : Nat) (val : Bool) (ps' : List (Nat × Bool)) (a a' : CorePA)
    (hvmOld : VMatch p.numVars (rp, Ls ++ [⟨v, val, []⟩]) a)
    (hvmNew : VMatch p.numVars (rp, Ls ++ [⟨v, val, ps'⟩]) a')
    (hf : ForcedTo p rp (Ls ++ [⟨v, val, []⟩]))
    (hforce : ∀ σ, PModels σ p →
      (∀ w b, a.currentState.getD w OptBool.uns = OptBool.fromBool b → σ w = b) →
      ∀ w b, a'.currentState.getD w OptBool.uns = OptBool.fromBool b → σ w = b) :
    ForcedTo p rp (Ls ++ [⟨v, val, ps'⟩]) := by
  intro j σ hσ hag
  by_cases hj : j ≤ Ls.length
  · rw [prefixAsgns_take_append rp Ls _ j hj]
    rw [← prefixAsgns_take_append rp Ls (⟨v, val, []⟩ : GLevel) j hj]
    refine hf j σ hσ ?_
    rw [glist_take_append Ls _ j hj]
    rw [glist_take_append Ls _ j hj] at hag
    exact hag
  · rw [prefixAsgns_full rp _ j (by simp; omega)]
    rw [List.take_of_length_le (by simp; omega)] at hag
    have hagOld : AgreesD σ (Ls ++ [(⟨v, val, []⟩ : GLevel)]) :=
      (agreesD_last_props σ Ls v val ps' []).mp hag
    have hextOld : ExtendsA σ (viewAsgns (rp, Ls ++ [(⟨v, val, []⟩ : GLevel)])) := by
      have := hf (Ls ++ [(⟨v, val, []⟩ : GLevel)]).length σ hσ
        (by rw [List.take_length]; exact hagOld)
      rw [prefixAsgns_full rp _ _ (le_refl _)] at this
      exact this
    have hstOld : ∀ w b, a.currentState.getD w OptBool.uns = OptBool.fromBool b →
        σ w = b := vm_extends p.numVars _ a σ hvmOld hextOld
    exact vm_extendsA_of_state p.numVars _ a' σ hvmNew (hforce σ hσ hstOld)

lemma gen_seed (p : Problem) (rp : List (Nat × Bool)) (Ls : List GLevel)
    (v : Nat) (val : Bool) (a : CorePA)
    (hvm : VMatch p.numVars (rp, Ls ++ [⟨v, val, []⟩]) a)
    (hclean : CleanTo p rp (Ls ++ [⟨v, val, []⟩])) :
    ∀ c ∈ p.clauses, (∀ l ∈ c, LitFalseSt a.currentState l) →
      ∃ l ∈ [(Lit.new v val).inverted], l ∈ c := by
  intro c hc hfall
  by_cases hvc : ∃ l ∈ c, l.var = v
  · obtain ⟨l, hl, hlv⟩ := hvc
    have hlf := (vm_litFalse_iff p.numVars _ a hvm l).mp (hfall l hl)
    have hAs : viewAsgns (rp, Ls ++ [⟨v, val, []⟩])
        = viewAsgns (rp, Ls) ++ [(v, val)] := by
      rw [viewAsgns_last]
      rfl
    have hvW : v ∉ (viewAsgns (rp, Ls)).map Prod.fst := by
      have hnd := hvm.nodup
      have hVs : viewVars (rp, Ls ++ [⟨v, val, []⟩])
          = viewVars (rp, Ls) ++ [v] := by
        rw [viewVars, hAs, List.map_append]
        rfl
      rw [hVs] at hnd
      obtain ⟨-, -, hdisj⟩ := List.nodup_append.mp hnd
      exact fun hcon => hdisj hcon (List.mem_singleton.mpr rfl)
    rw [hAs, hlv, alookup_append, (alookup_eq_none_iff _ _).mpr hvW] at hlf
    have hlf2 : some val = some (!l.isPos) := by
      rw [← hlf]
      show _ = alookup [(v, val)] v
      show _ = if v = v then some val else alookup [] v
      rw [if_pos rfl]
    have hpos : val = !l.isPos := by cases hlf2; rfl
    have hl2 : l = (Lit.new v val).inverted := by
      refine Lit.eq_of_var_isPos _ _ ?_ ?_
      · rw [Lit.inverted_var, Lit.new_var, hlv]
      · rw [Lit.inverted_isPos, Lit.new_isPos, hpos]
        cases l.isPos <;> rfl
    exact ⟨(Lit.new v val).inverted, List.mem_singleton.mpr rfl, hl2 ▸ hl⟩
  · exfalso
    push_neg at hvc
    have hlen : Ls.length < (Ls ++ [(⟨v, val, []⟩ : GLevel)]).length := by
      simp
    refine hclean Ls.length hlen c hc ?_
    intro l hl
    have hlf := (vm_litFalse_iff p.numVars _ a hvm l).mp (hfall l hl)
    have hAs : viewAsgns (rp, Ls ++ [⟨v, val, []⟩])
        = viewAsgns (rp, Ls) ++ [(v, val)] := by
      rw [viewAsgns_last]
      rfl
    rw [hAs, alookup_append_single_ne _ _ _ _ (hvc l hl)] at hlf
    show alookup (prefixAsgns rp (Ls ++ [(⟨v, val, []⟩ : GLevel)]) Ls.length) l.var
      = some (!l.isPos)
    rw [prefixAsgns_take_append rp Ls _ _ (le_refl _),
      prefixAsgns_full rp Ls _ (le_refl _)]
    exact hlf

set_option maxHeartbeats 1000000 in
lemma runLoop_spec (p : Problem)
    (hwf : ∀ c ∈ p.clauses, ∀ l ∈ c, l.var < p.numVars) (maxD : Nat) :
    ∀ (fuel : Nat) (ph : CubeGen.Phase) (s : CoreSolver) (g : Bool)
      (acc : List CubeGenerationResult) (rp : List (Nat × Bool)) (Ls : List GLevel)
      (out : List CubeGenerationResult),
    VMatch p.numVars (rp, Ls) s.assignment →
    VSIDSInv s.vsids s.assignment.currentState →
    ForcedTo p rp Ls →
    CleanTo p rp Ls →
    (∀ r ∈ acc, ∃ cb, r = CubeGenerationResult.Cube cb) →
    (g = false → acc = []) →
    (∀ σ, PModels σ p →
      (∃ cb, CubeGenerationResult.Cube cb ∈ acc ∧ AgreesL σ cb) ∨
      (ph = CubeGen.Phase.gen ∧ AgreesD σ Ls) ∨ FutureB σ Ls) →
    (ph = CubeGen.Phase.gen → ∃ Ls0 v val, Ls = Ls0 ++ [⟨v, val, []⟩]) →
    CubeGen.runLoop p maxD fuel ph s g acc = some out →
    (∀ sol, CubeGenerationResult.SAT sol ∈ out →
      PModels (fun w => sol.getD w false) p) ∧
    (CubeGenerationResult.UNSAT ∈ out → ∀ σ, ¬ PModels σ p) ∧
    ((∀ sol, CubeGenerationResult.SAT sol ∉ out) →
      ∀ σ, PModels σ p → ∃ cb, CubeGenerationResult.Cube cb ∈ out ∧ AgreesL σ cb) := by
  intro fuel
  induction fuel with
  | zero =>
    intro ph s g acc rp Ls out hvm hinv hforced hclean hcubes hg hcov hshape heq
    cases heq
  | succ fuel ih =>
    intro ph s g acc rp Ls out hvm hinv hforced hclean hcubes hg hcov hshape heq
    cases ph with
    | gen =>
      obtain ⟨Ls0, v, val, rfl⟩ := hshape rfl
      have hlast := vm_lastDecisionLit p.numVars rp Ls0 v val [] s.assignment hvm
      simp only [CubeGen.runLoop, hlast] at heq
      -- the falsified-literal seed
      have hseed := gen_seed p rp Ls0 v val s.assignment hvm hclean
      split at heq
      · -- propagateUnitsFrom = none: fuel ran out inside the wave
        cases heq
      · -- SAT
        rename_i s1 hw
        cases heq
        obtain ⟨V1, hpe, hvm1, hinv1, hforce1, hsat1, hund1, huns1⟩ :=
          loopCore_spec p hwf (2 * p.numVars + 2) s [(Lit.new v val).inverted]
            (rp, Ls0 ++ [⟨v, val, []⟩]) .SAT s1 hvm hinv hseed hw
        obtain ⟨hcomp, hcl⟩ := hsat1 rfl
        refine ⟨?_, ?_, ?_⟩
        · intro sol hsol
          rcases List.mem_append.mp hsol with h | h
          · obtain ⟨cb, hcb⟩ := hcubes _ h
            cases hcb
          · rw [List.mem_singleton] at h
            cases h
            exact vm_complete_clean_models p V1 s1.assignment hvm1 hwf hcomp hcl
        · intro hUN
          rcases List.mem_append.mp hUN with h | h
          · obtain ⟨cb, hcb⟩ := hcubes _ h
            cases hcb
          · rw [List.mem_singleton] at h
            cases h
        · intro hno σ hσ
          exact absurd (List.mem_append.mpr (Or.inr (List.mem_singleton.mpr rfl)))
            (hno s1.assignment.toSolution)
      · -- UNSAT: backtrack
        rename_i s1 hw
        obtain ⟨V1, hpe, hvm1, hinv1, hforce1, hsat1, hund1, huns1⟩ :=
          loopCore_spec p hwf (2 * p.numVars + 2) s [(Lit.new v val).inverted]
            (rp, Ls0 ++ [⟨v, val, []⟩]) .UNSAT s1 hvm hinv hseed hw
        obtain ⟨ps', rfl⟩ := propExt_last rp Ls0 v val [] V1 hpe
        obtain ⟨c0, hc0, hc0f⟩ := huns1 rfl
        have hf1 : ForcedTo p rp (Ls0 ++ [⟨v, val, [] ++ ps'⟩]) :=
          forcedTo_wave p rp Ls0 v val ([] ++ ps') s.assignment s1.assignment
            hvm hvm1 hforced hforce1
        refine ih .bt s1 g acc rp (Ls0 ++ [⟨v, val, [] ++ ps'⟩]) out hvm1 hinv1 hf1
          (cleanTo_last_props p rp Ls0 v val [] ([] ++ ps') hclean)
          hcubes hg ?_ (fun hcontra => by cases hcontra) heq
        intro σ hσ
        rcases hcov σ hσ with hcb | ⟨-, hag⟩ | hfb
        · exact Or.inl hcb
        · exfalso
          have hagnew : AgreesD σ (Ls0 ++ [⟨v, val, [] ++ ps'⟩]) :=
            (agreesD_last_props σ Ls0 v val [] ([] ++ ps')).mp hag
          have hextA : ExtendsA σ (viewAsgns (rp, Ls0 ++ [⟨v, val, [] ++ ps'⟩])) := by
            have h2 := hf1 (Ls0 ++ [(⟨v, val, [] ++ ps'⟩ : GLevel)]).length σ hσ
              (by rw [List.take_length]; exact hagnew)
            rw [prefixAsgns_full _ _ _ (le_refl _)] at h2
            exact h2
          have hst := vm_extends p.numVars _ s1.assignment σ hvm1 hextA
          obtain ⟨l, hl, hlt⟩ := hσ c0 hc0
          have hfin := hst l.var (!l.isPos) (hc0f l hl)
          rw [hlt] at hfin
          cases hp : l.isPos <;> rw [hp] at hfin <;> cases hfin
        · exact Or.inr (Or.inr (futureB_last_props σ Ls0 v val [] ([] ++ ps') hfb))
      · -- Undecided
        rename_i s1 hw
        obtain ⟨V1, hpe, hvm1, hinv1, hforce1, hsat1, hund1, huns1⟩ :=
          loopCore_spec p hwf (2 * p.numVars + 2) s [(Lit.new v val).inverted]
            (rp, Ls0 ++ [⟨v, val, []⟩]) .Undecided s1 hvm hinv hseed hw
        obtain ⟨ps', rfl⟩ := propExt_last rp Ls0 v val [] V1 hpe
        obtain ⟨hncomp, hcl⟩ := hund1 rfl
        have hf1 : ForcedTo p rp (Ls0 ++ [⟨v, val, [] ++ ps'⟩]) :=
          forcedTo_wave p rp Ls0 v val ([] ++ ps') s.assignment s1.assignment
            hvm hvm1 hforced hforce1
        have hcl1 : CleanTo p rp (Ls0 ++ [⟨v, val, [] ++ ps'⟩]) :=
          cleanTo_last_props p rp Ls0 v val [] ([] ++ ps') hclean
        have hcleanFull := vm_clean_full p _ s1.assignment hvm1 hcl
        split at heq
        · -- at max depth: emit the cube and backtrack
          have hcube := vm_extractDecisions p.numVars rp (Ls0 ++ [⟨v, val, [] ++ ps'⟩])
            s1.assignment hvm1
          refine ih .bt s1 true (acc ++ [.Cube s1.assignment.extractDecisions]) rp
            (Ls0 ++ [⟨v, val, [] ++ ps'⟩]) out hvm1 hinv1 hf1 hcl1 ?_
            (fun hcontra => by cases hcontra) ?_
            (fun hcontra => by cases hcontra) heq
          · intro r hr
            rcases List.mem_append.mp hr with h | h
            · exact hcubes r h
            · exact ⟨_, List.mem_singleton.mp h⟩
          · intro σ hσ
            rcases hcov σ hσ with ⟨cb, hcb, hcba⟩ | ⟨-, hag⟩ | hfb
            · exact Or.inl ⟨cb, List.mem_append.mpr (Or.inl hcb), hcba⟩
            · refine Or.inl ⟨s1.assignment.extractDecisions,
                List.mem_append.mpr (Or.inr (List.mem_singleton.mpr rfl)), ?_⟩
              rw [hcube, agreesL_map]
              exact (agreesD_last_props σ Ls0 v val [] _).mp hag
            · exact Or.inr (Or.inr (futureB_last_props σ Ls0 v val [] _ hfb))
        · -- below the depth limit: pop a fresh decision variable
          split at heq
          · rename_i w vs2 hpop
            have hpop1 : (s1.vsids.popMostActiveUnassignedVar
                s1.assignment.currentState).1 = some w := by rw [hpop]
            obtain ⟨hwu, hwlt⟩ := VSIDS.vsidsInv_pop_some s1.vsids
              s1.assignment.currentState w hinv1 hpop1
            have hwlt2 : w < p.numVars := by
              have h5 := hinv1.2.2.2.2.1
              rw [h5, hvm1.lenS] at hwlt
              exact hwlt
            have halk : alookup (viewAsgns (rp, Ls0 ++ [⟨v, val, [] ++ ps'⟩])) w
                = none := by
              rw [← hvm1.state w, stVal_eq_none]
              exact hwu
            have hvm2 := vm_decide p.numVars rp (Ls0 ++ [⟨v, val, [] ++ ps'⟩])
              s1.assignment w hvm1 halk hwlt2
            have hinv2 : VSIDSInv vs2
                (s1.assignment.currentState.set w OptBool.tru) := by
              have h2 := VSIDS.vsidsInv_popDecide s1.vsids
                s1.assignment.currentState w hpop1 hinv1
              rw [hpop] at h2
              exact h2
            refine ih .gen ⟨s1.assignment.decide w, vs2⟩ g acc rp
              ((Ls0 ++ [⟨v, val, [] ++ ps'⟩]) ++ [⟨w, true, []⟩]) out hvm2 hinv2
              (forcedTo_append_level p rp _ ⟨w, true, []⟩ rfl hf1)
              (cleanTo_append_level p rp _ _ hcl1 hcleanFull)
              hcubes hg ?_
              (fun _ => ⟨Ls0 ++ [⟨v, val, [] ++ ps'⟩], w, true, rfl⟩) heq
            intro σ hσ
            rcases hcov σ hσ with hcb | ⟨-, hag⟩ | hfb
            · exact Or.inl hcb
            · rcases hσw : σ w with - | -
              · -- σ w = false: the false branch is still owed
                refine Or.inr (Or.inr ?_)
                refine ⟨(Ls0 ++ [(⟨v, val, [] ++ ps'⟩ : GLevel)]).length,
                  by simp, ?_, ?_, ?_⟩
                · rw [glist_take_append _ _ _ (le_refl _), List.take_length]
                  exact (agreesD_last_props σ Ls0 v val [] _).mp hag
                · rw [glist_getD_append_len]
                · rw [glist_getD_append_len]
                  exact hσw
              · refine Or.inr (Or.inl ⟨rfl, ?_⟩)
                rw [agreesD_append_single]
                exact ⟨(agreesD_last_props σ Ls0 v val [] _).mp hag, hσw⟩
            · obtain ⟨j1, hj1, hag1, hdv1, hdw1⟩ :=
                futureB_last_props σ Ls0 v val [] ([] ++ ps') hfb
              refine Or.inr (Or.inr ?_)
              refine ⟨j1, ?_, ?_, ?_, ?_⟩
              · simp only [List.length_append, List.length_cons, List.length_nil]
                simp only [List.length_append, List.length_cons,
                  List.length_nil] at hj1
                omega
              · rw [glist_take_append _ _ _ (le_of_lt hj1)]
                exact hag1
              · rw [glist_getD_append _ _ _ _ hj1]
                exact hdv1
              · rw [glist_getD_append _ _ _ _ hj1]
                exact hdw1
          · -- pop returned none: contradicts incompleteness
            rename_i vs2 hpop
            exfalso
            have hpop1 : (s1.vsids.popMostActiveUnassignedVar
                s1.assignment.currentState).1 = none := by rw [hpop]
            have hall := VSIDS.vsidsInv_pop_none s1.vsids
              s1.assignment.currentState hinv1 hpop1
            have hcomp := vm_all_assigned_complete p.numVars _ s1.assignment hvm1
              (fun w hw => hall w (by rw [hvm1.lenS]; exact hw))
            rw [hcomp] at hncomp
            cases hncomp
    | bt =>
      rcases List.eq_nil_or_concat Ls with rfl | ⟨Ls0, L, hLs⟩
      · -- no decisions left: the run terminates
        have hbt := vm_backtrackOnce_nil p.numVars rp s.assignment hvm
        simp only [CubeGen.runLoop] at heq
        have hbol : CubeGen.backtrackOneLevel s
            = (BacktrackResult.NoMoreDecisions, ⟨s.assignment, s.vsids⟩) := by
          simp only [CubeGen.backtrackOneLevel, hbt, List.foldl_nil]
        rw [hbol] at heq
        have hcovnil : ∀ σ, PModels σ p →
            ∃ cb, CubeGenerationResult.Cube cb ∈ acc ∧ AgreesL σ cb := by
          intro σ hσ
          rcases hcov σ hσ with hcb | ⟨hph, -⟩ | hfb
          · exact hcb
          · cases hph
          · obtain ⟨j, hj, -⟩ := hfb
            cases hj
        cases g with
        | false =>
          have hacc := hg rfl
          subst hacc
          simp only [if_neg (by simp : ¬ (false = true)), List.nil_append] at heq
          cases heq
          refine ⟨?_, ?_, ?_⟩
          · intro sol hsol
            rw [List.mem_singleton] at hsol
            cases hsol
          · intro _ σ hσ
            obtain ⟨cb, hcb, -⟩ := hcovnil σ hσ
            cases hcb
          · intro hno σ hσ
            obtain ⟨cb, hcb, -⟩ := hcovnil σ hσ
            cases hcb
        | true =>
          simp only [if_pos rfl] at heq
          cases heq
          refine ⟨?_, ?_, ?_⟩
          · intro sol hsol
            obtain ⟨cb, hcb⟩ := hcubes _ hsol
            cases hcb
          · intro hUN
            obtain ⟨cb, hcb⟩ := hcubes _ hUN
            cases hcb
          · intro hno σ hσ
            exact hcovnil σ hσ
      · rw [List.concat_eq_append] at hLs
        subst hLs
        obtain ⟨v, val, ps⟩ := L
        have hVsOldEq : viewVars (rp, Ls0 ++ [⟨v, val, ps⟩])
            = viewVars (rp, Ls0) ++ (v :: ps.map Prod.fst) := by
          rw [viewVars, viewAsgns_last, List.map_append]
          rfl
        cases val with
        | true =>
          obtain ⟨a', hbt, hvm'⟩ :=
            vm_backtrackOnce_true p.numVars rp Ls0 v ps s.assignment hvm
          simp only [CubeGen.runLoop] at heq
          have hbol : CubeGen.backtrackOneLevel s
              = (BacktrackResult.TryAlternative (Lit.new v true),
                 ⟨a', ((ps.map Prod.fst).reverse).foldl VSIDS.onUnassignVar
                   s.vsids⟩) := by
            simp only [CubeGen.backtrackOneLevel, hbt]
          rw [hbol] at heq
          have hVsNewEq : viewVars (rp, Ls0 ++ [⟨v, false, []⟩])
              = viewVars (rp, Ls0) ++ [v] := by
            rw [viewVars, viewAsgns_last, List.map_append]
            rfl
          have hinv' : VSIDSInv (((ps.map Prod.fst).reverse).foldl
              VSIDS.onUnassignVar s.vsids) a'.currentState := by
            refine vsidsInv_backtrack_vm p.numVars (rp, Ls0 ++ [⟨v, true, ps⟩])
              (rp, Ls0 ++ [⟨v, false, []⟩]) s.assignment a' _ s.vsids hvm hvm'
              hinv ?_ ?_
            · intro w hwold hwnew
              rw [hVsOldEq] at hwold
              rw [hVsNewEq] at hwnew
              rcases List.mem_append.mp hwold with h | h
              · exact absurd (List.mem_append.mpr (Or.inl h)) hwnew
              · rcases List.mem_cons.mp h with rfl | h2
                · exact absurd (List.mem_append.mpr
                    (Or.inr (List.mem_singleton.mpr rfl))) hwnew
                · exact List.mem_reverse.mpr h2
            · intro w hw
              refine hvm.bounded w ?_
              rw [hVsOldEq]
              exact List.mem_append.mpr (Or.inr (List.mem_cons_of_mem _
                (List.mem_reverse.mp hw)))
          have hfull0 : ∀ c ∈ p.clauses,
              ¬ ClauseFalseF (alookup (viewAsgns (rp, Ls0))) c := by
            intro c hc
            have h2 := hclean Ls0.length (by simp) c hc
            rw [prefixAsgns_take_append _ _ _ _ (le_refl _),
              prefixAsgns_full _ _ _ (le_refl _)] at h2
            exact h2
          refine ih .gen ⟨a', _⟩ g acc rp (Ls0 ++ [⟨v, false, []⟩]) out hvm' hinv'
            (forcedTo_append_level p rp Ls0 ⟨v, false, []⟩ rfl
              (forcedTo_drop_last p rp Ls0 _ hforced))
            (cleanTo_append_level p rp Ls0 _
              (cleanTo_drop_last p rp Ls0 _ hclean) hfull0)
            hcubes hg ?_ (fun _ => ⟨Ls0, v, false, rfl⟩) heq
          intro σ hσ
          rcases hcov σ hσ with hcb | ⟨hph, -⟩ | hfb
          · exact Or.inl hcb
          · cases hph
          · obtain ⟨j, hj, hag, hdv, hdw⟩ := hfb
            have hjlen : j < Ls0.length + 1 := by
              simpa using hj
            by_cases hje : j < Ls0.length
            · refine Or.inr (Or.inr ?_)
              refine ⟨j, by simp; omega, ?_, ?_, ?_⟩
              · rw [glist_take_append _ _ _ (le_of_lt hje)]
                rw [glist_take_append _ _ _ (le_of_lt hje)] at hag
                exact hag
              · rw [glist_getD_append _ _ _ _ hje]
                rw [glist_getD_append _ _ _ _ hje] at hdv
                exact hdv
              · rw [glist_getD_append _ _ _ _ hje]
                rw [glist_getD_append _ _ _ _ hje] at hdw
                exact hdw
            · have hjeq : j = Ls0.length := by omega
              subst hjeq
              rw [glist_take_append _ _ _ (le_refl _), List.take_length] at hag
              rw [glist_getD_append_len] at hdw
              refine Or.inr (Or.inl ⟨rfl, ?_⟩)
              rw [agreesD_append_single]
              exact ⟨hag, hdw⟩
        | false =>
          obtain ⟨a', hbt, hvm'⟩ :=
            vm_backtrackOnce_false p.numVars rp Ls0 v ps s.assignment hvm
          simp only [CubeGen.runLoop] at heq
          have hbol : CubeGen.backtrackOneLevel s
              = (BacktrackResult.ContinueBacktracking,
                 ⟨a', (((ps.map Prod.fst).reverse) ++ [v]).foldl
                   VSIDS.onUnassignVar s.vsids⟩) := by
            simp only [CubeGen.backtrackOneLevel, hbt]
          rw [hbol] at heq
          have hinv' : VSIDSInv ((((ps.map Prod.fst).reverse) ++ [v]).foldl
              VSIDS.onUnassignVar s.vsids) a'.currentState := by
            refine vsidsInv_backtrack_vm p.numVars (rp, Ls0 ++ [⟨v, false, ps⟩])
              (rp, Ls0) s.assignment a' _ s.vsids hvm hvm' hinv ?_ ?_
            · intro w hwold hwnew
              rw [hVsOldEq] at hwold
              rcases List.mem_append.mp hwold with h | h
              · exact absurd h hwnew
              · rcases List.mem_cons.mp h with rfl | h2
                · exact List.mem_append.mpr (Or.inr (List.mem_singleton.mpr rfl))
                · exact List.mem_append.mpr (Or.inl (List.mem_reverse.mpr h2))
            · intro w hw
              refine hvm.bounded w ?_
              rw [hVsOldEq]
              rcases List.mem_append.mp hw with h | h
              · exact List.mem_append.mpr (Or.inr (List.mem_cons_of_mem _
                  (List.mem_reverse.mp h)))
              · rw [List.mem_singleton.mp h]
                exact List.mem_append.mpr (Or.inr (List.mem_cons_self _ _))
          refine ih .bt ⟨a', _⟩ g acc rp Ls0 out hvm' hinv'
            (forcedTo_drop_last p rp Ls0 _ hforced)
            (cleanTo_drop_last p rp Ls0 _ hclean)
            hcubes hg ?_ (fun hcontra => by cases hcontra) heq
          intro σ hσ
          rcases hcov σ hσ with hcb | ⟨hph, -⟩ | hfb
          · exact Or.inl hcb
          · cases hph
          · obtain ⟨j, hj, hag, hdv, hdw⟩ := hfb
            have hjlen : j < Ls0.length + 1 := by
              simpa using hj
            by_cases hje : j < Ls0.length
            · refine Or.inr (Or.inr ?_)
              refine ⟨j, hje, ?_, ?_, ?_⟩
              · rw [glist_take_append _ _ _ (le_of_lt hje)] at hag
                exact hag
              · rw [glist_getD_append _ _ _ _ hje] at hdv
                exact hdv
              · rw [glist_getD_append _ _ _ _ hje] at hdw
                exact hdw
            · exfalso
              have hjeq : j = Ls0.length := by omega
              subst hjeq
              rw [glist_getD_append_len] at hdv
              cases hdv

lemma replicate_getD_uns (n w : Nat) :
    (List.replicate n OptBool.uns).getD w OptBool.uns = OptBool.uns := by
  by_cases hw : w < n
  · simp [List.getD, List.getElem?_eq_getElem (by simpa using hw :
      w < (List.replicate n OptBool.uns).length)]
  · simp [List.getD, List.getElem?_eq_none (by simpa using hw :
      (List.replicate n OptBool.uns).length ≤ w)]

lemma vm_init (nV : Nat) : VMatch nV ([], []) (CorePA.withDecisions nV []) := by
  refine ⟨rfl, rfl, rfl, ?_, ?_, rfl, List.nodup_nil, ?_⟩
  · intro w
    show stVal ((DecisionPath.toAssignment [] nV)) w = none
    show (match (DecisionPath.toAssignment [] nV).getD w OptBool.uns with
      | OptBool.uns => none | OptBool.tru => some true
      | OptBool.fls => some false) = none
    have : DecisionPath.toAssignment [] nV = List.replicate nV OptBool.uns := rfl
    rw [this, replicate_getD_uns]
  · show (DecisionPath.toAssignment [] nV).length = nV
    have : DecisionPath.toAssignment [] nV = List.replicate nV OptBool.uns := rfl
    rw [this, List.length_replicate]
  · intro w hw
    cases hw

lemma clause_fold_length (q : ℚ) (c : List Lit) :
    ∀ st : List ℚ,
      (c.foldl (fun sc l => sc.set l.var (sc.getD l.var 0 + q)) st).length
        = st.length := by
  induction c with
  | nil => intro st; rfl
  | cons l ls ih =>
    intro st
    rw [List.foldl_cons, ih]
    simp

lemma jeroslowWang_length (p : Problem) :
    (p.jeroslowWangScores).length = p.numVars := by
  show (p.clauses.foldl _ (List.replicate p.numVars (0 : ℚ))).length = p.numVars
  generalize hst : List.replicate p.numVars (0 : ℚ) = st
  have hlen : st.length = p.numVars := by rw [← hst]; simp
  clear hst
  induction p.clauses generalizing st with
  | nil => exact hlen
  | cons c cs ih =>
    rw [List.foldl_cons]
    exact ih _ ((clause_fold_length ((1/2) ^ c.length) c st).trans hlen)

lemma forcedTo_nil (p : Problem) (rp : List (Nat × Bool)) (a : CorePA)
    (hvm : VMatch p.numVars (rp, []) a)
    (hroot : ∀ σ, PModels σ p →
      ∀ w b, a.currentState.getD w OptBool.uns = OptBool.fromBool b → σ w = b) :
    ForcedTo p rp [] := by
  intro j σ hσ _
  rw [prefixAsgns_full rp [] j (by simp)]
  exact vm_extendsA_of_state p.numVars (rp, []) a σ hvm (hroot σ hσ)

lemma cleanTo_nil (p : Problem) (rp : List (Nat × Bool)) : CleanTo p rp [] := by
  intro j hj
  cases hj

/-- C2: `CubeGenerator::generate` is equivalent to the problem it splits
(spec-modelled `dpll_core` solver; clause variables in range; completed
fuelled run).  For every `max_depth >= 1`: an emitted `SAT(assignment)`
satisfies every clause of `p`; an emitted `UNSAT` means `p` has no model;
and if neither verdict is emitted, `p` is satisfiable iff `p` conjoined
with the decision literals of some emitted cube is satisfiable. -/
theorem cubeGenerator_equivalence (p : Problem) (maxDepth fuel : Nat)
    (hwf : ∀ c ∈ p.clauses, ∀ l ∈ c, l.var < p.numVars)
    (hmd : 1 ≤ maxDepth) (out : List CubeGenerationResult)
    (hrun : CubeGen.generate p maxDepth fuel = some out) :
    (∀ sol, CubeGenerationResult.SAT sol ∈ out →
      PModels (fun w => sol.getD w false) p) ∧
    (CubeGenerationResult.UNSAT ∈ out → ¬ ∃ σ, PModels σ p) ∧
    ((∀ sol, CubeGenerationResult.SAT sol ∉ out) →
      CubeGenerationResult.UNSAT ∉ out →
      ((∃ σ, PModels σ p) ↔
        ∃ cb, CubeGenerationResult.Cube cb ∈ out ∧
          ∃ σ, PModels σ p ∧ AgreesL σ cb)) := by
  have hvm0 : VMatch p.numVars ([], []) (CorePA.withDecisions p.numVars []) :=
    vm_init p.numVars
  have hinv0 : VSIDSInv (VSIDS.withScores p.jeroslowWangScores)
      (CorePA.withDecisions p.numVars []).currentState := by
    have h1 := VSIDS.vsidsInv_init p.jeroslowWangScores
    rw [jeroslowWang_length p] at h1
    exact h1
  have hroot0 : ∀ σ, PModels σ p → ∀ w b,
      (CorePA.withDecisions p.numVars []).currentState.getD w OptBool.uns
        = OptBool.fromBool b → σ w = b := by
    intro σ hσ w b hw
    exfalso
    have hrep : (CorePA.withDecisions p.numVars []).currentState
        = List.replicate p.numVars OptBool.uns := rfl
    rw [hrep, replicate_getD_uns] at hw
    cases b <;> cases hw
  have hscan0 : ∀ c ∈ p.clauses,
      (∀ l ∈ c, LitFalseSt (CorePA.withDecisions p.numVars []).currentState l) →
      (∃ l ∈ ([] : List Lit), l ∈ c) ∨ c ∈ p.clauses := fun c hc _ => Or.inr hc
  obtain ⟨hnone, hsome⟩ := rootScan_spec p hwf p.clauses
    ⟨CorePA.withDecisions p.numVars [], VSIDS.withScores p.jeroslowWangScores⟩
    [] ([], []) (fun c hc => hc) hvm0 hinv0 hroot0 hscan0
  simp only [CubeGen.generate, CubeGen.propagateUnitsRoot] at hrun
  rcases hrs : CubeGen.rootScan
      ⟨CorePA.withDecisions p.numVars [], VSIDS.withScores p.jeroslowWangScores⟩
      [] p.clauses with - | ⟨s1, stack1⟩ <;> rw [hrs] at hrun
  · -- root conflict: UNSAT
    cases hrun
    have hnomodels := hnone hrs
    refine ⟨?_, ?_, ?_⟩
    · intro sol hsol
      rw [List.mem_singleton] at hsol
      cases hsol
    · rintro - ⟨σ, hσ⟩
      exact hnomodels σ hσ
    · intro hno hnUN
      constructor
      · rintro ⟨σ, hσ⟩
        exact absurd hσ (hnomodels σ)
      · rintro ⟨cb, -, σ, hσ, -⟩
        exact absurd hσ (hnomodels σ)
  · obtain ⟨V1, hpe1, hvm1, hinv1, hroot1, hcov1⟩ := hsome s1 stack1 hrs
    obtain ⟨rp1, rfl⟩ := propExt_root [] V1 hpe1
    split at hrun
    · -- wave fuel ran out
      cases hrun
    · -- loop SAT
      rename_i s2 hw
      cases hrun
      obtain ⟨V2, hpe2, hvm2, hinv2, hforce2, hsat2, hund2, huns2⟩ :=
        loopCore_spec p hwf (2 * p.numVars + 2) s1 stack1 ([] ++ rp1, [])
          .SAT s2 hvm1 hinv1 hcov1 hw
      obtain ⟨hcomp, hcl⟩ := hsat2 rfl
      refine ⟨?_, ?_, ?_⟩
      · intro sol hsol
        rw [List.mem_singleton] at hsol
        cases hsol
        exact vm_complete_clean_models p V2 s2.assignment hvm2 hwf hcomp hcl
      · intro hUN
        rw [List.mem_singleton] at hUN
        cases hUN
      · intro hno hnUN
        exact absurd (List.mem_singleton.mpr rfl) (hno s2.assignment.toSolution)
    · -- loop UNSAT
      rename_i s2 hw
      cases hrun
      obtain ⟨V2, hpe2, hvm2, hinv2, hforce2, hsat2, hund2, huns2⟩ :=
        loopCore_spec p hwf (2 * p.numVars + 2) s1 stack1 ([] ++ rp1, [])
          .UNSAT s2 hvm1 hinv1 hcov1 hw
      obtain ⟨c0, hc0, hc0f⟩ := huns2 rfl
      have hnomodels : ∀ σ, ¬ PModels σ p := by
        intro σ hσ
        have hext2 := hforce2 σ hσ (hroot1 σ hσ)
        obtain ⟨l, hl, hlt⟩ := hσ c0 hc0
        have hfin := hext2 l.var (!l.isPos) (hc0f l hl)
        rw [hlt] at hfin
        cases hp : l.isPos <;> rw [hp] at hfin <;> cases hfin
      refine ⟨?_, ?_, ?_⟩
      · intro sol hsol
        rw [List.mem_singleton] at hsol
        cases hsol
      · rintro - ⟨σ, hσ⟩
        exact hnomodels σ hσ
      · intro hno hnUN
        constructor
        · rintro ⟨σ, hσ⟩
          exact absurd hσ (hnomodels σ)
        · rintro ⟨cb, -, σ, hσ, -⟩
          exact absurd hσ (hnomodels σ)
    · -- loop Undecided: first decision
      rename_i s2 hw
      obtain ⟨V2, hpe2, hvm2, hinv2, hforce2, hsat2, hund2, huns2⟩ :=
        loopCore_spec p hwf (2 * p.numVars + 2) s1 stack1 ([] ++ rp1, [])
          .Undecided s2 hvm1 hinv1 hcov1 hw
      obtain ⟨rp2, rfl⟩ := propExt_root ([] ++ rp1) V2 hpe2
      obtain ⟨hncomp, hcl⟩ := hund2 rfl
      have hrootfin : ∀ σ, PModels σ p → ∀ w b,
          s2.assignment.currentState.getD w OptBool.uns = OptBool.fromBool b →
          σ w = b := fun σ hσ => hforce2 σ hσ (hroot1 σ hσ)
      split at hrun
      · -- pop some: enter the main loop
        rename_i w vs2 hpop
        have hpop1 : (s2.vsids.popMostActiveUnassignedVar
            s2.assignment.currentState).1 = some w := by rw [hpop]
        obtain ⟨hwu, hwlt⟩ := VSIDS.vsidsInv_pop_some s2.vsids
          s2.assignment.currentState w hinv2 hpop1
        have hwlt2 : w < p.numVars := by
          have h5 := hinv2.2.2.2.2.1
          rw [h5, hvm2.lenS] at hwlt
          exact hwlt
        have halk : alookup (viewAsgns ([] ++ rp1 ++ rp2, [])) w = none := by
          rw [← hvm2.state w, stVal_eq_none]
          exact hwu
        have hvmd := vm_decide p.numVars ([] ++ rp1 ++ rp2) [] s2.assignment w
          hvm2 halk hwlt2
        have hinvd : VSIDSInv vs2
            (s2.assignment.currentState.set w OptBool.tru) := by
          have h2 := VSIDS.vsidsInv_popDecide s2.vsids
            s2.assignment.currentState w hpop1 hinv2
          rw [hpop] at h2
          exact h2
        have hcovd : ∀ σ, PModels σ p →
            (∃ cb, CubeGenerationResult.Cube cb ∈
              ([] : List CubeGenerationResult) ∧ AgreesL σ cb) ∨
            (CubeGen.Phase.gen = CubeGen.Phase.gen ∧
              AgreesD σ ([] ++ [⟨w, true, []⟩])) ∨
            FutureB σ ([] ++ [⟨w, true, []⟩]) := by
          intro σ hσ
          rcases hσw : σ w with - | -
          · refine Or.inr (Or.inr ?_)
            refine ⟨0, by simp, ?_, ?_, ?_⟩
            · rw [List.take_zero]
              intro L hL
              cases hL
            · rfl
            · exact hσw
          · refine Or.inr (Or.inl ⟨rfl, ?_⟩)
            intro L hL
            rw [List.nil_append, List.mem_singleton] at hL
            rw [hL]
            exact hσw
        obtain ⟨O1, O2, O3⟩ := runLoop_spec p hwf maxDepth fuel .gen
          ⟨s2.assignment.decide w, vs2⟩ false [] ([] ++ rp1 ++ rp2)
          ([] ++ [⟨w, true, []⟩]) out hvmd hinvd
          (forcedTo_append_level p ([] ++ rp1 ++ rp2) [] ⟨w, true, []⟩ rfl
            (forcedTo_nil p ([] ++ rp1 ++ rp2) s2.assignment hvm2 hrootfin))
          (cleanTo_append_level p ([] ++ rp1 ++ rp2) [] ⟨w, true, []⟩
            (cleanTo_nil p _) (vm_clean_full p _ s2.assignment hvm2 hcl))
          (fun r hr => absurd hr (List.not_mem_nil r))
          (fun _ => rfl) hcovd (fun _ => ⟨[], w, true, rfl⟩) hrun
        refine ⟨O1, ?_, ?_⟩
        · rintro hUN ⟨σ, hσ⟩
          exact O2 hUN σ hσ
        · intro hno hnUN
          constructor
          · rintro ⟨σ, hσ⟩
            obtain ⟨cb, hcb, hagr⟩ := O3 hno σ hσ
            exact ⟨cb, hcb, σ, hσ, hagr⟩
          · rintro ⟨cb, -, σ, hσ, -⟩
            exact ⟨σ, hσ⟩
      · -- pop none: contradicts incompleteness
        rename_i vs2 hpop
        exfalso
        have hpop1 : (s2.vsids.popMostActiveUnassignedVar
            s2.assignment.currentState).1 = none := by rw [hpop]
        have hall := VSIDS.vsidsInv_pop_none s2.vsids
          s2.assignment.currentState hinv2 hpop1
        have hcomp := vm_all_assigned_complete p.numVars _ s2.assignment hvm2
          (fun u hu => hall u (by rw [hvm2.lenS]; exact hu))
        rw [hcomp] at hncomp
        cases hncomp

/-- Witness: on the problem with one empty clause the generator emits
exactly `UNSAT` (a root-level conflict), and the theorem instantiates to
its unsatisfiability. -/
theorem cubeGenerator_equivalence_witness :
    CubeGen.generate ⟨1, [[]]⟩ 1 1 = some [CubeGenerationResult.UNSAT] ∧
    ¬ ∃ σ, PModels σ ⟨1, [[]]⟩ :=
  ⟨by decide,
   (cubeGenerator_equivalence ⟨1, [[]]⟩ 1 1 (by decide) (by decide)
      [CubeGenerationResult.UNSAT] (by decide)).2.1 (by decide)⟩
